import Mathlib

/-!
# WCSimIBDGen: inverse-beta-decay event generator

A shallow embedding of `src/src/WCSimIBDGen.cc`.

Numbers.  A `float`/`double` is idealised to an element of an ordered field `K`
(every finite `double` is a rational number, so `K = ℚ` runs the sqrt-free code
and `K = ℝ` carries an exact square root).  The functions are embedded with exact
arithmetic.  Where a property depends on the rounding of `double` arithmetic, the
code is embedded a second time with a rounding `rnd` applied to the result of
each operation concerned: `InterpolateSpectrum.rounded` rounds the six
operations of the interpolation formula, and `GenEvent` rounds the arithmetic of
the momentum magnitude, of the neutrino momentum and of the neutron, and takes
`acos`, `sin`, `cos` and the rotation that they feed as exact.  `binary64` is the rounding to `double`
(nearest, ties to even, exponent range not bounded), and the identity is the
rounding of exact arithmetic.  *Definedness* is modelled throughout: an
operation with no value over the reals (a division by zero, the square root of
a negative number, `acos` outside `[-1, 1]`) yields `none`, which stands for the
non-finite `double` (NaN or an infinity) that C++ produces there.  A non-finite
value propagates through arithmetic, and every comparison with it is false.
Overflow is not modelled.

Randomness.  `G4UniformRand()` is a stream `rand : ℕ → K` read at a counter that
each function returns advanced by the number of draws it made.

Loops.  The `for` loop of `InterpolateSpectrum` recurses on the number of indices
left; the unbounded `while` loop of `GenInteraction` takes fuel, and `none` there
means that the fuel ran out before a candidate was accepted.
-/

namespace WCSimIBDGen

variable {K : Type} [LinearOrderedField K]

/-! ## Numeric primitives -/

/-- Division of two `double`s; `none` when the divisor is zero. -/
def fdiv (a b : K) : Option K :=
  if b = 0 then none else some (a / b)

/-- The comparison `a < b` of two `double`s: false as soon as one side is not finite. -/
def flt : Option K → Option K → Bool
  | some a, some b => decide (a < b)
  | _, _ => false

/-- The product of two `double`s, not finite as soon as one factor is not. -/
def fmul (a b : Option K) : Option K := do
  let x ← a
  let y ← b
  pure (x * y)

/-- A rounding of unit roundoff `u`: the rounded value lies within the relative error `u` of
its argument.  The four operations of `double` arithmetic round their exact result this way
with `u = 2⁻⁵³`, as long as that result neither overflows nor underflows; exact arithmetic is
the rounding `id` with `u = 0`. -/
def Rounding (rnd : K → K) (u : K) : Prop :=
  ∀ x : K, |rnd x - x| ≤ u * |x|

/-- The integer nearest to `y`, the even one of the two when `y` lies half way. -/
def roundHalfEven [FloorRing K] (y : K) : ℤ :=
  let f := ⌊y⌋
  let r := y - f
  if r < 1 / 2 then f else if 1 / 2 < r then f + 1 else if f % 2 = 0 then f else f + 1

/-- Rounding to `double`: the nearest number `k * 2 ^ e` whose significand `k` holds 53 bits,
ties to the even significand, for `2 ^ (e + 52) ≤ |x| < 2 ^ (e + 53)`.  The exponent is not
bounded: overflow and underflow are left out. -/
def binary64 [FloorRing K] (x : K) : K :=
  if x = 0 then 0
  else
    let e : ℤ := Int.log 2 |x| - 52
    (roundHalfEven (x / 2 ^ e) : K) * 2 ^ e

/-- The functions of `<cmath>` used by the generator.  `sqrt` and `acos` are partial. -/
structure LibM (K : Type) where
  sqrt : K → Option K
  acos : K → Option K
  sin : K → K
  cos : K → K

/-- An exact square root: no value below zero, the non-negative root from zero on. -/
def LibM.SqrtExact (m : LibM K) : Prop :=
  ∀ x : K, (x < 0 → m.sqrt x = none) ∧
    (0 ≤ x → ∃ y, m.sqrt x = some y ∧ 0 ≤ y ∧ y * y = x)

/-- An arc cosine with a value on all of `[-1, 1]`. -/
def LibM.AcosDefined (m : LibM K) : Prop :=
  ∀ x : K, -1 ≤ x → x ≤ 1 → ∃ y, m.acos x = some y

/-- The exact functions of the real numbers.  `Real.sqrt` and `Real.arccos` are total in
Mathlib; the guards restore the partiality of the C functions. -/
noncomputable def realLibM : LibM ℝ where
  sqrt := fun x => if x < 0 then none else some (Real.sqrt x)
  acos := fun x => if x < -1 ∨ 1 < x then none else some (Real.arccos x)
  sin := Real.sin
  cos := Real.cos

/-- The constants of `CLHEP/Units/PhysicalConstants.h` that the generator reads, in CLHEP
units (MeV, mm).  The header is not part of the repository, so the values are parameters;
the three constants the code divides by carry their positivity. -/
structure PhysicalConstants (K : Type) [LinearOrderedField K] where
  electron_mass_c2 : K
  proton_mass_c2 : K
  neutron_mass_c2 : K
  pi : K
  hbarc : K
  electron_mass_pos : 0 < electron_mass_c2
  proton_mass_pos : 0 < proton_mass_c2
  pi_pos : 0 < pi

/-- The values of CLHEP 2.x: `electron_mass_c2 = 0.510998910 MeV`,
`proton_mass_c2 = 938.272013 MeV`, `neutron_mass_c2 = 939.56536 MeV`,
`pi = 3.14159265358979323846`, `hbarc = 197.3269631e-12 MeV mm`. -/
def clhep : PhysicalConstants K where
  electron_mass_c2 := 0.510998910
  proton_mass_c2 := 938.272013
  neutron_mass_c2 := 939.56536
  pi := 3.14159265358979323846
  hbarc := 197.3269631e-12
  electron_mass_pos := by norm_num
  proton_mass_pos := by norm_num
  pi_pos := by norm_num

/-! ## Vectors (`G4ThreeVector`, `G4LorentzVector`) -/

/-- A `G4ThreeVector`. -/
structure ThreeVector (K : Type) where
  x : K
  y : K
  z : K

/-- A `G4LorentzVector` as `GenEvent` fills it: a momentum and an energy.  Each of the two is
`none` when the code computes it from a value that is not a number, which leaves no number
in it. -/
structure LorentzVector (K : Type) where
  vect : Option (ThreeVector K)
  e : Option K

/-- Scaling `a * v`. -/
def ThreeVector.smul (a : K) (v : ThreeVector K) : ThreeVector K :=
  ⟨a * v.x, a * v.y, a * v.z⟩

/-- Sum `v + w`. -/
def ThreeVector.add (v w : ThreeVector K) : ThreeVector K :=
  ⟨v.x + w.x, v.y + w.y, v.z + w.z⟩

/-- Difference `v - w`. -/
def ThreeVector.sub (v w : ThreeVector K) : ThreeVector K :=
  ⟨v.x - w.x, v.y - w.y, v.z - w.z⟩

/-- Difference `v - w` as `double` arithmetic computes it: each component is rounded by
`rnd`. -/
def ThreeVector.roundedSub (rnd : K → K) (v w : ThreeVector K) : ThreeVector K :=
  ⟨rnd (v.x - w.x), rnd (v.y - w.y), rnd (v.z - w.z)⟩

/-- Scaling `a * v` as `double` arithmetic computes it: each product is rounded by `rnd`. -/
def ThreeVector.roundedSmul (rnd : K → K) (a : K) (v : ThreeVector K) : ThreeVector K :=
  ⟨rnd (a * v.x), rnd (a * v.y), rnd (a * v.z)⟩

/-- Squared length `x*x + y*y + z*z` as `double` arithmetic computes it: the three products
and the two sums, from left to right, are rounded by `rnd`. -/
def ThreeVector.roundedMag2 (rnd : K → K) (v : ThreeVector K) : K :=
  rnd (rnd (rnd (v.x * v.x) + rnd (v.y * v.y)) + rnd (v.z * v.z))

/-- Squared length `v.mag2()`. -/
def ThreeVector.mag2 (v : ThreeVector K) : K :=
  v.x * v.x + v.y * v.y + v.z * v.z

/-- Modelled from the spec: `Hep3Vector::setRThetaPhi` belongs to CLHEP, not to the
repository; the spec asks for a direction of polar angle `theta` and azimuth `phi`. -/
def ThreeVector.setRThetaPhi (m : LibM K) (r theta phi : K) : ThreeVector K :=
  ⟨r * m.sin theta * m.cos phi, r * m.sin theta * m.sin phi, r * m.cos theta⟩

/-- Modelled from the spec: `Hep3Vector::orthogonal` belongs to CLHEP, not to the
repository; the spec asks for a vector orthogonal to `v`.  CLHEP drops the
component of smallest absolute value and swaps the other two with a sign. -/
def ThreeVector.orthogonal (v : ThreeVector K) : ThreeVector K :=
  let xx := if v.x < 0 then -v.x else v.x
  let yy := if v.y < 0 then -v.y else v.y
  let zz := if v.z < 0 then -v.z else v.z
  if xx < yy then
    if xx < zz then ⟨0, v.z, -v.y⟩ else ⟨v.y, -v.x, 0⟩
  else
    if yy < zz then ⟨-v.z, 0, v.x⟩ else ⟨v.y, -v.x, 0⟩

/-- Modelled from the spec: `Hep3Vector::rotate(angle, axis)` belongs to CLHEP, not to the
repository; the spec asks for the rotation of `v` by `angle` about `axis`.  CLHEP leaves `v`
alone for a zero angle or a zero axis and otherwise applies the rotation matrix of the
normalised axis. -/
def ThreeVector.rotate (m : LibM K) (v : ThreeVector K) (angle : K) (axis : ThreeVector K) :
    Option (ThreeVector K) :=
  if angle = 0 then some v
  else do
    let ll ← m.sqrt axis.mag2
    if ll = 0 then pure v
    else
      let sa := m.sin angle
      let ca := m.cos angle
      let dx := axis.x / ll
      let dy := axis.y / ll
      let dz := axis.z / ll
      pure ⟨(ca + (1 - ca) * dx * dx) * v.x + ((1 - ca) * dx * dy - sa * dz) * v.y
              + ((1 - ca) * dx * dz + sa * dy) * v.z,
            ((1 - ca) * dy * dx + sa * dz) * v.x + (ca + (1 - ca) * dy * dy) * v.y
              + ((1 - ca) * dy * dz - sa * dx) * v.z,
            ((1 - ca) * dz * dx - sa * dy) * v.x + ((1 - ca) * dz * dy + sa * dx) * v.y
              + (ca + (1 - ca) * dz * dz) * v.z⟩

/-! ## The generator -/

/-- The data members of `WCSimIBDGen` that the code reads: the spectrum table, its energy
range, the flux envelope, and the detector half-dimensions `myDetector->GetGeo_Dm(i)`. -/
structure Generator (K : Type) where
  energy : List K
  flux : List K
  e_min : K
  e_max : K
  flux_max : K
  GetGeo_Dm : Nat → K

/-- `ReadSpectrum`, run on the rows `(e, f)` parsed from an opened file: every row is
appended to `energy` and `flux`, then `e_min` and `e_max` are set from `energy.front()` and
`energy.back()`, which have no value on an empty table. -/
def ReadSpectrum (g : Generator K) (rows : List (K × K)) : Option (Generator K) := do
  let energy := g.energy ++ rows.map Prod.fst
  let flux := g.flux ++ rows.map Prod.snd
  let e_min ← energy.head?
  let e_max ← energy.getLast?
  pure { g with energy := energy, flux := flux, e_min := e_min, e_max := e_max }

/-- The body of the `if (ene <= ener_vec[i])` branch: linear interpolation on the bracket
`[i - 1, i]`.  An index out of range has no value. -/
def InterpolateSpectrum.bracket (ener_vec flux_vec : List K) (ene : K) (i : Nat) :
    Option K := do
  let e1 ← ener_vec[i - 1]?
  let e2 ← ener_vec[i]?
  let f1 ← flux_vec[i - 1]?
  let f2 ← flux_vec[i]?
  let q ← fdiv ((f2 - f1) * (ene - e1)) (e2 - e1)
  pure (f1 + q)

/-- The loop `for (i = ...; i < ener_vec.size(); i++)` with `n` indices left, followed by
`return flux_vec.back()`. -/
def InterpolateSpectrum.loop (ener_vec flux_vec : List K) (ene : K) : Nat → Nat → Option K
  | 0, _ => flux_vec.getLast?
  | n + 1, i =>
    match ener_vec[i]? with
    | none => none
    | some e2 =>
      if ene ≤ e2 then InterpolateSpectrum.bracket ener_vec flux_vec ene i
      else InterpolateSpectrum.loop ener_vec flux_vec ene n (i + 1)

/-- `InterpolateSpectrum`: the loop starts at index 1. -/
def InterpolateSpectrum (ener_vec flux_vec : List K) (ene : K) : Option K :=
  InterpolateSpectrum.loop ener_vec flux_vec ene (ener_vec.length - 1) 1

/-- The body of the `if (ene <= ener_vec[i])` branch of `InterpolateSpectrum` with the result
of each of its six arithmetic operations rounded by `rnd`, as `double` arithmetic does: the
three differences, the product, the quotient and the sum.  The conversions of the `float`
operands to `double` are exact. -/
def InterpolateSpectrum.roundedBracket (rnd : K → K) (ener_vec flux_vec : List K) (ene : K)
    (i : Nat) : Option K := do
  let e1 ← ener_vec[i - 1]?
  let e2 ← ener_vec[i]?
  let f1 ← flux_vec[i - 1]?
  let f2 ← flux_vec[i]?
  let q ← fdiv (rnd (rnd (f2 - f1) * rnd (ene - e1))) (rnd (e2 - e1))
  pure (rnd (f1 + rnd q))

/-- The loop of `InterpolateSpectrum` over the rounded branch; the comparisons
`ene <= ener_vec[i]` are exact. -/
def InterpolateSpectrum.roundedLoop (rnd : K → K) (ener_vec flux_vec : List K) (ene : K) :
    Nat → Nat → Option K
  | 0, _ => flux_vec.getLast?
  | n + 1, i =>
    match ener_vec[i]? with
    | none => none
    | some e2 =>
      if ene ≤ e2 then InterpolateSpectrum.roundedBracket rnd ener_vec flux_vec ene i
      else InterpolateSpectrum.roundedLoop rnd ener_vec flux_vec ene n (i + 1)

/-- `InterpolateSpectrum` in rounded arithmetic: `rnd = binary64` is the function as it runs
in `double`, `rnd = id` is `InterpolateSpectrum`. -/
def InterpolateSpectrum.rounded (rnd : K → K) (ener_vec flux_vec : List K) (ene : K) :
    Option K :=
  InterpolateSpectrum.roundedLoop rnd ener_vec flux_vec ene (ener_vec.length - 1) 1

/-- `GenRandomPosition`: three draws, one per axis. -/
def GenRandomPosition (g : Generator K) (rand : Nat → K) (k : Nat) : ThreeVector K × Nat :=
  let x_nu := g.GetGeo_Dm 0 * (-1 + 2 * rand k)
  let y_nu := g.GetGeo_Dm 1 * (-1 + 2 * rand (k + 1))
  let z_nu := g.GetGeo_Dm 2 * (-1 + 2 * rand (k + 2))
  (⟨x_nu, y_nu, z_nu⟩, k + 3)

/-- The constant `DELTA` of `CrossSection`. -/
def CrossSection.DELTA (c : PhysicalConstants K) : K :=
  c.neutron_mass_c2 - c.proton_mass_c2

/-- The constant `e_nu_min` of `CrossSection`: the threshold of inverse beta decay. -/
def CrossSection.e_nu_min (c : PhysicalConstants K) : K :=
  ((c.proton_mass_c2 + CrossSection.DELTA c + c.electron_mass_c2) *
      (c.proton_mass_c2 + c.electron_mass_c2 + CrossSection.DELTA c) -
    c.proton_mass_c2 * c.proton_mass_c2) / 2 / c.proton_mass_c2

/-- The order 0 energy of `CrossSection`, after its clamp. -/
def CrossSection.e0 (c : PhysicalConstants K) (e_nu : K) : K :=
  let e0 := e_nu - CrossSection.DELTA c
  if e0 < c.electron_mass_c2 then c.electron_mass_c2 else e0

/-- The order 1 energy of `CrossSection`, after its clamp, from the order 0 energy `e0` and
velocity `v0`. -/
def CrossSection.e1 (c : PhysicalConstants K) (e_nu cos_theta e0 v0 : K) : K :=
  let DELTA := CrossSection.DELTA c
  let y_squared := (DELTA * DELTA - c.electron_mass_c2 * c.electron_mass_c2) / 2
  let e1 := e0 * (1 - e_nu / c.proton_mass_c2 * (1 - v0 * cos_theta))
              - y_squared / c.proton_mass_c2
  if e1 < c.electron_mass_c2 then c.electron_mass_c2 else e1

/-- The term `gamma` of `CrossSection`; `me2_e0` is the quotient
`electron_mass_c2 * electron_mass_c2 / e0` and `cos_v0` the quotient `cos_theta / v0`. -/
def CrossSection.gamma (c : PhysicalConstants K) (cos_theta e0 v0 me2_e0 cos_v0 : K) : K :=
  let DELTA := CrossSection.DELTA c
  let f : K := 1.00
  let f2 : K := 3.706
  let g : K := 1.26
  2 * (f + f2) * g * ((2 * e0 + DELTA) * (1 - v0 * cos_theta) - me2_e0) +
  (f * f + g * g) * (DELTA * (1 + v0 * cos_theta) + me2_e0) +
  (f * f + 3 * g * g) * ((e0 + DELTA) * (1 - cos_v0) - DELTA) +
  (f * f - g * g) * ((e0 + DELTA) * (1 - cos_v0) - DELTA) * v0 * cos_theta

/-- The constant `sigma_0` of `CrossSection`. -/
def CrossSection.sigma_0 (c : PhysicalConstants K) : K :=
  let cos_theta_c : K := (0.9741 + 0.9756) / 2
  let rad_cor : K := 0.024
  let GFERMI : K := 1.16639e-11
  GFERMI * GFERMI * cos_theta_c * cos_theta_c / c.pi * (1 + rad_cor)

/-- The last four statements of `CrossSection`: the combination of the order 0 and order 1
terms, scaled by `sigma_0 / 2` and converted with `hbarc * hbarc`. -/
def CrossSection.combine (c : PhysicalConstants K) (cos_theta e0 p0 e1 p1 v1 gamma : K) : K :=
  let f : K := 1.00
  let g : K := 1.26
  let cross_section :=
    ((f * f + 3 * g * g) + (f * f - g * g) * v1 * cos_theta) * e1 * p1 -
      gamma / c.proton_mass_c2 * e0 * p0
  let cross_section := cross_section * (CrossSection.sigma_0 c / 2)
  let cross_section := cross_section * (c.hbarc * c.hbarc)
  cross_section

/-- `CrossSection`. -/
def CrossSection (c : PhysicalConstants K) (m : LibM K) (e_nu cos_theta : K) : Option K :=
  if e_nu < CrossSection.e_nu_min c then some 0
  else do
    let e0 := CrossSection.e0 c e_nu
    let p0 ← m.sqrt (e0 * e0 - c.electron_mass_c2 * c.electron_mass_c2)
    let v0 ← fdiv p0 e0
    let e1 := CrossSection.e1 c e_nu cos_theta e0 v0
    let p1 ← m.sqrt (e1 * e1 - c.electron_mass_c2 * c.electron_mass_c2)
    let v1 ← fdiv p1 e1
    let me2_e0 ← fdiv (c.electron_mass_c2 * c.electron_mass_c2) e0
    let cos_v0 ← fdiv cos_theta v0
    let gamma := CrossSection.gamma c cos_theta e0 v0 me2_e0 cos_v0
    pure (CrossSection.combine c cos_theta e0 p0 e1 p1 v1 gamma)

/-- The order 0 energy of `PositronEnergy`. -/
def PositronEnergy.e0 (c : PhysicalConstants K) (e_nu : K) : K :=
  e_nu - c.neutron_mass_c2 + c.electron_mass_c2

/-- The order 1 energy of `PositronEnergy`, after its clamp, from the order 0 energy `e0` and
velocity `v0`. -/
def PositronEnergy.e1 (c : PhysicalConstants K) (e_nu cos_theta e0 v0 : K) : K :=
  let y_squared :=
    (c.neutron_mass_c2 - c.proton_mass_c2) * (c.neutron_mass_c2 - c.proton_mass_c2) / 2
  let e1 := e0 * (1 - e_nu / c.proton_mass_c2 * (1 - v0 * cos_theta))
              - y_squared / c.proton_mass_c2
  if e1 < c.electron_mass_c2 then c.electron_mass_c2 else e1

/-- `PositronEnergy`. -/
def PositronEnergy (c : PhysicalConstants K) (m : LibM K) (e_nu cos_theta : K) : Option K := do
  let e0 := PositronEnergy.e0 c e_nu
  let p0 ← m.sqrt (e0 * e0 - c.electron_mass_c2 * c.electron_mass_c2)
  let v0 ← fdiv p0 e0
  pure (PositronEnergy.e1 c e_nu cos_theta e0 v0)

/-- The positron energy in the words of the specification: the order 0 energy is
`e_nu - (M_n - M_p)`, the one `CrossSection` uses, the velocity is `sqrt(e0² - m_e²) / e0`,
`y² = (M_n - M_p)² / 2`, and the result is the larger of the electron mass and the order 1
energy.  It is compared with `PositronEnergy`, which is translated from the source. -/
def PositronEnergy_spec (c : PhysicalConstants K) (m : LibM K) (e_nu cos_theta : K) :
    Option K := do
  let e0 := e_nu - (c.neutron_mass_c2 - c.proton_mass_c2)
  let p0 ← m.sqrt (e0 * e0 - c.electron_mass_c2 * c.electron_mass_c2)
  let v0 ← fdiv p0 e0
  let y_squared := (c.neutron_mass_c2 - c.proton_mass_c2) ^ 2 / 2
  pure (max c.electron_mass_c2
    (e0 * (1 - e_nu / c.proton_mass_c2 * (1 - v0 * cos_theta)) - y_squared / c.proton_mass_c2))

/-- The `while (!passed)` loop of `GenInteraction`, three draws per iteration. -/
def GenInteraction.loop (c : PhysicalConstants K) (m : LibM K) (g : Generator K)
    (xs_max : Option K) (rand : Nat → K) : Nat → Nat → Option (K × K × Nat)
  | 0, _ => none
  | fuel + 1, k =>
    let rand_ene := g.e_min + (g.e_max - g.e_min) * rand k
    let rand_cos_theta := -1 + 2 * rand (k + 1)
    let xs_test := xs_max.map (fun x => x * g.flux_max * rand (k + 2))
    let xs_weight := CrossSection c m rand_ene rand_cos_theta
    let flux_weight := InterpolateSpectrum g.energy g.flux rand_ene
    let passed := flt xs_test (fmul xs_weight flux_weight)
    if passed then some (rand_ene, rand_cos_theta, k + 3)
    else GenInteraction.loop c m g xs_max rand fuel (k + 3)

/-- `GenInteraction`: the accepted `(rand_ene, rand_cos_theta)` and the advanced counter. -/
def GenInteraction (c : PhysicalConstants K) (m : LibM K) (g : Generator K)
    (rand : Nat → K) (fuel k : Nat) : Option (K × K × Nat) :=
  let xs_max := CrossSection c m g.e_max (-1)
  GenInteraction.loop c m g xs_max rand fuel k

/-- The four outputs of `GenEvent`; the direction is `none` when it is not a number. -/
structure Event (K : Type) where
  nu_dir : Option (ThreeVector K)
  neutrino : LorentzVector K
  positron : LorentzVector K
  neutron : LorentzVector K

/-- The positron momentum of `GenEvent`: `p1 * nu_dir` rotated by `acos(cos_theta)` about
`nu_dir.orthogonal()` rotated by `phi` around `nu_dir`. -/
def GenEvent.pos_momentum (m : LibM K) (nu_dir : ThreeVector K) (p1 cos_theta phi : K) :
    Option (ThreeVector K) := do
  let pos_momentum := ThreeVector.smul p1 nu_dir
  let theta ← m.acos cos_theta
  let rotation_axis := ThreeVector.orthogonal nu_dir
  let rotation_axis ← ThreeVector.rotate m rotation_axis phi nu_dir
  ThreeVector.rotate m pos_momentum theta rotation_axis

/-- What `GenEvent` writes to its four outputs once `GenInteraction` has returned the pair
`(e_nu, cos_theta)` and advanced the counter to `k2`: the direction from the draws `k` and
`k + 1`, the neutrino, the positron from `PositronEnergy` and the draw `k2`, and the neutron.
A quantity computed from a value that is not a number is not a number, `none`.  The
arithmetic of four lines is rounded by `rnd`: the momentum magnitude
`sqrt(e1*e1 - electron_mass_c2*electron_mass_c2)`, the neutrino momentum `nu_dir * e_nu`, the
neutron momentum `neutrino.vect() - positron.vect()` and the neutron energy
`sqrt(neutron.vect().mag2() + neutron_mass_c2*neutron_mass_c2)`.  The direction and the
rotation of the positron momentum, which go through `acos`, `sin` and `cos`, are exact. -/
def GenEvent.outputs (c : PhysicalConstants K) (m : LibM K) (rnd : K → K) (rand : Nat → K)
    (k : Nat) (e_nu cos_theta : K) (k2 : Nat) : Event K :=
  let theta_nu := m.acos (2 * rand k - 1)
  let phi_nu := 2 * rand (k + 1) * c.pi
  let nu_dir := theta_nu.map (fun theta_nu => ThreeVector.setRThetaPhi m 1 theta_nu phi_nu)
  let e1 := PositronEnergy c m e_nu cos_theta
  let p1 := e1.bind (fun e1 =>
    (m.sqrt (rnd (rnd (e1 * e1) - rnd (c.electron_mass_c2 * c.electron_mass_c2)))).map rnd)
  let neutrino : LorentzVector K := ⟨nu_dir.map (ThreeVector.roundedSmul rnd e_nu), some e_nu⟩
  let phi := 2 * c.pi * rand k2
  let pos_momentum := do
    let nu_dir ← nu_dir
    let p1 ← p1
    GenEvent.pos_momentum m nu_dir p1 cos_theta phi
  let positron : LorentzVector K := ⟨pos_momentum, e1⟩
  let neutron_vect := do
    let a ← neutrino.vect
    let b ← positron.vect
    pure (ThreeVector.roundedSub rnd a b)
  let neutron_e := neutron_vect.bind (fun v =>
    (m.sqrt (rnd (ThreeVector.roundedMag2 rnd v
      + rnd (c.neutron_mass_c2 * c.neutron_mass_c2)))).map rnd)
  ⟨nu_dir, neutrino, positron, ⟨neutron_vect, neutron_e⟩⟩

/-- `GenEvent`: two draws for the neutrino direction, the draws of `GenInteraction`, one
draw for the azimuth.  It returns as soon as `GenInteraction` does, and then always fills its
four outputs; `none` means that `GenInteraction` ran out of fuel. -/
def GenEvent (c : PhysicalConstants K) (m : LibM K) (rnd : K → K) (g : Generator K)
    (rand : Nat → K) (fuel k : Nat) : Option (Event K × Nat) :=
  match GenInteraction c m g rand fuel (k + 2) with
  | none => none
  | some (e_nu, cos_theta, k2) =>
    some (GenEvent.outputs c m rnd rand k e_nu cos_theta k2, k2 + 1)

/-! ## Concrete inputs -/

/-- The two-point spectrum `[(1.8, 0.0), (10.0, 1.0)]` with `e_min = 1.8`, `e_max = 10.0`, the
envelope `flux_max = 1.0` and a detector of half-dimensions `(1, 2, 3)`. -/
def twoPointGenerator : Generator K where
  energy := [1.8, 10.0]
  flux := [0.0, 1.0]
  e_min := 1.8
  e_max := 10.0
  flux_max := 1.0
  GetGeo_Dm := fun i => (i : K) + 1

/-- A stream of draws in `[0, 1]`: `1` at counter 2, `0` at counter 4, `1/2` elsewhere. -/
def sampleDraws : Nat → K :=
  fun k => if k = 2 then 1 else if k = 4 then 0 else 1 / 2

/-- A flat two-point spectrum `[(938.0, 1.0), (942.0, 1.0)]` with `flux_max = 1.0`, the
maximum of its fluxes: its energies lie around the neutron mass, where the order 0 energy
`e_nu - M_n + m_e` of `PositronEnergy` changes sign. -/
def highEnergyGenerator : Generator K where
  energy := [938.0, 942.0]
  flux := [1.0, 1.0]
  e_min := 938.0
  e_max := 942.0
  flux_max := 1.0
  GetGeo_Dm := fun _ => 1

/-- A stream of draws inside `(0, 1)`: `1/4` at counter 2, `3/4` at counter 4, `1/2`
elsewhere.  Read by `GenInteraction` from counter 2 on `highEnergyGenerator`, it proposes the
energy 939 MeV and the cosine 0. -/
def nanDraws : Nat → K :=
  fun k => if k = 2 then 1 / 4 else if k = 4 then 3 / 4 else 1 / 2

/-- A stream of draws inside `(0, 1)`: `3/4` at the counters 2, 3 and 4, `1/2` elsewhere.
Read by `GenInteraction` from counter 2 on `highEnergyGenerator`, it proposes the energy
941 MeV and the cosine `1/2`. -/
def movingDraws : Nat → K :=
  fun k => if k = 2 then 3 / 4 else if k = 3 then 3 / 4 else if k = 4 then 3 / 4 else 1 / 2

/-! ## Predicates on inputs -/

/-- Strictly increasing energies. -/
def StrictlyIncreasing (ener_vec : List K) : Prop :=
  ener_vec.Pairwise (fun a b => a < b)

/-- Every draw of the stream lies in `[0, 1]`. -/
def UniformDraws (rand : Nat → K) : Prop :=
  ∀ k, 0 ≤ rand k ∧ rand k ≤ 1

/-- Weakly increasing energies. -/
def Increasing (ener_vec : List K) : Prop :=
  ener_vec.Pairwise (fun a b => a ≤ b)

/-! ## Definitions for the claims on the sampler, the loader and the rotation -/

/-- Exact trigonometry: `sin² + cos² = 1`, `cos 0 = 1`, and `cos (acos x) = x` wherever
`acos` has a value. -/
def LibM.TrigExact (m : LibM K) : Prop :=
  (∀ x : K, m.sin x * m.sin x + m.cos x * m.cos x = 1) ∧ m.cos 0 = 1 ∧
    ∀ x theta : K, m.acos x = some theta → m.cos theta = x

/-- A generator as the constructor leaves it: the two vectors are empty, `myDetector` is
set, and `e_min`, `e_max`, `flux_max` are not initialised; `e_min` and `e_max` are
overwritten by `ReadSpectrum`, `flux_max` holds whatever value `x` it happens to hold. -/
def freshGenerator (x : K) (GetGeo_Dm : Nat → K) : Generator K where
  energy := []
  flux := []
  e_min := 0
  e_max := 0
  flux_max := x
  GetGeo_Dm := GetGeo_Dm

/-- The acceptance test of one iteration of `GenInteraction`, as a function of its three
draws: `passed = (xs_test < xs_weight * flux_weight)`. -/
def GenInteraction.passed (c : PhysicalConstants K) (m : LibM K) (g : Generator K)
    (xs_max : Option K) (u1 u2 u3 : K) : Bool :=
  let rand_ene := g.e_min + (g.e_max - g.e_min) * u1
  let rand_cos_theta := -1 + 2 * u2
  let xs_test := xs_max.map (fun x => x * g.flux_max * u3)
  let xs_weight := CrossSection c m rand_ene rand_cos_theta
  let flux_weight := InterpolateSpectrum g.energy g.flux rand_ene
  flt xs_test (fmul xs_weight flux_weight)

/-- A two-point spectrum `[(0.5, 1.0), (1.5, 1.0)]` that ends below the threshold of inverse
beta decay. -/
def belowThresholdGenerator : Generator K where
  energy := [0.5, 1.5]
  flux := [1.0, 1.0]
  e_min := 0.5
  e_max := 1.5
  flux_max := 1.0
  GetGeo_Dm := fun _ => 1

/-- A flat two-point spectrum `[(1.8, 1.0), (100.0, 1.0)]` with `flux_max = 1.0`, the maximum
of its fluxes. -/
def flatGenerator : Generator K where
  energy := [1.8, 100.0]
  flux := [1.0, 1.0]
  e_min := 1.8
  e_max := 100.0
  flux_max := 1.0
  GetGeo_Dm := fun _ => 1

/-- A flat two-point spectrum `[(1.8, 1.0), (50.0, 1.0)]` with `flux_max = 1.0`, the maximum
of its fluxes. -/
def flatFiftyGenerator : Generator K where
  energy := [1.8, 50.0]
  flux := [1.0, 1.0]
  e_min := 1.8
  e_max := 50.0
  flux_max := 1.0
  GetGeo_Dm := fun _ => 1

/-- The product of the rotation matrix of `ThreeVector.rotate`, written for the cosine `ca` and
the sine `sa` of the angle and the normalised axis `d`, with the vector `v`. -/
def ThreeVector.rotationImage (ca sa : K) (d v : ThreeVector K) : ThreeVector K :=
  ⟨(ca + (1 - ca) * d.x * d.x) * v.x + ((1 - ca) * d.x * d.y - sa * d.z) * v.y
      + ((1 - ca) * d.x * d.z + sa * d.y) * v.z,
    ((1 - ca) * d.y * d.x + sa * d.z) * v.x + (ca + (1 - ca) * d.y * d.y) * v.y
      + ((1 - ca) * d.y * d.z - sa * d.x) * v.z,
    ((1 - ca) * d.z * d.x - sa * d.y) * v.x + ((1 - ca) * d.z * d.y + sa * d.x) * v.y
      + (ca + (1 - ca) * d.z * d.z) * v.z⟩

/-! ## Lemmas on `InterpolateSpectrum` -/

theorem StrictlyIncreasing.lt_of_lt {ener_vec : List K} (hs : StrictlyIncreasing ener_vec)
    {a b : Nat} (hab : a < b) (hb : b < ener_vec.length) :
    ener_vec[a] < ener_vec[b] :=
  (List.pairwise_iff_getElem.mp hs) a b (lt_trans hab hb) hb hab

theorem StrictlyIncreasing.increasing {ener_vec : List K} (hs : StrictlyIncreasing ener_vec) :
    Increasing ener_vec :=
  List.Pairwise.imp (fun h => le_of_lt h) hs

theorem Increasing.le_of_le {ener_vec : List K} (hs : Increasing ener_vec)
    {a b : Nat} (hab : a ≤ b) (hb : b < ener_vec.length) :
    ener_vec[a] ≤ ener_vec[b] := by
  rcases Nat.eq_or_lt_of_le hab with h | h
  · subst h; exact le_rfl
  · exact (List.pairwise_iff_getElem.mp hs) a b (lt_trans h hb) hb h

theorem fdiv_of_ne (a : K) {b : K} (hb : b ≠ 0) : fdiv a b = some (a / b) := by
  simp [fdiv, hb]

/-- The scan stops at the first index `j`, counted from `i`, whose energy is not below the
query. -/
theorem InterpolateSpectrum.loop_eq_bracket (ener_vec flux_vec : List K) (ene : K) (j : Nat)
    (hj : j < ener_vec.length) (hle : ene ≤ ener_vec[j]) :
    ∀ (n i : Nat), i ≤ j → j < i + n →
      (∀ k (_ : k < ener_vec.length), i ≤ k → k < j → ener_vec[k] < ene) →
      InterpolateSpectrum.loop ener_vec flux_vec ene n i
        = InterpolateSpectrum.bracket ener_vec flux_vec ene j := by
  intro n
  induction n with
  | zero => intro i hij hjn _; omega
  | succ n ih =>
    intro i hij hjn hlow
    have hi : i < ener_vec.length := lt_of_le_of_lt hij hj
    rw [InterpolateSpectrum.loop, List.getElem?_eq_getElem hi]
    rcases Nat.eq_or_lt_of_le hij with heq | hlt
    · subst heq
      simp [hle]
    · have hnot : ¬ ene ≤ ener_vec[i] := not_le.mpr (hlow i hi le_rfl hlt)
      simp only [hnot, if_false]
      exact ih (i + 1) hlt (by omega) (fun k hk hik hkj => hlow k hk (by omega) hkj)

/-- The scan falls through to `flux_vec.back()` when every energy from `i` on is below the
query. -/
theorem InterpolateSpectrum.loop_eq_back (ener_vec flux_vec : List K) (ene : K) :
    ∀ (n i : Nat), i + n = ener_vec.length →
      (∀ k (_ : k < ener_vec.length), i ≤ k → ener_vec[k] < ene) →
      InterpolateSpectrum.loop ener_vec flux_vec ene n i = flux_vec.getLast? := by
  intro n
  induction n with
  | zero => intro i _ _; rfl
  | succ n ih =>
    intro i hin hlow
    have hi : i < ener_vec.length := by omega
    rw [InterpolateSpectrum.loop, List.getElem?_eq_getElem hi]
    have hnot : ¬ ene ≤ ener_vec[i] := not_le.mpr (hlow i hi le_rfl)
    simp only [hnot, if_false]
    exact ih (i + 1) (by omega) (fun k hk hik => hlow k hk (by omega))

/-- The value of the interpolation on bracket `j` when its two energies differ. -/
theorem InterpolateSpectrum.bracket_eq (ener_vec flux_vec : List K) (ene : K) (j : Nat)
    (hj : j < ener_vec.length) (hf : j < flux_vec.length)
    (hne : ener_vec[j] - ener_vec[j - 1] ≠ 0) :
    InterpolateSpectrum.bracket ener_vec flux_vec ene j
      = some (flux_vec[j - 1] + (flux_vec[j] - flux_vec[j - 1]) * (ene - ener_vec[j - 1])
          / (ener_vec[j] - ener_vec[j - 1])) := by
  have hj1 : j - 1 < ener_vec.length := by omega
  have hf1 : j - 1 < flux_vec.length := by omega
  simp [InterpolateSpectrum.bracket, List.getElem?_eq_getElem hj, List.getElem?_eq_getElem hf,
    List.getElem?_eq_getElem hj1, List.getElem?_eq_getElem hf1, fdiv_of_ne _ hne]

/-- On a strictly increasing table, a query whose first index `j ≥ 1` with
`ene ≤ ener_vec[j]` is known gets the line through the nodes `j - 1` and `j`. -/
theorem InterpolateSpectrum_eq_of_bracket (ener_vec flux_vec : List K) (ene : K) (j : Nat)
    (hlen : flux_vec.length = ener_vec.length) (hs : StrictlyIncreasing ener_vec)
    (hj1 : 1 ≤ j) (hj : j < ener_vec.length) (hle : ene ≤ ener_vec[j])
    (hlow : ∀ k (_ : k < ener_vec.length), 1 ≤ k → k < j → ener_vec[k] < ene) :
    InterpolateSpectrum ener_vec flux_vec ene
      = some (flux_vec[j - 1] + (flux_vec[j] - flux_vec[j - 1]) * (ene - ener_vec[j - 1])
          / (ener_vec[j] - ener_vec[j - 1])) := by
  have hne : ener_vec[j] - ener_vec[j - 1] ≠ 0 :=
    sub_ne_zero.mpr (ne_of_gt (hs.lt_of_lt (by omega) hj))
  rw [InterpolateSpectrum,
    InterpolateSpectrum.loop_eq_bracket ener_vec flux_vec ene j hj hle _ 1 hj1 (by omega) hlow,
    InterpolateSpectrum.bracket_eq ener_vec flux_vec ene j hj (by omega) hne]

/-! ## C3: interpolation above the table -/

/-- C3: on a non-empty table with increasing energies, a query strictly above the last
energy returns the last flux unchanged. -/
theorem InterpolateSpectrum_above_range (ener_vec flux_vec : List K)
    (hne : ener_vec ≠ []) (hf : flux_vec ≠ [])
    (hs : Increasing ener_vec) (ene : K) (he : ener_vec.getLast hne < ene) :
    InterpolateSpectrum ener_vec flux_vec ene = some (flux_vec.getLast hf) := by
  have hpos : 0 < ener_vec.length := List.length_pos.mpr hne
  rw [InterpolateSpectrum,
    InterpolateSpectrum.loop_eq_back ener_vec flux_vec ene _ 1 (by omega)
      (fun k hk _ => by
        rw [List.getLast_eq_getElem] at he
        exact lt_of_le_of_lt (hs.le_of_le (by omega) (by omega)) he),
    List.getLast?_eq_getLast _ hf]

/-- C3, on the table `[(1, 10), (2, 20), (4, 40)]` at the query `5`. -/
theorem InterpolateSpectrum_above_range_witness :
    InterpolateSpectrum [(1 : ℚ), 2, 4] [10, 20, 40] 5 = some 40 :=
  InterpolateSpectrum_above_range [(1 : ℚ), 2, 4] [10, 20, 40] (by simp) (by simp)
    (by norm_num [Increasing]) 5 (by norm_num)

/-! ## C4 and C5: the cross-section below and above the threshold -/

/-- The threshold computed by `CrossSection` is `((M_n + m_e)^2 - M_p^2) / (2 M_p)`. -/
theorem CrossSection.e_nu_min_eq (c : PhysicalConstants K) :
    CrossSection.e_nu_min c
      = ((c.neutron_mass_c2 + c.electron_mass_c2) ^ 2 - c.proton_mass_c2 ^ 2)
          / (2 * c.proton_mass_c2) := by
  have hp : c.proton_mass_c2 ≠ 0 := ne_of_gt c.proton_mass_pos
  unfold CrossSection.e_nu_min CrossSection.DELTA
  field_simp
  ring

/-- C4: for every `cos_theta` and every `e_nu` strictly below the threshold
`((M_n + m_e)^2 - M_p^2) / (2 M_p)`, `CrossSection` returns exactly 0; with the CLHEP
masses that threshold lies between 1.806 and 1.8061 MeV. -/
theorem CrossSection_below_threshold (c : PhysicalConstants K) (m : LibM K)
    (e_nu cos_theta : K)
    (h : e_nu < ((c.neutron_mass_c2 + c.electron_mass_c2) ^ 2 - c.proton_mass_c2 ^ 2)
            / (2 * c.proton_mass_c2)) :
    CrossSection c m e_nu cos_theta = some 0 ∧
      (1.806 : K) < CrossSection.e_nu_min (clhep : PhysicalConstants K) ∧
      CrossSection.e_nu_min (clhep : PhysicalConstants K) < 1.8061 := by
  rw [← CrossSection.e_nu_min_eq] at h
  refine ⟨by simp [CrossSection, h], ?_, ?_⟩ <;>
    norm_num [CrossSection.e_nu_min, CrossSection.DELTA, clhep]

/-- C4, at `e_nu = 1` MeV and `cos_theta = 1/2` with the CLHEP masses. -/
theorem CrossSection_below_threshold_witness :
    CrossSection (clhep : PhysicalConstants ℝ) realLibM 1 (1 / 2)
      = some 0 :=
  (CrossSection_below_threshold (clhep : PhysicalConstants ℝ) realLibM 1 (1 / 2)
    (by norm_num [clhep])).1

theorem realLibM_sqrtExact : realLibM.SqrtExact := by
  intro x
  refine ⟨fun hx => by simp [realLibM, hx], fun hx => ?_⟩
  exact ⟨Real.sqrt x, by simp [realLibM, not_lt.mpr hx], Real.sqrt_nonneg x,
    Real.mul_self_sqrt hx⟩

/-- The clamped order 0 energy is at least the electron mass, hence positive. -/
theorem CrossSection.e0_ge_electron_mass (c : PhysicalConstants K) (e_nu : K) :
    c.electron_mass_c2 ≤ CrossSection.e0 c e_nu := by
  unfold CrossSection.e0
  simp only
  split_ifs with h
  · exact le_rfl
  · exact not_lt.mp h

/-- The clamped order 1 energy is at least the electron mass, hence positive. -/
theorem CrossSection.e1_ge_electron_mass (c : PhysicalConstants K) (e_nu cos_theta e0 v0 : K) :
    c.electron_mass_c2 ≤ CrossSection.e1 c e_nu cos_theta e0 v0 := by
  unfold CrossSection.e1
  simp only
  split_ifs with h
  · exact le_rfl
  · exact not_lt.mp h

/-- At or above the threshold, `CrossSection` is the combination of its order 0 and order 1
terms as soon as the two square roots have values and the order 0 momentum is not zero. -/
theorem CrossSection_eq_combine (c : PhysicalConstants K) (m : LibM K) (e_nu cos_theta : K)
    (hthr : ¬ e_nu < CrossSection.e_nu_min c) (p0 p1 : K)
    (hp0 : m.sqrt (CrossSection.e0 c e_nu * CrossSection.e0 c e_nu
              - c.electron_mass_c2 * c.electron_mass_c2) = some p0)
    (hp0ne : p0 ≠ 0)
    (hp1 : m.sqrt
        (CrossSection.e1 c e_nu cos_theta (CrossSection.e0 c e_nu) (p0 / CrossSection.e0 c e_nu)
          * CrossSection.e1 c e_nu cos_theta (CrossSection.e0 c e_nu)
              (p0 / CrossSection.e0 c e_nu)
          - c.electron_mass_c2 * c.electron_mass_c2) = some p1) :
    CrossSection c m e_nu cos_theta
      = some (CrossSection.combine c cos_theta (CrossSection.e0 c e_nu) p0
          (CrossSection.e1 c e_nu cos_theta (CrossSection.e0 c e_nu)
            (p0 / CrossSection.e0 c e_nu)) p1
          (p1 / CrossSection.e1 c e_nu cos_theta (CrossSection.e0 c e_nu)
            (p0 / CrossSection.e0 c e_nu))
          (CrossSection.gamma c cos_theta (CrossSection.e0 c e_nu)
            (p0 / CrossSection.e0 c e_nu)
            (c.electron_mass_c2 * c.electron_mass_c2 / CrossSection.e0 c e_nu)
            (cos_theta / (p0 / CrossSection.e0 c e_nu)))) := by
  have he0 : CrossSection.e0 c e_nu ≠ 0 :=
    ne_of_gt (lt_of_lt_of_le c.electron_mass_pos (CrossSection.e0_ge_electron_mass c e_nu))
  have he1 : CrossSection.e1 c e_nu cos_theta (CrossSection.e0 c e_nu)
      (p0 / CrossSection.e0 c e_nu) ≠ 0 :=
    ne_of_gt (lt_of_lt_of_le c.electron_mass_pos (CrossSection.e1_ge_electron_mass c _ _ _ _))
  have hv0 : p0 / CrossSection.e0 c e_nu ≠ 0 := div_ne_zero hp0ne he0
  simp only [CrossSection, hthr, if_false, hp0, Option.bind_eq_bind, Option.some_bind,
    fdiv_of_ne _ he0, hp1, fdiv_of_ne _ he1, fdiv_of_ne _ hv0, Option.pure_def]

/-- A non-negative number whose square is at least `a * a` is at least `a`. -/
theorem le_of_mul_self_le_of_nonneg {a y : K} (hy : 0 ≤ y) (h : a * a ≤ y * y) : a ≤ y := by
  by_contra hlt
  have hlt' : y < a := not_le.mp hlt
  have : y * y < a * a := mul_self_lt_mul_self hy hlt'
  exact absurd h (not_le.mpr this)

/-- The CLHEP threshold is below 10 MeV. -/
theorem CrossSection.e_nu_min_clhep_lt_ten :
    CrossSection.e_nu_min (clhep : PhysicalConstants K) < 10 := by
  norm_num [CrossSection.e_nu_min, CrossSection.DELTA, clhep]

/-- With the CLHEP masses and an exact square root, `CrossSection(10, 0)` is a strictly
positive number: the order 1 term `(f² + 3 g²) e1 p1` is above 396 and the recoil term
`gamma / M_p * e0 * p0` below 27. -/
theorem CrossSection_ten_zero_pos (m : LibM K) (hm : m.SqrtExact) :
    ∃ xs, CrossSection (clhep : PhysicalConstants K) m 10 0 = some xs ∧ 0 < xs := by
  have hthr : CrossSection.e_nu_min (clhep : PhysicalConstants K) < 10 :=
    CrossSection.e_nu_min_clhep_lt_ten
  have hE0 : CrossSection.e0 (clhep : PhysicalConstants K) 10 = 8.706653 := by
    norm_num [CrossSection.e0, CrossSection.DELTA, clhep]
  have hme : (clhep : PhysicalConstants K).electron_mass_c2 = 0.510998910 := rfl
  obtain ⟨p0, hp0, hp0nn, hp0sq⟩ := (hm ((8.706653 : K) * 8.706653
      - 0.510998910 * 0.510998910)).2 (by norm_num)
  have hp0ne : p0 ≠ 0 := by
    intro h0
    rw [h0] at hp0sq
    norm_num at hp0sq
  have hp0le : p0 ≤ 9 := by
    by_contra hlt
    have hlt' : (9 : K) < p0 := not_le.mp hlt
    have h81 : (9 : K) * 9 < p0 * p0 := mul_self_lt_mul_self (by norm_num) hlt'
    rw [hp0sq] at h81
    norm_num at h81
  have hE1 : CrossSection.e1 (clhep : PhysicalConstants K) 10 0 8.706653 (p0 / 8.706653)
      = 8.706653 * (1 - 10 / 938.272013)
          - ((939.56536 - 938.272013) * (939.56536 - 938.272013)
              - 0.510998910 * 0.510998910) / 2 / 938.272013 := by
    norm_num [CrossSection.e1, CrossSection.DELTA, clhep]
  have hE1lo : (8.6 : K) ≤ CrossSection.e1 (clhep : PhysicalConstants K) 10 0 8.706653
      (p0 / 8.706653) := by
    rw [hE1]; norm_num
  have hE1hi : CrossSection.e1 (clhep : PhysicalConstants K) 10 0 8.706653
      (p0 / 8.706653) ≤ 8.7 := by
    rw [hE1]; norm_num
  generalize hE1g : CrossSection.e1 (clhep : PhysicalConstants K) 10 0 8.706653
    (p0 / 8.706653) = E1 at hE1lo hE1hi
  obtain ⟨p1, hp1, hp1nn, hp1sq⟩ := (hm (E1 * E1 - 0.510998910 * 0.510998910)).2 (by nlinarith)
  have hp1lo : (8 : K) ≤ p1 := by
    apply le_of_mul_self_le_of_nonneg hp1nn
    rw [hp1sq]
    nlinarith
  have hcs := CrossSection_eq_combine (clhep : PhysicalConstants K) m 10 0
    (not_lt.mpr (le_of_lt hthr)) p0 p1 (by rw [hE0, hme]; exact hp0) hp0ne
    (by rw [hE0, hE1g, hme]; exact hp1)
  rw [hE0, hE1g] at hcs
  refine ⟨_, hcs, ?_⟩
  have hGlo : (0 : K) ≤ CrossSection.gamma (clhep : PhysicalConstants K) 0 8.706653
      (p0 / 8.706653)
      ((clhep : PhysicalConstants K).electron_mass_c2
        * (clhep : PhysicalConstants K).electron_mass_c2 / 8.706653)
      (0 / (p0 / 8.706653)) := by
    norm_num [CrossSection.gamma, CrossSection.DELTA, clhep]
  have hGhi : CrossSection.gamma (clhep : PhysicalConstants K) 0 8.706653
      (p0 / 8.706653)
      ((clhep : PhysicalConstants K).electron_mass_c2
        * (clhep : PhysicalConstants K).electron_mass_c2 / 8.706653)
      (0 / (p0 / 8.706653)) ≤ 300 := by
    norm_num [CrossSection.gamma, CrossSection.DELTA, clhep]
  generalize CrossSection.gamma (clhep : PhysicalConstants K) 0 8.706653
      (p0 / 8.706653)
      ((clhep : PhysicalConstants K).electron_mass_c2
        * (clhep : PhysicalConstants K).electron_mass_c2 / 8.706653)
      (0 / (p0 / 8.706653)) = G at hGlo hGhi
  have hsig : (0 : K) < CrossSection.sigma_0 (clhep : PhysicalConstants K) / 2 := by
    norm_num [CrossSection.sigma_0, clhep]
  have hhb : (0 : K) < (clhep : PhysicalConstants K).hbarc
      * (clhep : PhysicalConstants K).hbarc := by
    norm_num [clhep]
  have hEp : (8.6 : K) * 8 ≤ E1 * p1 :=
    mul_le_mul hE1lo hp1lo (by norm_num) (by linarith)
  have ht : G / 938.272013 * 8.706653 ≤ 3 := by
    have : G / 938.272013 * 8.706653 ≤ 300 / 938.272013 * 8.706653 := by
      apply mul_le_mul_of_nonneg_right _ (by norm_num)
      exact div_le_div_of_nonneg_right hGhi (by norm_num)
    refine le_trans this (by norm_num)
  have ht0 : (0 : K) ≤ G / 938.272013 * 8.706653 :=
    mul_nonneg (div_nonneg hGlo (by norm_num)) (by norm_num)
  have htp : G / 938.272013 * 8.706653 * p0 ≤ 3 * 9 :=
    mul_le_mul ht hp0le hp0nn (by norm_num)
  have hcore : (0 : K) < ((1.00 * 1.00 + 3 * 1.26 * 1.26) + (1.00 * 1.00 - 1.26 * 1.26)
      * (p1 / E1) * 0) * E1 * p1 - G / 938.272013 * 8.706653 * p0 := by
    have hA : ((1.00 * 1.00 + 3 * 1.26 * 1.26) + (1.00 * 1.00 - 1.26 * 1.26)
      * (p1 / E1) * 0) * E1 * p1 = (1.00 * 1.00 + 3 * 1.26 * 1.26) * (E1 * p1) := by ring
    rw [hA]
    nlinarith
  have hpm : (clhep : PhysicalConstants K).proton_mass_c2 = 938.272013 := rfl
  unfold CrossSection.combine
  simp only [hpm]
  exact mul_pos (mul_pos hcore hsig) hhb

/-- C5: with the CLHEP masses and an exact square root there is an `e_nu` above the
threshold, namely 10 MeV, at which `CrossSection(e_nu, 0)` is strictly positive. -/
theorem CrossSection_pos_above_threshold (m : LibM K) (hm : m.SqrtExact) :
    ∃ e_nu : K, CrossSection.e_nu_min (clhep : PhysicalConstants K) < e_nu ∧
      ∃ xs, CrossSection (clhep : PhysicalConstants K) m e_nu 0 = some xs ∧ 0 < xs :=
  ⟨10, CrossSection.e_nu_min_clhep_lt_ten, CrossSection_ten_zero_pos m hm⟩

/-- C5, over the real numbers with their square root. -/
theorem CrossSection_pos_above_threshold_witness :
    ∃ e_nu : ℝ, CrossSection.e_nu_min (clhep : PhysicalConstants ℝ) < e_nu ∧
      ∃ xs, CrossSection (clhep : PhysicalConstants ℝ) realLibM e_nu 0 = some xs ∧ 0 < xs :=
  CrossSection_pos_above_threshold realLibM realLibM_sqrtExact

/-! ## C6 and C7: the positron energy -/

/-- The clamp of `PositronEnergy`: its order 1 energy is at least the electron mass. -/
theorem PositronEnergy.e1_clamped_ge (c : PhysicalConstants K) (e_nu cos_theta e0 v0 : K) :
    c.electron_mass_c2 ≤ PositronEnergy.e1 c e_nu cos_theta e0 v0 := by
  unfold PositronEnergy.e1
  simp only
  split_ifs with h
  · exact le_rfl
  · exact not_lt.mp h

/-- When the order 0 momentum has a value `p0`, that is, when `e0² - m_e²` is not negative,
`PositronEnergy` returns its clamped order 1 energy at the velocity `p0 / e0`. -/
theorem PositronEnergy_eq_e1 (c : PhysicalConstants K) (m : LibM K) (hm : m.SqrtExact)
    (e_nu cos_theta : K)
    (h : c.electron_mass_c2 * c.electron_mass_c2
          ≤ PositronEnergy.e0 c e_nu * PositronEnergy.e0 c e_nu) :
    ∃ p0, 0 ≤ p0 ∧
      p0 * p0 = PositronEnergy.e0 c e_nu * PositronEnergy.e0 c e_nu
                  - c.electron_mass_c2 * c.electron_mass_c2 ∧
      PositronEnergy c m e_nu cos_theta
        = some (PositronEnergy.e1 c e_nu cos_theta (PositronEnergy.e0 c e_nu)
                  (p0 / PositronEnergy.e0 c e_nu)) := by
  obtain ⟨p0, hp0, hp0nn, hp0sq⟩ := (hm (PositronEnergy.e0 c e_nu * PositronEnergy.e0 c e_nu
      - c.electron_mass_c2 * c.electron_mass_c2)).2 (sub_nonneg.mpr h)
  have he0 : PositronEnergy.e0 c e_nu ≠ 0 := by
    intro h0
    rw [h0, mul_zero] at h
    exact absurd h (not_le.mpr (mul_pos c.electron_mass_pos c.electron_mass_pos))
  refine ⟨p0, hp0nn, hp0sq, ?_⟩
  simp only [PositronEnergy, hp0, Option.bind_eq_bind, Option.some_bind, fdiv_of_ne _ he0,
    Option.pure_def]

/-- When the order 0 momentum has no value, that is, when `e0² - m_e²` is negative,
`PositronEnergy` returns no number. -/
theorem PositronEnergy_eq_none (c : PhysicalConstants K) (m : LibM K) (hm : m.SqrtExact)
    (e_nu cos_theta : K)
    (h : PositronEnergy.e0 c e_nu * PositronEnergy.e0 c e_nu
          < c.electron_mass_c2 * c.electron_mass_c2) :
    PositronEnergy c m e_nu cos_theta = none := by
  have hs := (hm (PositronEnergy.e0 c e_nu * PositronEnergy.e0 c e_nu
      - c.electron_mass_c2 * c.electron_mass_c2)).1 (sub_neg.mpr h)
  simp [PositronEnergy, hs]

/-- C6 at `e_nu = 939` MeV and `cos_theta = 0`, a non-negative energy and a cosine in
`[-1, 1]`: the order 0 energy of the code is `939 - M_n + m_e ≈ -0.054`, nothing keeps it at
or above the electron mass as the clamp on `e0` of `CrossSection` does, the argument of the
square root is negative, the comparison of the final clamp is false, and `PositronEnergy`
returns no number at all, so no value at or above the electron mass. -/
theorem PositronEnergy_not_a_number :
    (0 : ℝ) ≤ 939 ∧ (-1 : ℝ) ≤ 0 ∧ (0 : ℝ) ≤ 1 ∧
      ¬ ∃ r, PositronEnergy (clhep : PhysicalConstants ℝ) realLibM 939 0 = some r ∧
          (clhep : PhysicalConstants ℝ).electron_mass_c2 ≤ r := by
  refine ⟨by norm_num, by norm_num, by norm_num, ?_⟩
  rw [PositronEnergy_eq_none (clhep : PhysicalConstants ℝ) realLibM realLibM_sqrtExact 939 0
    (by norm_num [PositronEnergy.e0, clhep])]
  simp

/-- C7 at `e_nu = 10` MeV, `cos_theta = 0` with the CLHEP masses: the code starts from
`e0 = 10 - M_n + m_e ≈ -929.05`, its order 1 energy is negative, and the clamp returns the
electron mass, whereas the formula of the claim, which starts from
`e0 = 10 - (M_n - M_p) ≈ 8.707`, gives more than 8.6 MeV. -/
theorem PositronEnergy_ne_spec_at_ten :
    (CrossSection.e_nu_min (clhep : PhysicalConstants ℝ) ≤ 10 ∧ (-1 : ℝ) ≤ 0 ∧ (0 : ℝ) ≤ 1) ∧
    PositronEnergy (clhep : PhysicalConstants ℝ) realLibM 10 0
      = some (clhep : PhysicalConstants ℝ).electron_mass_c2 ∧
    ∃ r, PositronEnergy_spec (clhep : PhysicalConstants ℝ) realLibM 10 0 = some r ∧
      8.6 < r := by
  refine ⟨⟨le_of_lt CrossSection.e_nu_min_clhep_lt_ten, by norm_num, by norm_num⟩, ?_, ?_⟩
  · obtain ⟨p0, _, _, hp⟩ := PositronEnergy_eq_e1 (clhep : PhysicalConstants ℝ) realLibM
      realLibM_sqrtExact 10 0 (by norm_num [PositronEnergy.e0, clhep])
    rw [hp]
    norm_num [PositronEnergy.e1, PositronEnergy.e0, clhep]
  · obtain ⟨p0, hp0, _, _⟩ := (realLibM_sqrtExact
      (((10 : ℝ) - (939.56536 - 938.272013)) * (10 - (939.56536 - 938.272013))
        - 0.510998910 * 0.510998910)).2 (by norm_num)
    have hspec : PositronEnergy_spec (clhep : PhysicalConstants ℝ) realLibM 10 0
        = some (max (0.510998910 : ℝ)
            ((10 - (939.56536 - 938.272013))
                * (1 - 10 / 938.272013 * (1 - p0 / (10 - (939.56536 - 938.272013)) * 0))
              - (939.56536 - 938.272013) ^ 2 / 2 / 938.272013)) := by
      simp only [PositronEnergy_spec, clhep, hp0, Option.bind_eq_bind, Option.some_bind,
        fdiv_of_ne p0 (show ((10 : ℝ) - (939.56536 - 938.272013)) ≠ 0 by norm_num),
        Option.pure_def]
    refine ⟨_, hspec, ?_⟩
    apply lt_max_of_lt_right
    norm_num

/-! ## C9 and C10: ranges of the sampled quantities -/

theorem sampleDraws_uniform : UniformDraws (sampleDraws : Nat → K) := by
  intro k
  unfold sampleDraws
  split_ifs <;> norm_num

/-- A draw `u` in `[0, 1]` puts `d * (-1 + 2 u)` in `[-d, d]` when `d` is not negative. -/
theorem scaled_draw_mem {d u : K} (hd : 0 ≤ d) (h0 : 0 ≤ u) (h1 : u ≤ 1) :
    -d ≤ d * (-1 + 2 * u) ∧ d * (-1 + 2 * u) ≤ d := by
  constructor <;> nlinarith [mul_nonneg hd h0, mul_nonneg hd (sub_nonneg.mpr h1)]

/-- C10: for non-negative half-dimensions `(hx, hy, hz)` and draws in `[0, 1]`, the position
returned by `GenRandomPosition` has `x` in `[-hx, hx]`, `y` in `[-hy, hy]` and `z` in
`[-hz, hz]`. -/
theorem GenRandomPosition_in_box (g : Generator K) (rand : Nat → K) (k : Nat)
    (hx : 0 ≤ g.GetGeo_Dm 0) (hy : 0 ≤ g.GetGeo_Dm 1) (hz : 0 ≤ g.GetGeo_Dm 2)
    (hr : UniformDraws rand) :
    (-g.GetGeo_Dm 0 ≤ (GenRandomPosition g rand k).1.x ∧
      (GenRandomPosition g rand k).1.x ≤ g.GetGeo_Dm 0) ∧
    (-g.GetGeo_Dm 1 ≤ (GenRandomPosition g rand k).1.y ∧
      (GenRandomPosition g rand k).1.y ≤ g.GetGeo_Dm 1) ∧
    (-g.GetGeo_Dm 2 ≤ (GenRandomPosition g rand k).1.z ∧
      (GenRandomPosition g rand k).1.z ≤ g.GetGeo_Dm 2) :=
  ⟨scaled_draw_mem hx (hr k).1 (hr k).2,
    scaled_draw_mem hy (hr (k + 1)).1 (hr (k + 1)).2,
    scaled_draw_mem hz (hr (k + 2)).1 (hr (k + 2)).2⟩

/-- C10, on the detector of half-dimensions `(1, 2, 3)`: the point drawn lies in
`[-1, 1] × [-2, 2] × [-3, 3]`. -/
theorem GenRandomPosition_in_box_witness :
    ((-1 : ℚ) ≤ (GenRandomPosition twoPointGenerator sampleDraws 2).1.x ∧
      (GenRandomPosition (twoPointGenerator : Generator ℚ) sampleDraws 2).1.x ≤ 1) ∧
    ((-2 : ℚ) ≤ (GenRandomPosition twoPointGenerator sampleDraws 2).1.y ∧
      (GenRandomPosition (twoPointGenerator : Generator ℚ) sampleDraws 2).1.y ≤ 2) ∧
    ((-3 : ℚ) ≤ (GenRandomPosition twoPointGenerator sampleDraws 2).1.z ∧
      (GenRandomPosition (twoPointGenerator : Generator ℚ) sampleDraws 2).1.z ≤ 3) := by
  have h := GenRandomPosition_in_box (twoPointGenerator : Generator ℚ) sampleDraws 2
    (by norm_num [twoPointGenerator]) (by norm_num [twoPointGenerator])
    (by norm_num [twoPointGenerator]) sampleDraws_uniform
  norm_num [twoPointGenerator] at h
  norm_num [twoPointGenerator]
  exact h

/-- Whatever the loop of `GenInteraction` returns is a candidate it drew: an energy
`e_min + (e_max - e_min) u` and a cosine `-1 + 2 u'` for two draws `u`, `u'` of the
stream. -/
theorem GenInteraction.loop_returns_candidate (c : PhysicalConstants K) (m : LibM K)
    (g : Generator K) (xs_max : Option K) (rand : Nat → K) :
    ∀ (fuel k : Nat) (e cos_theta : K) (k' : Nat),
      GenInteraction.loop c m g xs_max rand fuel k = some (e, cos_theta, k') →
      ∃ j, e = g.e_min + (g.e_max - g.e_min) * rand j ∧
        cos_theta = -1 + 2 * rand (j + 1) ∧ k' = j + 3 ∧
        flt (xs_max.map (fun x => x * g.flux_max * rand (j + 2)))
          (fmul (CrossSection c m e cos_theta) (InterpolateSpectrum g.energy g.flux e))
          = true := by
  intro fuel
  induction fuel with
  | zero => intro k e cos_theta k' h; simp [GenInteraction.loop] at h
  | succ fuel ih =>
    intro k e cos_theta k' h
    rw [GenInteraction.loop] at h
    split_ifs at h with hpass
    · simp only [Option.some.injEq, Prod.mk.injEq] at h
      obtain ⟨he, hc, hk⟩ := h
      subst he hc
      exact ⟨k, rfl, rfl, hk.symm, hpass⟩
    · exact ih (k + 3) e cos_theta k' h

/-- C9: for every spectrum with `e_min ≤ e_max` and every stream of draws in `[0, 1]`, a
pair `(e_nu, cos_theta)` returned by `GenInteraction` satisfies `e_min ≤ e_nu ≤ e_max` and
`-1 ≤ cos_theta ≤ 1`. -/
theorem GenInteraction_in_range (c : PhysicalConstants K) (m : LibM K) (g : Generator K)
    (rand : Nat → K) (fuel k : Nat) (hrange : g.e_min ≤ g.e_max) (hr : UniformDraws rand)
    (e_nu cos_theta : K) (k' : Nat)
    (h : GenInteraction c m g rand fuel k = some (e_nu, cos_theta, k')) :
    (g.e_min ≤ e_nu ∧ e_nu ≤ g.e_max) ∧ (-1 ≤ cos_theta ∧ cos_theta ≤ 1) := by
  obtain ⟨j, he, hc, _, _⟩ :=
    GenInteraction.loop_returns_candidate c m g _ rand fuel k e_nu cos_theta k' h
  have hd : 0 ≤ g.e_max - g.e_min := sub_nonneg.mpr hrange
  have h0 := (hr j).1
  have h1 := (hr j).2
  have h0' := (hr (j + 1)).1
  have h1' := (hr (j + 1)).2
  subst he hc
  refine ⟨⟨?_, ?_⟩, ?_, ?_⟩
  · nlinarith [mul_nonneg hd h0]
  · nlinarith [mul_nonneg hd (sub_nonneg.mpr h1)]
  · linarith
  · linarith

/-- At or above the threshold, with an order 0 energy strictly above the electron mass and an
exact square root, `CrossSection` returns a number. -/
theorem CrossSection_isSome (c : PhysicalConstants K) (m : LibM K) (hm : m.SqrtExact)
    (e_nu cos_theta : K) (hthr : ¬ e_nu < CrossSection.e_nu_min c)
    (he0 : c.electron_mass_c2 < CrossSection.e0 c e_nu) :
    ∃ xs, CrossSection c m e_nu cos_theta = some xs := by
  have hme := c.electron_mass_pos
  obtain ⟨p0, hp0, hp0nn, hp0sq⟩ := (hm (CrossSection.e0 c e_nu * CrossSection.e0 c e_nu
      - c.electron_mass_c2 * c.electron_mass_c2)).2 (by nlinarith)
  have hp0ne : p0 ≠ 0 := by
    intro h0
    rw [h0, mul_zero] at hp0sq
    nlinarith
  have he1 := CrossSection.e1_ge_electron_mass c e_nu cos_theta (CrossSection.e0 c e_nu)
    (p0 / CrossSection.e0 c e_nu)
  obtain ⟨p1, hp1, _, _⟩ := (hm
    (CrossSection.e1 c e_nu cos_theta (CrossSection.e0 c e_nu) (p0 / CrossSection.e0 c e_nu)
      * CrossSection.e1 c e_nu cos_theta (CrossSection.e0 c e_nu)
          (p0 / CrossSection.e0 c e_nu)
      - c.electron_mass_c2 * c.electron_mass_c2)).2 (by nlinarith)
  exact ⟨_, CrossSection_eq_combine c m e_nu cos_theta hthr p0 p1 hp0 hp0ne hp1⟩

/-- One iteration of the loop of `GenInteraction` that accepts its candidate. -/
theorem GenInteraction.loop_accept (c : PhysicalConstants K) (m : LibM K) (g : Generator K)
    (xs_max : Option K) (rand : Nat → K) (fuel k : Nat) (x w fl : K)
    (hx : xs_max = some x)
    (hw : CrossSection c m (g.e_min + (g.e_max - g.e_min) * rand k) (-1 + 2 * rand (k + 1))
            = some w)
    (hf : InterpolateSpectrum g.energy g.flux (g.e_min + (g.e_max - g.e_min) * rand k)
            = some fl)
    (hlt : x * g.flux_max * rand (k + 2) < w * fl) :
    GenInteraction.loop c m g xs_max rand (fuel + 1) k
      = some (g.e_min + (g.e_max - g.e_min) * rand k, -1 + 2 * rand (k + 1), k + 3) := by
  rw [GenInteraction.loop]
  simp [hx, hw, hf, flt, fmul, hlt]

/-- With the CLHEP masses and an exact square root, `GenInteraction` on the two-point
spectrum accepts the first candidate of the sample stream read from counter 2: the energy
10 MeV and the cosine 0. -/
theorem GenInteraction_twoPoint (m : LibM K) (hm : m.SqrtExact) :
    GenInteraction (clhep : PhysicalConstants K) m twoPointGenerator sampleDraws 1 2
      = some (10, 0, 5) := by
  obtain ⟨x, hx⟩ := CrossSection_isSome (clhep : PhysicalConstants K) m hm 10 (-1)
    (not_lt.mpr (le_of_lt CrossSection.e_nu_min_clhep_lt_ten))
    (by norm_num [CrossSection.e0, CrossSection.DELTA, clhep])
  obtain ⟨w, hw, hwpos⟩ := CrossSection_ten_zero_pos m hm
  have hene : (twoPointGenerator : Generator K).e_min
      + ((twoPointGenerator : Generator K).e_max - (twoPointGenerator : Generator K).e_min)
        * sampleDraws 2 = 10 := by
    norm_num [twoPointGenerator, sampleDraws]
  have hcos : (-1 : K) + 2 * sampleDraws (2 + 1) = 0 := by
    norm_num [sampleDraws]
  have hflux : InterpolateSpectrum (twoPointGenerator : Generator K).energy
      (twoPointGenerator : Generator K).flux 10 = some 1 := by
    norm_num [InterpolateSpectrum, InterpolateSpectrum.loop, InterpolateSpectrum.bracket,
      fdiv, twoPointGenerator]
  have h := GenInteraction.loop_accept (clhep : PhysicalConstants K) m twoPointGenerator
    (some x) sampleDraws 0 2 x w 1 rfl (by rw [hene, hcos]; exact hw) (by rw [hene]; exact hflux)
    (by norm_num [sampleDraws]; exact hwpos)
  rw [hene, hcos] at h
  unfold GenInteraction
  have hemax : (twoPointGenerator : Generator K).e_max = 10 := by
    norm_num [twoPointGenerator]
  rw [hemax, hx]
  exact h

/-- C9, on the two-point spectrum `[(1.8, 0.0), (10.0, 1.0)]`: the pair returned for the
sample stream, `(10, 0)`, has its energy in `[1.8, 10]` and its cosine in `[-1, 1]`. -/
theorem GenInteraction_in_range_witness :
    GenInteraction (clhep : PhysicalConstants ℝ) realLibM twoPointGenerator sampleDraws 1 2
        = some (10, 0, 5) ∧
      (((twoPointGenerator : Generator ℝ).e_min ≤ 10 ∧
          (10 : ℝ) ≤ (twoPointGenerator : Generator ℝ).e_max) ∧
        ((-1 : ℝ) ≤ 0 ∧ (0 : ℝ) ≤ 1)) :=
  ⟨GenInteraction_twoPoint realLibM realLibM_sqrtExact,
    GenInteraction_in_range (clhep : PhysicalConstants ℝ) realLibM twoPointGenerator
      sampleDraws 1 2 (by norm_num [twoPointGenerator]) sampleDraws_uniform 10 0 5
      (GenInteraction_twoPoint realLibM realLibM_sqrtExact)⟩

/-! ## Lemmas on the functions that `GenEvent` calls -/

theorem realLibM_acosDefined : realLibM.AcosDefined := by
  intro x h1 h2
  exact ⟨Real.arccos x, by simp [realLibM, not_lt.mpr h1, not_lt.mpr h2]⟩

theorem ThreeVector.mag2_nonneg (v : ThreeVector K) : 0 ≤ v.mag2 := by
  unfold ThreeVector.mag2
  nlinarith [mul_self_nonneg v.x, mul_self_nonneg v.y, mul_self_nonneg v.z]

/-- With an exact square root, `rotate` always returns a vector. -/
theorem ThreeVector.rotate_isSome (m : LibM K) (hm : m.SqrtExact) (v : ThreeVector K)
    (angle : K) (axis : ThreeVector K) : ∃ w, ThreeVector.rotate m v angle axis = some w := by
  obtain ⟨ll, hll, _, _⟩ := (hm axis.mag2).2 axis.mag2_nonneg
  unfold ThreeVector.rotate
  by_cases ha : angle = 0
  · exact ⟨v, by simp [ha]⟩
  · by_cases hl : ll = 0
    · exact ⟨v, by simp [ha, hll, hl]⟩
    · simp only [ha, hll, hl, if_false, Option.bind_eq_bind, Option.some_bind,
        Option.pure_def]
      exact ⟨_, rfl⟩

/-- A number returned by `PositronEnergy` is at least the electron mass. -/
theorem PositronEnergy_some_ge (c : PhysicalConstants K) (m : LibM K) (e_nu cos_theta r : K)
    (h : PositronEnergy c m e_nu cos_theta = some r) : c.electron_mass_c2 ≤ r := by
  simp only [PositronEnergy, Option.bind_eq_bind, Option.bind_eq_some, Option.pure_def,
    Option.some.injEq] at h
  obtain ⟨p0, _, v0, _, hr⟩ := h
  rw [← hr]
  exact PositronEnergy.e1_clamped_ge c _ _ _ _

/-- With the CLHEP masses and an exact square root, `PositronEnergy(10, 0)` is the electron
mass: the order 1 energy computed from `e0 = 10 - M_n + m_e` is negative and clamped. -/
theorem PositronEnergy_ten_zero (m : LibM K) (hm : m.SqrtExact) :
    PositronEnergy (clhep : PhysicalConstants K) m 10 0
      = some (clhep : PhysicalConstants K).electron_mass_c2 := by
  obtain ⟨p0, _, _, hp⟩ := PositronEnergy_eq_e1 (clhep : PhysicalConstants K) m hm 10 0
    (by norm_num [PositronEnergy.e0, clhep])
  rw [hp]
  norm_num [PositronEnergy.e1, PositronEnergy.e0, clhep]

/-! ## C17: interpolation below the table, and the bracket of a query inside it -/

/-- C17: on a table of at least two points with strictly increasing energies, a query `ene`
strictly below the first energy returns the line through the first two nodes evaluated at
`ene`, `f0 + (f1 - f0) * (ene - e0) / (e1 - e0)`: nothing clamps the query at the first
energy. -/
theorem InterpolateSpectrum_below_range (ener_vec flux_vec : List K)
    (hlen : flux_vec.length = ener_vec.length) (h2 : 2 ≤ ener_vec.length)
    (hs : StrictlyIncreasing ener_vec) (ene : K) (he : ene < ener_vec[0]) :
    InterpolateSpectrum ener_vec flux_vec ene
      = some (flux_vec[0] + (flux_vec[1] - flux_vec[0]) * (ene - ener_vec[0])
          / (ener_vec[1] - ener_vec[0])) :=
  InterpolateSpectrum_eq_of_bracket ener_vec flux_vec ene 1 hlen hs le_rfl (by omega)
    (le_of_lt (lt_trans he (hs.lt_of_lt Nat.zero_lt_one (by omega))))
    (fun k _ h1 hk => by omega)

/-- C17, on the table `[(1, 10), (2, 20), (4, 40)]` at the query `0`: the line through the
first two nodes gives `0`, below the first flux. -/
theorem InterpolateSpectrum_below_range_witness :
    InterpolateSpectrum [(1 : ℚ), 2, 4] [10, 20, 40] 0
      = some (10 + (20 - 10) * (0 - 1) / (2 - 1)) :=
  InterpolateSpectrum_below_range [(1 : ℚ), 2, 4] [10, 20, 40] rfl (by decide)
    (by norm_num [StrictlyIncreasing]) 0 (by norm_num)

/-- The scan started at index `i` with the query above the energy `i - 1` (strictly above,
except at the start `i = 1`) and not above the last energy stops at an index `j` whose
bracket holds the query. -/
theorem InterpolateSpectrum.loop_finds (ener_vec flux_vec : List K) (ene : K)
    (h2 : 2 ≤ ener_vec.length)
    (hlast : ∀ (h : ener_vec.length - 1 < ener_vec.length),
      ene ≤ ener_vec[ener_vec.length - 1]) :
    ∀ (n i : Nat), 1 ≤ i → i + n = ener_vec.length →
      (∀ (h : i - 1 < ener_vec.length), ener_vec[i - 1] ≤ ene) →
      (1 < i → ∀ (h : i - 1 < ener_vec.length), ener_vec[i - 1] < ene) →
      ∃ (j : Nat) (a b : K), i ≤ j ∧ ener_vec[j - 1]? = some a ∧ ener_vec[j]? = some b ∧
        a ≤ ene ∧ ene ≤ b ∧
        InterpolateSpectrum.loop ener_vec flux_vec ene n i
          = InterpolateSpectrum.bracket ener_vec flux_vec ene j := by
  intro n
  induction n with
  | zero =>
    intro i hi hin hle hlt
    have hl : ener_vec.length - 1 < ener_vec.length := by omega
    have h1 := hlast hl
    have h3 := hlt (by omega) (by omega)
    have hidx : i - 1 = ener_vec.length - 1 := by omega
    simp only [hidx] at h3
    exact absurd h1 (not_le.mpr h3)
  | succ n ih =>
    intro i hi hin hle hlt
    have hil : i < ener_vec.length := by omega
    by_cases hc : ene ≤ ener_vec[i]
    · refine ⟨i, ener_vec[i - 1], ener_vec[i], le_rfl,
        List.getElem?_eq_getElem (by omega), List.getElem?_eq_getElem hil,
        hle (by omega), hc, ?_⟩
      rw [InterpolateSpectrum.loop, List.getElem?_eq_getElem hil]
      simp [hc]
    · have hgt : ener_vec[i] < ene := not_le.mp hc
      obtain ⟨j, a, b, hij, ha, hb, hae, heb, hloop⟩ := ih (i + 1) (by omega) (by omega)
        (fun _ => le_of_lt (by simpa using hgt)) (fun _ _ => by simpa using hgt)
      refine ⟨j, a, b, by omega, ha, hb, hae, heb, ?_⟩
      rw [InterpolateSpectrum.loop, List.getElem?_eq_getElem hil]
      simp only [hc, if_false]
      exact hloop

/-- A value on the segment from `f1` to `f2` lies between the two. -/
theorem segment_between {f1 f2 t : K} (h0 : 0 ≤ t) (h1 : t ≤ 1) :
    min f1 f2 ≤ f1 + (f2 - f1) * t ∧ f1 + (f2 - f1) * t ≤ max f1 f2 := by
  rcases le_total f1 f2 with h | h
  · rw [min_eq_left h, max_eq_right h]
    constructor <;> nlinarith [mul_nonneg (sub_nonneg.mpr h) h0,
      mul_nonneg (sub_nonneg.mpr h) (sub_nonneg.mpr h1)]
  · rw [min_eq_right h, max_eq_left h]
    constructor <;> nlinarith [mul_nonneg (sub_nonneg.mpr h) h0,
      mul_nonneg (sub_nonneg.mpr h) (sub_nonneg.mpr h1)]

/-- On a strictly increasing table of at least two points, a query between the first and the
last energy is interpolated on a bracket `[j - 1, j]` that holds it, and the value lies
between the two fluxes `f1`, `f2` of that bracket. -/
theorem InterpolateSpectrum_in_bracket (ener_vec flux_vec : List K)
    (hlen : flux_vec.length = ener_vec.length) (h2 : 2 ≤ ener_vec.length)
    (hs : StrictlyIncreasing ener_vec) (ene : K)
    (hlo : ener_vec[0] ≤ ene) (hhi : ene ≤ ener_vec[ener_vec.length - 1]) :
    ∃ (j : Nat) (f1 f2 v : K), 1 ≤ j ∧ flux_vec[j - 1]? = some f1 ∧ flux_vec[j]? = some f2 ∧
      InterpolateSpectrum ener_vec flux_vec ene = some v ∧
      InterpolateSpectrum.bracket ener_vec flux_vec ene j = some v ∧
      min f1 f2 ≤ v ∧ v ≤ max f1 f2 := by
  obtain ⟨j, a, b, hj1, ha, hb, hae, heb, hloop⟩ :=
    InterpolateSpectrum.loop_finds ener_vec flux_vec ene h2 (fun _ => hhi)
      (ener_vec.length - 1) 1 le_rfl (by omega) (fun _ => hlo) (fun h => absurd h (lt_irrefl 1))
  have hjl : j < ener_vec.length := by
    by_contra hcon
    rw [List.getElem?_eq_none (not_lt.mp hcon)] at hb
    exact absurd hb (by simp)
  rw [List.getElem?_eq_getElem hjl] at hb
  rw [List.getElem?_eq_getElem (show j - 1 < ener_vec.length by omega)] at ha
  simp only [Option.some.injEq] at ha hb
  have hlt : ener_vec[j - 1] < ener_vec[j] := hs.lt_of_lt (by omega) hjl
  have hd : 0 < ener_vec[j] - ener_vec[j - 1] := sub_pos.mpr hlt
  have hbr := InterpolateSpectrum.bracket_eq ener_vec flux_vec ene j hjl (by omega)
    (ne_of_gt hd)
  have ht0 : 0 ≤ (ene - ener_vec[j - 1]) / (ener_vec[j] - ener_vec[j - 1]) :=
    div_nonneg (by rw [ha]; exact sub_nonneg.mpr hae) (le_of_lt hd)
  have ht1 : (ene - ener_vec[j - 1]) / (ener_vec[j] - ener_vec[j - 1]) ≤ 1 := by
    rw [div_le_one hd]
    have : ene ≤ ener_vec[j] := by rw [hb]; exact heb
    linarith
  have hseg := @segment_between K _ flux_vec[j - 1] flux_vec[j] _ ht0 ht1
  rw [← mul_div_assoc] at hseg
  refine ⟨j, flux_vec[j - 1], flux_vec[j], _, hj1, List.getElem?_eq_getElem (by omega),
    List.getElem?_eq_getElem (by omega), ?_, hbr, hseg.1, hseg.2⟩
  rw [InterpolateSpectrum, hloop, hbr]

/-! ## Rounded arithmetic -/

/-- The unit roundoff of a rounding is not negative. -/
theorem Rounding.nonneg {rnd : K → K} {u : K} (hr : Rounding rnd u) : 0 ≤ u := by
  have h := hr 1
  simp only [abs_one, mul_one] at h
  exact le_trans (abs_nonneg _) h

/-- A rounding keeps zero. -/
theorem Rounding.zero {rnd : K → K} {u : K} (hr : Rounding rnd u) : rnd 0 = 0 := by
  have h := hr 0
  simp only [abs_zero, mul_zero, sub_zero] at h
  exact abs_nonpos_iff.mp h

/-- Exact arithmetic is the rounding of unit roundoff 0. -/
theorem Rounding.exact : Rounding (fun x : K => x) 0 := by
  intro x
  simp

/-- The rounded value is the argument times `1 + δ` for a relative error `δ` of size at most
the unit roundoff. -/
theorem Rounding.exists_rel {rnd : K → K} {u : K} (hr : Rounding rnd u) (x : K) :
    ∃ δ : K, |δ| ≤ u ∧ rnd x = x * (1 + δ) := by
  by_cases hx : x = 0
  · subst hx
    exact ⟨0, by simpa using hr.nonneg, by simp [hr.zero]⟩
  · refine ⟨(rnd x - x) / x, ?_, by field_simp⟩
    rw [abs_div, div_le_iff₀ (abs_pos.mpr hx)]
    exact hr x

/-- One more factor `1 + δ` on a quantity within `a` of 1. -/
theorem rel_error_mul {a u x δ : K} (hx : |x - 1| ≤ a) (hδ : |δ| ≤ u) :
    |x * (1 + δ) - 1| ≤ a + u + a * u := by
  have h : x * (1 + δ) - 1 = (x - 1) + δ + (x - 1) * δ := by ring
  rw [h]
  have h1 := abs_add ((x - 1) + δ) ((x - 1) * δ)
  have h2 := abs_add (x - 1) δ
  have h3 : |(x - 1) * δ| ≤ a * u := by
    rw [abs_mul]
    exact mul_le_mul hx hδ (abs_nonneg _) (le_trans (abs_nonneg _) hx)
  linarith

/-- The accumulated relative error of the quotient `(A * B) / D` computed from three rounded
differences with a rounded product and a rounded quotient is at most `6 u`. -/
theorem rel_error_quotient {u δ0 δb δ1 δ2 δa : K} (hu0 : 0 ≤ u) (hu : u ≤ 1 / 16)
    (h0 : |δ0| ≤ u) (hb : |δb| ≤ u) (h1 : |δ1| ≤ u) (h2 : |δ2| ≤ u) (ha : |δa| ≤ u) :
    0 < 1 + δa ∧ |(1 + δ0) * (1 + δb) * (1 + δ1) * (1 + δ2) / (1 + δa) - 1| ≤ 6 * u := by
  have hapos : 0 < 1 + δa := by
    have := (abs_le.mp ha).1
    linarith
  refine ⟨hapos, ?_⟩
  have s1 : |(1 + δ0) - 1| ≤ u := by simpa using h0
  have s2 := rel_error_mul s1 hb
  have s3 := rel_error_mul s2 h1
  have s4 := rel_error_mul s3 h2
  have huu : u * u ≤ u / 16 := by nlinarith
  have e2 : u + u + u * u ≤ 33 / 16 * u := by linarith
  have e3 : u + u + u * u + u + (u + u + u * u) * u ≤ 817 / 256 * u := by
    have : (u + u + u * u) * u ≤ 33 / 16 * u * (1 / 16) :=
      mul_le_mul e2 hu hu0 (by linarith)
    linarith
  have e4 : u + u + u * u + u + (u + u + u * u) * u + u
      + (u + u + u * u + u + (u + u + u * u) * u) * u ≤ 17985 / 4096 * u := by
    have : (u + u + u * u + u + (u + u + u * u) * u) * u ≤ 817 / 256 * u * (1 / 16) :=
      mul_le_mul e3 hu hu0 (by linarith)
    linarith
  have hX := le_trans s4 e4
  generalize (1 + δ0) * (1 + δb) * (1 + δ1) * (1 + δ2) = X at hX
  have hdiv : X / (1 + δa) - 1 = (X - 1 - δa) / (1 + δa) := by
    field_simp
    ring
  rw [hdiv, abs_div, abs_of_pos hapos, div_le_iff₀ hapos]
  have hnum : |X - 1 - δa| ≤ 17985 / 4096 * u + u := by
    have := abs_sub (X - 1) δa
    linarith
  have hlow : 15 / 16 ≤ 1 + δa := by
    have := (abs_le.mp ha).1
    linarith
  nlinarith

/-- The interpolation formula in rounded arithmetic against the exact line: with `L` the
value `f1 + Q` of the line and `Q = (f2 - f1) * (ene - e1) / (e2 - e1)` its increment, the
rounded divisor is not zero and the rounded value is within `u |L| + 7 u |Q|` of `L`. -/
theorem InterpolateSpectrum.rounded_line_error {rnd : K → K} {u : K} (hr : Rounding rnd u)
    (hu : u ≤ 1 / 16) (e1 e2 f1 f2 ene : K) (hne : e2 - e1 ≠ 0) :
    rnd (e2 - e1) ≠ 0 ∧
    |rnd (f1 + rnd (rnd (rnd (f2 - f1) * rnd (ene - e1)) / rnd (e2 - e1)))
        - (f1 + (f2 - f1) * (ene - e1) / (e2 - e1))|
      ≤ u * |f1 + (f2 - f1) * (ene - e1) / (e2 - e1)|
        + 7 * u * |(f2 - f1) * (ene - e1) / (e2 - e1)| := by
  have hu0 := hr.nonneg
  obtain ⟨δ0, h0, hd1⟩ := hr.exists_rel (f2 - f1)
  obtain ⟨δb, hb, hd3⟩ := hr.exists_rel (ene - e1)
  obtain ⟨δa, ha, hd2⟩ := hr.exists_rel (e2 - e1)
  rw [hd1, hd3, hd2]
  obtain ⟨δ1, h1, hp⟩ := hr.exists_rel ((f2 - f1) * (1 + δ0) * ((ene - e1) * (1 + δb)))
  rw [hp]
  obtain ⟨δ2, h2, hq⟩ := hr.exists_rel
    ((f2 - f1) * (1 + δ0) * ((ene - e1) * (1 + δb)) * (1 + δ1) / ((e2 - e1) * (1 + δa)))
  rw [hq]
  obtain ⟨δ3, h3, hrr⟩ := hr.exists_rel
    (f1 + (f2 - f1) * (1 + δ0) * ((ene - e1) * (1 + δb)) * (1 + δ1) / ((e2 - e1) * (1 + δa))
      * (1 + δ2))
  rw [hrr]
  obtain ⟨hapos, hP⟩ := rel_error_quotient hu0 hu h0 hb h1 h2 ha
  refine ⟨mul_ne_zero hne (ne_of_gt hapos), ?_⟩
  have hq' : (f2 - f1) * (1 + δ0) * ((ene - e1) * (1 + δb)) * (1 + δ1) / ((e2 - e1) * (1 + δa))
      * (1 + δ2)
      = (f2 - f1) * (ene - e1) / (e2 - e1)
        * ((1 + δ0) * (1 + δb) * (1 + δ1) * (1 + δ2) / (1 + δa)) := by
    field_simp
    ring
  rw [hq']
  generalize (1 + δ0) * (1 + δb) * (1 + δ1) * (1 + δ2) / (1 + δa) = P at hP
  generalize (f2 - f1) * (ene - e1) / (e2 - e1) = Q
  have hsplit : (f1 + Q * P) * (1 + δ3) - (f1 + Q) = Q * ((P - 1) * (1 + δ3)) + δ3 * (f1 + Q) := by
    ring
  rw [hsplit]
  have hA : |Q * ((P - 1) * (1 + δ3))| ≤ 7 * u * |Q| := by
    rw [abs_mul, abs_mul]
    have h13 : |1 + δ3| ≤ 17 / 16 := by
      have := abs_add (1 : K) δ3
      rw [abs_one] at this
      linarith
    have : |P - 1| * |1 + δ3| ≤ 6 * u * (17 / 16) :=
      mul_le_mul hP h13 (abs_nonneg _) (by linarith)
    have hQ := abs_nonneg Q
    nlinarith
  have hB : |δ3 * (f1 + Q)| ≤ u * |f1 + Q| := by
    rw [abs_mul]
    exact mul_le_mul_of_nonneg_right h3 (abs_nonneg _)
  have := abs_add (Q * ((P - 1) * (1 + δ3))) (δ3 * (f1 + Q))
  linarith

/-! ## Rounding to `double` -/

/-- The nearest integer is within one half. -/
theorem roundHalfEven_error [FloorRing K] (y : K) : |(roundHalfEven y : K) - y| ≤ 1 / 2 := by
  have h1 := Int.floor_le y
  have h2 := Int.lt_floor_add_one y
  unfold roundHalfEven
  simp only
  split_ifs with ha hb hc
  · rw [abs_le]; constructor <;> linarith
  · push_cast; rw [abs_le]; constructor <;> linarith
  · have : y - ⌊y⌋ = 1 / 2 := le_antisymm (not_lt.mp hb) (not_lt.mp ha)
    rw [abs_le]; constructor <;> linarith
  · have : y - ⌊y⌋ = 1 / 2 := le_antisymm (not_lt.mp hb) (not_lt.mp ha)
    push_cast; rw [abs_le]; constructor <;> linarith

/-- An integer less than one half away is the nearest integer. -/
theorem roundHalfEven_eq [FloorRing K] (y : K) (m : ℤ) (h : |y - m| < 1 / 2) :
    roundHalfEven y = m := by
  rw [abs_lt] at h
  have h1 := Int.floor_le y
  have h2 := Int.lt_floor_add_one y
  have hfl : ⌊y⌋ = m ∨ ⌊y⌋ = m - 1 := by
    have a1 : (m : K) - 1 < ⌊y⌋ + 1 := by linarith
    have a2 : (⌊y⌋ : K) < m + 1 := by linarith
    have b1 : m - 1 < ⌊y⌋ + 1 := by exact_mod_cast a1
    have b2 : ⌊y⌋ < m + 1 := by exact_mod_cast a2
    omega
  unfold roundHalfEven
  simp only
  rcases hfl with hf | hf
  · rw [hf, if_pos (by linarith)]
  · rw [hf]
    have hc : (((m - 1 : ℤ) : K)) = (m : K) - 1 := by push_cast; ring
    rw [if_neg (by rw [hc]; linarith), if_pos (by rw [hc]; linarith)]
    ring

/-- An even integer exactly one half away is the nearest integer. -/
theorem roundHalfEven_tie [FloorRing K] (y : K) (m : ℤ) (h : |y - m| = 1 / 2)
    (hm : m % 2 = 0) : roundHalfEven y = m := by
  unfold roundHalfEven
  simp only
  rcases (abs_eq (by norm_num : (0 : K) ≤ 1 / 2)).mp h with h1 | h1
  · have hf : ⌊y⌋ = m := by
      rw [Int.floor_eq_iff]; constructor <;> linarith
    rw [hf, if_neg (by linarith), if_neg (by linarith), if_pos hm]
  · have hf : ⌊y⌋ = m - 1 := by
      rw [Int.floor_eq_iff]; push_cast; constructor <;> linarith
    have hc : (((m - 1 : ℤ) : K)) = (m : K) - 1 := by push_cast; ring
    rw [hf, if_neg (by rw [hc]; linarith), if_neg (by rw [hc]; linarith),
      if_neg (by omega)]
    ring

/-- Rounding to `double` is a rounding of unit roundoff `2⁻⁵³`. -/
theorem binary64_rounding [FloorRing K] : Rounding (binary64 : K → K) (1 / 2 ^ 53) := by
  intro x
  unfold binary64
  by_cases hx : x = 0
  · simp [hx]
  · simp only [hx, if_false]
    have hpos : 0 < |x| := abs_pos.mpr hx
    generalize he : Int.log 2 |x| - 52 = e
    have hs : (0 : K) < 2 ^ e := zpow_pos (by norm_num) e
    have hlog : (2 : K) ^ (Int.log 2 |x|) ≤ |x| := by
      have h := Int.zpow_log_le_self (by norm_num : 1 < 2) hpos
      simpa using h
    have hsplit : (2 : K) ^ (Int.log 2 |x|) = 2 ^ 52 * 2 ^ e := by
      have h : Int.log 2 |x| = 52 + e := by rw [← he]; ring
      rw [h, zpow_add₀ (by norm_num : (2 : K) ≠ 0)]
      norm_cast
    have herr := roundHalfEven_error (x / 2 ^ e)
    have hkey : (roundHalfEven (x / 2 ^ e) : K) * 2 ^ e - x
        = ((roundHalfEven (x / 2 ^ e) : K) - x / 2 ^ e) * 2 ^ e := by
      field_simp
    rw [hkey, abs_mul, abs_of_pos hs]
    rw [hsplit] at hlog
    calc |(roundHalfEven (x / 2 ^ e) : K) - x / 2 ^ e| * 2 ^ e
        ≤ 1 / 2 * 2 ^ e := mul_le_mul_of_nonneg_right herr (le_of_lt hs)
      _ = 1 / 2 ^ 53 * (2 ^ 52 * 2 ^ e) := by norm_num; ring
      _ ≤ 1 / 2 ^ 53 * |x| := mul_le_mul_of_nonneg_left hlog (by positivity)

/-- A certificate for one rounding to `double`: `x` lies in the binade of spacing
`s = 2 ^ e`, and `m * s` is the multiple of `s` nearest to `x`, with `m` even when `x` lies
half way between two multiples. -/
theorem binary64_eq [FloorRing K] (x : K) (m e : ℤ) (s : K) (hs : s = 2 ^ e)
    (h1 : 2 ^ 52 * s ≤ |x|) (h2 : |x| < 2 ^ 53 * s)
    (h3 : |x - m * s| < s / 2 ∨ (|x - m * s| = s / 2 ∧ m % 2 = 0)) :
    binary64 x = m * s := by
  have hspos : (0 : K) < s := by rw [hs]; exact zpow_pos (by norm_num) e
  have hpos : 0 < |x| := lt_of_lt_of_le (by positivity) h1
  have hx : x ≠ 0 := abs_pos.mp hpos
  have hlog : Int.log 2 |x| = e + 52 := by
    apply le_antisymm
    · have h : Int.log 2 |x| < e + 53 := by
        rw [← Int.lt_zpow_iff_log_lt (by norm_num : 1 < 2) hpos]
        have h53 : (2 : K) ^ (e + 53) = 2 ^ 53 * s := by
          rw [hs, zpow_add₀ (by norm_num : (2 : K) ≠ 0)]; norm_cast; ring
        simpa [h53] using h2
      omega
    · rw [← Int.zpow_le_iff_le_log (by norm_num : 1 < 2) hpos]
      have h52 : (2 : K) ^ (e + 52) = 2 ^ 52 * s := by
        rw [hs, zpow_add₀ (by norm_num : (2 : K) ≠ 0)]; norm_cast; ring
      simpa [h52] using h1
  unfold binary64
  simp only [hx, if_false, hlog]
  have he : e + 52 - 52 = e := by ring
  rw [he, ← hs]
  have hdiv : x / s - m = (x - m * s) / s := by field_simp; ring
  have hround : roundHalfEven (x / s) = m := by
    rcases h3 with h3 | ⟨h3, hm⟩
    · apply roundHalfEven_eq
      rw [hdiv, abs_div, abs_of_pos hspos, div_lt_iff₀ hspos]
      linarith
    · apply roundHalfEven_tie _ _ _ hm
      rw [hdiv, abs_div, abs_of_pos hspos, h3]
      field_simp
      ring
  rw [hround]

/-- Zero is a `double`. -/
theorem binary64_zero [FloorRing K] : binary64 (0 : K) = 0 := by
  simp [binary64]

/-! ## `InterpolateSpectrum` in rounded arithmetic -/

/-- With the rounding of exact arithmetic the rounded branch is the exact one. -/
theorem InterpolateSpectrum.roundedBracket_exact (ener_vec flux_vec : List K) (ene : K)
    (i : Nat) :
    InterpolateSpectrum.roundedBracket (fun x => x) ener_vec flux_vec ene i
      = InterpolateSpectrum.bracket ener_vec flux_vec ene i := rfl

/-- With the rounding of exact arithmetic the rounded loop is the exact one. -/
theorem InterpolateSpectrum.roundedLoop_exact (ener_vec flux_vec : List K) (ene : K) :
    ∀ n i : Nat, InterpolateSpectrum.roundedLoop (fun x => x) ener_vec flux_vec ene n i
      = InterpolateSpectrum.loop ener_vec flux_vec ene n i := by
  intro n
  induction n with
  | zero => intro i; rfl
  | succ n ih =>
    intro i
    rw [InterpolateSpectrum.roundedLoop, InterpolateSpectrum.loop]
    cases ener_vec[i]? with
    | none => rfl
    | some e2 =>
      simp only [ih, InterpolateSpectrum.roundedBracket_exact]

/-- With the rounding of exact arithmetic, `InterpolateSpectrum.rounded` is
`InterpolateSpectrum`. -/
theorem InterpolateSpectrum.rounded_exact (ener_vec flux_vec : List K) (ene : K) :
    InterpolateSpectrum.rounded (fun x => x) ener_vec flux_vec ene
      = InterpolateSpectrum ener_vec flux_vec ene :=
  InterpolateSpectrum.roundedLoop_exact ener_vec flux_vec ene _ _

/-- The rounded scan stops at the first index `j`, counted from `i`, whose energy is not
below the query. -/
theorem InterpolateSpectrum.roundedLoop_eq_bracket (rnd : K → K) (ener_vec flux_vec : List K)
    (ene : K) (j : Nat) (hj : j < ener_vec.length) (hle : ene ≤ ener_vec[j]) :
    ∀ (n i : Nat), i ≤ j → j < i + n →
      (∀ k (_ : k < ener_vec.length), i ≤ k → k < j → ener_vec[k] < ene) →
      InterpolateSpectrum.roundedLoop rnd ener_vec flux_vec ene n i
        = InterpolateSpectrum.roundedBracket rnd ener_vec flux_vec ene j := by
  intro n
  induction n with
  | zero => intro i hij hjn _; omega
  | succ n ih =>
    intro i hij hjn hlow
    have hi : i < ener_vec.length := lt_of_le_of_lt hij hj
    rw [InterpolateSpectrum.roundedLoop, List.getElem?_eq_getElem hi]
    rcases Nat.eq_or_lt_of_le hij with heq | hlt
    · subst heq
      simp [hle]
    · have hnot : ¬ ene ≤ ener_vec[i] := not_le.mpr (hlow i hi le_rfl hlt)
      simp only [hnot, if_false]
      exact ih (i + 1) hlt (by omega) (fun k hk hik hkj => hlow k hk (by omega) hkj)

/-- The value of the rounded interpolation on bracket `j` when the rounded difference of its
two energies is not zero. -/
theorem InterpolateSpectrum.roundedBracket_eq (rnd : K → K) (ener_vec flux_vec : List K)
    (ene : K) (j : Nat) (hj : j < ener_vec.length) (hf : j < flux_vec.length)
    (hne : rnd (ener_vec[j] - ener_vec[j - 1]) ≠ 0) :
    InterpolateSpectrum.roundedBracket rnd ener_vec flux_vec ene j
      = some (rnd (flux_vec[j - 1] + rnd (rnd (rnd (flux_vec[j] - flux_vec[j - 1])
          * rnd (ene - ener_vec[j - 1])) / rnd (ener_vec[j] - ener_vec[j - 1])))) := by
  have hj1 : j - 1 < ener_vec.length := by omega
  have hf1 : j - 1 < flux_vec.length := by omega
  simp [InterpolateSpectrum.roundedBracket, List.getElem?_eq_getElem hj,
    List.getElem?_eq_getElem hf, List.getElem?_eq_getElem hj1, List.getElem?_eq_getElem hf1,
    fdiv_of_ne _ hne]

/-- On a strictly increasing table, the rounded interpolation of a query whose first index
`j ≥ 1` with `ene ≤ ener_vec[j]` is known is the rounded formula on the nodes `j - 1` and
`j`, a number within `u |L| + 7 u |Q|` of the value `L = f1 + Q` of the exact line. -/
theorem InterpolateSpectrum.rounded_of_bracket {rnd : K → K} {u : K} (hr : Rounding rnd u)
    (hu : u ≤ 1 / 16) (ener_vec flux_vec : List K) (ene : K) (j : Nat)
    (hlen : flux_vec.length = ener_vec.length) (hs : StrictlyIncreasing ener_vec)
    (hj1 : 1 ≤ j) (hj : j < ener_vec.length) (hle : ene ≤ ener_vec[j])
    (hlow : ∀ k (_ : k < ener_vec.length), 1 ≤ k → k < j → ener_vec[k] < ene) :
    ∃ r, InterpolateSpectrum.rounded rnd ener_vec flux_vec ene = some r ∧
      InterpolateSpectrum.roundedBracket rnd ener_vec flux_vec ene j = some r ∧
      r = rnd (flux_vec[j - 1] + rnd (rnd (rnd (flux_vec[j] - flux_vec[j - 1])
          * rnd (ene - ener_vec[j - 1])) / rnd (ener_vec[j] - ener_vec[j - 1]))) ∧
      |r - (flux_vec[j - 1] + (flux_vec[j] - flux_vec[j - 1]) * (ene - ener_vec[j - 1])
              / (ener_vec[j] - ener_vec[j - 1]))|
        ≤ u * |flux_vec[j - 1] + (flux_vec[j] - flux_vec[j - 1]) * (ene - ener_vec[j - 1])
              / (ener_vec[j] - ener_vec[j - 1])|
          + 7 * u * |(flux_vec[j] - flux_vec[j - 1]) * (ene - ener_vec[j - 1])
              / (ener_vec[j] - ener_vec[j - 1])| := by
  have hne : ener_vec[j] - ener_vec[j - 1] ≠ 0 :=
    sub_ne_zero.mpr (ne_of_gt (hs.lt_of_lt (by omega) hj))
  obtain ⟨hrne, herr⟩ := InterpolateSpectrum.rounded_line_error hr hu ener_vec[j - 1]
    ener_vec[j] flux_vec[j - 1] flux_vec[j] ene hne
  have hbr := InterpolateSpectrum.roundedBracket_eq rnd ener_vec flux_vec ene j hj (by omega)
    hrne
  refine ⟨_, ?_, hbr, rfl, herr⟩
  rw [InterpolateSpectrum.rounded,
    InterpolateSpectrum.roundedLoop_eq_bracket rnd ener_vec flux_vec ene j hj hle _ 1 hj1
      (by omega) hlow, hbr]

/-- The rounded scan started at index `i` with the query above the energy `i - 1` (strictly
above, except at the start `i = 1`) and not above the last energy stops at an index `j` whose
bracket holds the query. -/
theorem InterpolateSpectrum.roundedLoop_finds (rnd : K → K) (ener_vec flux_vec : List K)
    (ene : K) (h2 : 2 ≤ ener_vec.length)
    (hlast : ∀ (h : ener_vec.length - 1 < ener_vec.length),
      ene ≤ ener_vec[ener_vec.length - 1]) :
    ∀ (n i : Nat), 1 ≤ i → i + n = ener_vec.length →
      (∀ (h : i - 1 < ener_vec.length), ener_vec[i - 1] ≤ ene) →
      (1 < i → ∀ (h : i - 1 < ener_vec.length), ener_vec[i - 1] < ene) →
      ∃ (j : Nat), i ≤ j ∧ ∃ (hj : j < ener_vec.length),
        ener_vec[j - 1] ≤ ene ∧ ene ≤ ener_vec[j] ∧
        InterpolateSpectrum.roundedLoop rnd ener_vec flux_vec ene n i
          = InterpolateSpectrum.roundedBracket rnd ener_vec flux_vec ene j := by
  intro n
  induction n with
  | zero =>
    intro i hi hin hle hlt
    have hl : ener_vec.length - 1 < ener_vec.length := by omega
    have h1 := hlast hl
    have h3 := hlt (by omega) (by omega)
    have hidx : i - 1 = ener_vec.length - 1 := by omega
    simp only [hidx] at h3
    exact absurd h1 (not_le.mpr h3)
  | succ n ih =>
    intro i hi hin hle hlt
    have hil : i < ener_vec.length := by omega
    by_cases hc : ene ≤ ener_vec[i]
    · refine ⟨i, le_rfl, hil, hle (by omega), hc, ?_⟩
      rw [InterpolateSpectrum.roundedLoop, List.getElem?_eq_getElem hil]
      simp [hc]
    · have hgt : ener_vec[i] < ene := not_le.mp hc
      obtain ⟨j, hij, hj, hae, heb, hloop⟩ := ih (i + 1) (by omega) (by omega)
        (fun _ => le_of_lt (by simpa using hgt)) (fun _ _ => by simpa using hgt)
      refine ⟨j, by omega, hj, hae, heb, ?_⟩
      rw [InterpolateSpectrum.roundedLoop, List.getElem?_eq_getElem hil]
      simp only [hc, if_false]
      exact hloop

/-- The rounded interpolation on a table of two points, for a query not above the second
energy. -/
theorem InterpolateSpectrum.rounded_two_points (rnd : K → K) (e1 e2 f1 f2 ene : K)
    (hle : ene ≤ e2) (hne : rnd (e2 - e1) ≠ 0) :
    InterpolateSpectrum.rounded rnd [e1, e2] [f1, f2] ene
      = some (rnd (f1 + rnd (rnd (rnd (f2 - f1) * rnd (ene - e1)) / rnd (e2 - e1)))) := by
  simp [InterpolateSpectrum.rounded, InterpolateSpectrum.roundedLoop,
    InterpolateSpectrum.roundedBracket, hle, fdiv_of_ne _ hne]

/-- The `float` nearest to `0.1`, `13421773 / 2 ^ 27`, is a `double`. -/
theorem binary64_tenth :
    binary64 ((13421773 : ℚ) / 134217728) = ((13421773 : ℚ) / 134217728) := by
  have h : binary64
      (((13421773 : ℚ) / 134217728))
      = ((13421773 : ℚ) / 134217728) := by
    have hx : (0 : ℚ) <
        ((13421773 : ℚ) / 134217728) := by norm_num
    rw [binary64_eq
      (((13421773 : ℚ) / 134217728))
      (7205759511166976) (-56) ((1 : ℚ) / 2 ^ 56) (by norm_num)
      (by rw [abs_of_pos hx]; norm_num) (by rw [abs_of_pos hx]; norm_num)
      (Or.inl (by rw [abs_lt]; constructor <;> norm_num))]
    norm_num
  exact h

/-- The number 3 is a `double`. -/
theorem binary64_three :
    binary64 (3 : ℚ) = (3 : ℚ) := by
  have h : binary64
      ((3 : ℚ))
      = (3 : ℚ) := by
    have hx : (0 : ℚ) <
        (3 : ℚ) := by norm_num
    rw [binary64_eq
      ((3 : ℚ))
      (6755399441055744) (-51) ((1 : ℚ) / 2 ^ 51) (by norm_num)
      (by rw [abs_of_pos hx]; norm_num) (by rw [abs_of_pos hx]; norm_num)
      (Or.inl (by rw [abs_lt]; constructor <;> norm_num))]
    norm_num
  exact h

/-- The number 15 is a `double`. -/
theorem binary64_fifteen :
    binary64 (15 : ℚ) = (15 : ℚ) := by
  have h : binary64
      ((15 : ℚ))
      = (15 : ℚ) := by
    have hx : (0 : ℚ) <
        (15 : ℚ) := by norm_num
    rw [binary64_eq
      ((15 : ℚ))
      (8444249301319680) (-49) ((1 : ℚ) / 2 ^ 49) (by norm_num)
      (by rw [abs_of_pos hx]; norm_num) (by rw [abs_of_pos hx]; norm_num)
      (Or.inl (by rw [abs_lt]; constructor <;> norm_num))]
    norm_num
  exact h

/-- The table read from the rows `0.1 0.1` and `0.3 3`, whose `float`s are
`13421773 / 2 ^ 27`, `5033165 / 2 ^ 24` and `3`, evaluated in `double` arithmetic at its last
energy: the six roundings of the formula, one by one. -/
theorem InterpolateSpectrum.rounded_nodeTable :
    InterpolateSpectrum.rounded binary64 [((13421773 : ℚ) / 134217728), ((5033165 : ℚ) / 16777216)]
      [((13421773 : ℚ) / 134217728), (3 : ℚ)] ((5033165 : ℚ) / 16777216)
      = some ((6755399441055743 : ℚ) / 2251799813685248) := by
  have hd1 : binary64
      ((3 : ℚ) - ((13421773 : ℚ) / 134217728))
      = ((389231411 : ℚ) / 134217728) := by
    have hx : (0 : ℚ) <
        (3 : ℚ) - ((13421773 : ℚ) / 134217728) := by norm_num
    rw [binary64_eq
      ((3 : ℚ) - ((13421773 : ℚ) / 134217728))
      (6530219456331776) (-51) ((1 : ℚ) / 2 ^ 51) (by norm_num)
      (by rw [abs_of_pos hx]; norm_num) (by rw [abs_of_pos hx]; norm_num)
      (Or.inl (by rw [abs_lt]; constructor <;> norm_num))]
    norm_num
  have hd3 : binary64
      (((5033165 : ℚ) / 16777216) - ((13421773 : ℚ) / 134217728))
      = ((26843547 : ℚ) / 134217728) := by
    have hx : (0 : ℚ) <
        ((5033165 : ℚ) / 16777216) - ((13421773 : ℚ) / 134217728) := by norm_num
    rw [binary64_eq
      (((5033165 : ℚ) / 16777216) - ((13421773 : ℚ) / 134217728))
      (7205759779602432) (-55) ((1 : ℚ) / 2 ^ 55) (by norm_num)
      (by rw [abs_of_pos hx]; norm_num) (by rw [abs_of_pos hx]; norm_num)
      (Or.inl (by rw [abs_lt]; constructor <;> norm_num))]
    norm_num
  have hp : binary64
      (((389231411 : ℚ) / 134217728) * ((26843547 : ℚ) / 134217728))
      = ((326510989845463 : ℚ) / 562949953421312) := by
    have hx : (0 : ℚ) <
        ((389231411 : ℚ) / 134217728) * ((26843547 : ℚ) / 134217728) := by norm_num
    rw [binary64_eq
      (((389231411 : ℚ) / 134217728) * ((26843547 : ℚ) / 134217728))
      (5224175837527408) (-53) ((1 : ℚ) / 2 ^ 53) (by norm_num)
      (by rw [abs_of_pos hx]; norm_num) (by rw [abs_of_pos hx]; norm_num)
      (Or.inr ⟨by
        have hd : (0 : ℚ) <
            ((389231411 : ℚ) / 134217728) * ((26843547 : ℚ) / 134217728)
              - ((5224175837527408 : ℤ) : ℚ) * ((1 : ℚ) / 2 ^ 53) := by norm_num
        rw [abs_of_pos hd]
        norm_num, by norm_num⟩)]
    norm_num
  have hq : binary64
      (((326510989845463 : ℚ) / 562949953421312) / ((26843547 : ℚ) / 134217728))
      = ((6530219456331775 : ℚ) / 2251799813685248) := by
    have hx : (0 : ℚ) <
        ((326510989845463 : ℚ) / 562949953421312) / ((26843547 : ℚ) / 134217728) := by norm_num
    rw [binary64_eq
      (((326510989845463 : ℚ) / 562949953421312) / ((26843547 : ℚ) / 134217728))
      (6530219456331775) (-51) ((1 : ℚ) / 2 ^ 51) (by norm_num)
      (by rw [abs_of_pos hx]; norm_num) (by rw [abs_of_pos hx]; norm_num)
      (Or.inl (by rw [abs_lt]; constructor <;> norm_num))]
    norm_num
  have hr : binary64
      (((13421773 : ℚ) / 134217728) + ((6530219456331775 : ℚ) / 2251799813685248))
      = ((6755399441055743 : ℚ) / 2251799813685248) := by
    have hx : (0 : ℚ) <
        ((13421773 : ℚ) / 134217728) + ((6530219456331775 : ℚ) / 2251799813685248) := by norm_num
    rw [binary64_eq
      (((13421773 : ℚ) / 134217728) + ((6530219456331775 : ℚ) / 2251799813685248))
      (6755399441055743) (-51) ((1 : ℚ) / 2 ^ 51) (by norm_num)
      (by rw [abs_of_pos hx]; norm_num) (by rw [abs_of_pos hx]; norm_num)
      (Or.inl (by rw [abs_lt]; constructor <;> norm_num))]
    norm_num
  rw [InterpolateSpectrum.rounded_two_points binary64 ((13421773 : ℚ) / 134217728)
    ((5033165 : ℚ) / 16777216) ((13421773 : ℚ) / 134217728) (3 : ℚ)
    ((5033165 : ℚ) / 16777216) (by norm_num) (by rw [hd3]; norm_num)]
  rw [hd1, hd3, hp, hq, hr]

/-- The table read from the rows `2.5 15` and `12.1 0.1`, evaluated in `double` arithmetic at
the midpoint of its two energies, which is a `float`. -/
theorem InterpolateSpectrum.rounded_midpointTable :
    InterpolateSpectrum.rounded binary64 [((5 : ℚ) / 2), ((6343885 : ℚ) / 524288)]
      [(15 : ℚ), ((13421773 : ℚ) / 134217728)] ((7654605 : ℚ) / 1048576)
      = some ((8500544297500671 : ℚ) / 1125899906842624) := by
  have hd1 : binary64
      (((13421773 : ℚ) / 134217728) - (15 : ℚ))
      = (-((1999844147 : ℚ) / 134217728)) := by
    have hx :
        ((13421773 : ℚ) / 134217728) - (15 : ℚ) < (0 : ℚ) := by norm_num
    rw [binary64_eq
      (((13421773 : ℚ) / 134217728) - (15 : ℚ))
      (-8387954305138688) (-49) ((1 : ℚ) / 2 ^ 49) (by norm_num)
      (by rw [abs_of_neg hx]; norm_num) (by rw [abs_of_neg hx]; norm_num)
      (Or.inl (by rw [abs_lt]; constructor <;> norm_num))]
    norm_num
  have hd3 : binary64
      (((7654605 : ℚ) / 1048576) - ((5 : ℚ) / 2))
      = ((5033165 : ℚ) / 1048576) := by
    have hx : (0 : ℚ) <
        ((7654605 : ℚ) / 1048576) - ((5 : ℚ) / 2) := by norm_num
    rw [binary64_eq
      (((7654605 : ℚ) / 1048576) - ((5 : ℚ) / 2))
      (5404319767592960) (-50) ((1 : ℚ) / 2 ^ 50) (by norm_num)
      (by rw [abs_of_pos hx]; norm_num) (by rw [abs_of_pos hx]; norm_num)
      (Or.inl (by rw [abs_lt]; constructor <;> norm_num))]
    norm_num
  have hd2 : binary64
      (((6343885 : ℚ) / 524288) - ((5 : ℚ) / 2))
      = ((5033165 : ℚ) / 524288) := by
    have hx : (0 : ℚ) <
        ((6343885 : ℚ) / 524288) - ((5 : ℚ) / 2) := by norm_num
    rw [binary64_eq
      (((6343885 : ℚ) / 524288) - ((5 : ℚ) / 2))
      (5404319767592960) (-49) ((1 : ℚ) / 2 ^ 49) (by norm_num)
      (by rw [abs_of_pos hx]; norm_num) (by rw [abs_of_pos hx]; norm_num)
      (Or.inl (by rw [abs_lt]; constructor <;> norm_num))]
    norm_num
  have hp : binary64
      ((-((1999844147 : ℚ) / 134217728)) * ((5033165 : ℚ) / 1048576))
      = (-((1258193195766907 : ℚ) / 17592186044416)) := by
    have hx :
        (-((1999844147 : ℚ) / 134217728)) * ((5033165 : ℚ) / 1048576) < (0 : ℚ) := by norm_num
    rw [binary64_eq
      ((-((1999844147 : ℚ) / 134217728)) * ((5033165 : ℚ) / 1048576))
      (-5032772783067628) (-46) ((1 : ℚ) / 2 ^ 46) (by norm_num)
      (by rw [abs_of_neg hx]; norm_num) (by rw [abs_of_neg hx]; norm_num)
      (Or.inr ⟨by
        have hd : (0 : ℚ) <
            (-((1999844147 : ℚ) / 134217728)) * ((5033165 : ℚ) / 1048576)
              - ((-5032772783067628 : ℤ) : ℚ) * ((1 : ℚ) / 2 ^ 46) := by norm_num
        rw [abs_of_pos hd]
        norm_num, by norm_num⟩)]
    norm_num
  have hq : binary64
      ((-((1258193195766907 : ℚ) / 17592186044416)) / ((5033165 : ℚ) / 524288))
      = (-((8387954305138689 : ℚ) / 1125899906842624)) := by
    have hx :
        (-((1258193195766907 : ℚ) / 17592186044416)) / ((5033165 : ℚ) / 524288) < (0 : ℚ) := by norm_num
    rw [binary64_eq
      ((-((1258193195766907 : ℚ) / 17592186044416)) / ((5033165 : ℚ) / 524288))
      (-8387954305138689) (-50) ((1 : ℚ) / 2 ^ 50) (by norm_num)
      (by rw [abs_of_neg hx]; norm_num) (by rw [abs_of_neg hx]; norm_num)
      (Or.inl (by rw [abs_lt]; constructor <;> norm_num))]
    norm_num
  have hr : binary64
      ((15 : ℚ) + (-((8387954305138689 : ℚ) / 1125899906842624)))
      = ((8500544297500671 : ℚ) / 1125899906842624) := by
    have hx : (0 : ℚ) <
        (15 : ℚ) + (-((8387954305138689 : ℚ) / 1125899906842624)) := by norm_num
    rw [binary64_eq
      ((15 : ℚ) + (-((8387954305138689 : ℚ) / 1125899906842624)))
      (8500544297500671) (-50) ((1 : ℚ) / 2 ^ 50) (by norm_num)
      (by rw [abs_of_pos hx]; norm_num) (by rw [abs_of_pos hx]; norm_num)
      (Or.inl (by rw [abs_lt]; constructor <;> norm_num))]
    norm_num
  rw [InterpolateSpectrum.rounded_two_points binary64 ((5 : ℚ) / 2)
    ((6343885 : ℚ) / 524288) (15 : ℚ) ((13421773 : ℚ) / 134217728)
    ((7654605 : ℚ) / 1048576) (by norm_num) (by rw [hd2]; norm_num)]
  rw [hd1, hd3, hd2, hp, hq, hr]

/-- The table read from the rows `0.1 0.1` and `1.5 3`, evaluated in `double` arithmetic at its
last energy. -/
theorem InterpolateSpectrum.rounded_aboveTable :
    InterpolateSpectrum.rounded binary64 [((13421773 : ℚ) / 134217728), ((3 : ℚ) / 2)]
      [((13421773 : ℚ) / 134217728), (3 : ℚ)] ((3 : ℚ) / 2)
      = some ((6755399441055745 : ℚ) / 2251799813685248) := by
  have hd1 : binary64
      ((3 : ℚ) - ((13421773 : ℚ) / 134217728))
      = ((389231411 : ℚ) / 134217728) := by
    have hx : (0 : ℚ) <
        (3 : ℚ) - ((13421773 : ℚ) / 134217728) := by norm_num
    rw [binary64_eq
      ((3 : ℚ) - ((13421773 : ℚ) / 134217728))
      (6530219456331776) (-51) ((1 : ℚ) / 2 ^ 51) (by norm_num)
      (by rw [abs_of_pos hx]; norm_num) (by rw [abs_of_pos hx]; norm_num)
      (Or.inl (by rw [abs_lt]; constructor <;> norm_num))]
    norm_num
  have hd3 : binary64
      (((3 : ℚ) / 2) - ((13421773 : ℚ) / 134217728))
      = ((187904819 : ℚ) / 134217728) := by
    have hx : (0 : ℚ) <
        ((3 : ℚ) / 2) - ((13421773 : ℚ) / 134217728) := by norm_num
    rw [binary64_eq
      (((3 : ℚ) / 2) - ((13421773 : ℚ) / 134217728))
      (6305039471607808) (-52) ((1 : ℚ) / 2 ^ 52) (by norm_num)
      (by rw [abs_of_pos hx]; norm_num) (by rw [abs_of_pos hx]; norm_num)
      (Or.inl (by rw [abs_lt]; constructor <;> norm_num))]
    norm_num
  have hp : binary64
      (((389231411 : ℚ) / 134217728) * ((187904819 : ℚ) / 134217728))
      = ((4571153614566851 : ℚ) / 1125899906842624) := by
    have hx : (0 : ℚ) <
        ((389231411 : ℚ) / 134217728) * ((187904819 : ℚ) / 134217728) := by norm_num
    rw [binary64_eq
      (((389231411 : ℚ) / 134217728) * ((187904819 : ℚ) / 134217728))
      (4571153614566851) (-50) ((1 : ℚ) / 2 ^ 50) (by norm_num)
      (by rw [abs_of_pos hx]; norm_num) (by rw [abs_of_pos hx]; norm_num)
      (Or.inl (by rw [abs_lt]; constructor <;> norm_num))]
    norm_num
  have hq : binary64
      (((4571153614566851 : ℚ) / 1125899906842624) / ((187904819 : ℚ) / 134217728))
      = ((6530219456331777 : ℚ) / 2251799813685248) := by
    have hx : (0 : ℚ) <
        ((4571153614566851 : ℚ) / 1125899906842624) / ((187904819 : ℚ) / 134217728) := by norm_num
    rw [binary64_eq
      (((4571153614566851 : ℚ) / 1125899906842624) / ((187904819 : ℚ) / 134217728))
      (6530219456331777) (-51) ((1 : ℚ) / 2 ^ 51) (by norm_num)
      (by rw [abs_of_pos hx]; norm_num) (by rw [abs_of_pos hx]; norm_num)
      (Or.inl (by rw [abs_lt]; constructor <;> norm_num))]
    norm_num
  have hr : binary64
      (((13421773 : ℚ) / 134217728) + ((6530219456331777 : ℚ) / 2251799813685248))
      = ((6755399441055745 : ℚ) / 2251799813685248) := by
    have hx : (0 : ℚ) <
        ((13421773 : ℚ) / 134217728) + ((6530219456331777 : ℚ) / 2251799813685248) := by norm_num
    rw [binary64_eq
      (((13421773 : ℚ) / 134217728) + ((6530219456331777 : ℚ) / 2251799813685248))
      (6755399441055745) (-51) ((1 : ℚ) / 2 ^ 51) (by norm_num)
      (by rw [abs_of_pos hx]; norm_num) (by rw [abs_of_pos hx]; norm_num)
      (Or.inl (by rw [abs_lt]; constructor <;> norm_num))]
    norm_num
  rw [InterpolateSpectrum.rounded_two_points binary64 ((13421773 : ℚ) / 134217728)
    ((3 : ℚ) / 2) ((13421773 : ℚ) / 134217728) (3 : ℚ)
    ((3 : ℚ) / 2) (by norm_num) (by rw [hd3]; norm_num)]
  rw [hd1, hd3, hp, hq, hr]

/-- The table read from the rows `0.1 0.1` and `5.2 0`, evaluated in `double` arithmetic at its
last energy. -/
theorem InterpolateSpectrum.rounded_belowTable :
    InterpolateSpectrum.rounded binary64 [((13421773 : ℚ) / 134217728), ((5452595 : ℚ) / 1048576)]
      [((13421773 : ℚ) / 134217728), (0 : ℚ)] ((5452595 : ℚ) / 1048576)
      = some (-((1 : ℚ) / 72057594037927936)) := by
  have hd1 : binary64
      ((0 : ℚ) - ((13421773 : ℚ) / 134217728))
      = (-((13421773 : ℚ) / 134217728)) := by
    have hx :
        (0 : ℚ) - ((13421773 : ℚ) / 134217728) < (0 : ℚ) := by norm_num
    rw [binary64_eq
      ((0 : ℚ) - ((13421773 : ℚ) / 134217728))
      (-7205759511166976) (-56) ((1 : ℚ) / 2 ^ 56) (by norm_num)
      (by rw [abs_of_neg hx]; norm_num) (by rw [abs_of_neg hx]; norm_num)
      (Or.inl (by rw [abs_lt]; constructor <;> norm_num))]
    norm_num
  have hd3 : binary64
      (((5452595 : ℚ) / 1048576) - ((13421773 : ℚ) / 134217728))
      = ((684510387 : ℚ) / 134217728) := by
    have hx : (0 : ℚ) <
        ((5452595 : ℚ) / 1048576) - ((13421773 : ℚ) / 134217728) := by norm_num
    rw [binary64_eq
      (((5452595 : ℚ) / 1048576) - ((13421773 : ℚ) / 134217728))
      (5742089308471296) (-50) ((1 : ℚ) / 2 ^ 50) (by norm_num)
      (by rw [abs_of_pos hx]; norm_num) (by rw [abs_of_pos hx]; norm_num)
      (Or.inl (by rw [abs_lt]; constructor <;> norm_num))]
    norm_num
  have hp : binary64
      ((-((13421773 : ℚ) / 134217728)) * ((684510387 : ℚ) / 134217728))
      = (-((1148417878807019 : ℚ) / 2251799813685248)) := by
    have hx :
        (-((13421773 : ℚ) / 134217728)) * ((684510387 : ℚ) / 134217728) < (0 : ℚ) := by norm_num
    rw [binary64_eq
      ((-((13421773 : ℚ) / 134217728)) * ((684510387 : ℚ) / 134217728))
      (-4593671515228076) (-53) ((1 : ℚ) / 2 ^ 53) (by norm_num)
      (by rw [abs_of_neg hx]; norm_num) (by rw [abs_of_neg hx]; norm_num)
      (Or.inr ⟨by
        have hd : (0 : ℚ) <
            (-((13421773 : ℚ) / 134217728)) * ((684510387 : ℚ) / 134217728)
              - ((-4593671515228076 : ℤ) : ℚ) * ((1 : ℚ) / 2 ^ 53) := by norm_num
        rw [abs_of_pos hd]
        norm_num, by norm_num⟩)]
    norm_num
  have hq : binary64
      ((-((1148417878807019 : ℚ) / 2251799813685248)) / ((684510387 : ℚ) / 134217728))
      = (-((7205759511166977 : ℚ) / 72057594037927936)) := by
    have hx :
        (-((1148417878807019 : ℚ) / 2251799813685248)) / ((684510387 : ℚ) / 134217728) < (0 : ℚ) := by norm_num
    rw [binary64_eq
      ((-((1148417878807019 : ℚ) / 2251799813685248)) / ((684510387 : ℚ) / 134217728))
      (-7205759511166977) (-56) ((1 : ℚ) / 2 ^ 56) (by norm_num)
      (by rw [abs_of_neg hx]; norm_num) (by rw [abs_of_neg hx]; norm_num)
      (Or.inl (by rw [abs_lt]; constructor <;> norm_num))]
    norm_num
  have hr : binary64
      (((13421773 : ℚ) / 134217728) + (-((7205759511166977 : ℚ) / 72057594037927936)))
      = (-((1 : ℚ) / 72057594037927936)) := by
    have hx :
        ((13421773 : ℚ) / 134217728) + (-((7205759511166977 : ℚ) / 72057594037927936)) < (0 : ℚ) := by norm_num
    rw [binary64_eq
      (((13421773 : ℚ) / 134217728) + (-((7205759511166977 : ℚ) / 72057594037927936)))
      (-4503599627370496) (-108) ((1 : ℚ) / 2 ^ 108) (by norm_num)
      (by rw [abs_of_neg hx]; norm_num) (by rw [abs_of_neg hx]; norm_num)
      (Or.inl (by rw [abs_lt]; constructor <;> norm_num))]
    norm_num
  rw [InterpolateSpectrum.rounded_two_points binary64 ((13421773 : ℚ) / 134217728)
    ((5452595 : ℚ) / 1048576) ((13421773 : ℚ) / 134217728) (0 : ℚ)
    ((5452595 : ℚ) / 1048576) (by norm_num) (by rw [hd3]; norm_num)]
  rw [hd1, hd3, hp, hq, hr]

/-! ## C1: interpolation at the nodes -/

/-- C1, as stated, fails in `double` arithmetic: the table read from the rows `0.1 0.1` and
`0.3 3` has two points and strictly increasing energies, and the interpolation evaluated at
the energy of its last node returns `6755399441055743 / 2 ^ 51 = 2.9999999999999996`, not the
flux 3 of that node. -/
theorem InterpolateSpectrum_at_node_counterexample :
    (2 ≤ [((13421773 : ℚ) / 134217728), ((5033165 : ℚ) / 16777216)].length ∧
      StrictlyIncreasing [((13421773 : ℚ) / 134217728), ((5033165 : ℚ) / 16777216)]) ∧
    InterpolateSpectrum.rounded binary64 [((13421773 : ℚ) / 134217728), ((5033165 : ℚ) / 16777216)]
      [((13421773 : ℚ) / 134217728), (3 : ℚ)] ((5033165 : ℚ) / 16777216)
      = some ((6755399441055743 : ℚ) / 2251799813685248) ∧
    ¬ InterpolateSpectrum.rounded binary64 [((13421773 : ℚ) / 134217728), ((5033165 : ℚ) / 16777216)]
      [((13421773 : ℚ) / 134217728), (3 : ℚ)] ((5033165 : ℚ) / 16777216) = some (3 : ℚ) := by
  refine ⟨⟨by decide, by norm_num [StrictlyIncreasing]⟩,
    InterpolateSpectrum.rounded_nodeTable, ?_⟩
  rw [InterpolateSpectrum.rounded_nodeTable]
  norm_num

/-- C1, amended: on a table of at least two points with strictly increasing energies whose
fluxes are numbers of the arithmetic (`rnd f = f`, as every `float` is a `double`), the
interpolation in rounded arithmetic of unit roundoff `u ≤ 1/16` evaluated at the energy of
node `i` returns the flux of the first node exactly for `i = 0`, and for every `i` a number
within `u |f_i| + 7 u |f_i - f_(i-1)|` of the flux `f_i` of that node; the distance is zero
in exact arithmetic, `u = 0`. -/
theorem InterpolateSpectrum_at_node_rounded (rnd : K → K) (u : K) (hr : Rounding rnd u)
    (hu : u ≤ 1 / 16) (ener_vec flux_vec : List K)
    (hlen : flux_vec.length = ener_vec.length) (h2 : 2 ≤ ener_vec.length)
    (hs : StrictlyIncreasing ener_vec) (hrep : ∀ f ∈ flux_vec, rnd f = f)
    (i : Nat) (hi : i < ener_vec.length) :
    ∃ r, InterpolateSpectrum.rounded rnd ener_vec flux_vec ener_vec[i] = some r ∧
      (i = 0 → r = flux_vec[0]) ∧
      |r - flux_vec[i]| ≤ u * |flux_vec[i]| + 7 * u * |flux_vec[i] - flux_vec[i - 1]| := by
  have hu0 := hr.nonneg
  rcases Nat.eq_zero_or_pos i with h0 | hpos
  · subst h0
    obtain ⟨r, hr1, _, hr3, _⟩ := InterpolateSpectrum.rounded_of_bracket hr hu ener_vec
      flux_vec ener_vec[0] 1 hlen hs le_rfl (by omega)
      (le_of_lt (hs.lt_of_lt Nat.zero_lt_one (by omega))) (fun k _ h1 hk => by omega)
    have hr0 : r = flux_vec[0] := by
      rw [hr3]
      simp only [Nat.sub_self, sub_self, hr.zero, mul_zero, zero_div, add_zero]
      exact hrep _ (List.getElem_mem _)
    refine ⟨r, hr1, fun _ => hr0, ?_⟩
    rw [hr0]
    simp only [Nat.sub_self, sub_self, abs_zero, mul_zero, add_zero]
    exact mul_nonneg hu0 (abs_nonneg _)
  · have hne : ener_vec[i] - ener_vec[i - 1] ≠ 0 :=
      sub_ne_zero.mpr (ne_of_gt (hs.lt_of_lt (by omega) hi))
    obtain ⟨r, hr1, _, _, hr4⟩ := InterpolateSpectrum.rounded_of_bracket hr hu ener_vec
      flux_vec ener_vec[i] i hlen hs hpos hi le_rfl (fun k _ _ hk => hs.lt_of_lt hk hi)
    refine ⟨r, hr1, fun h => absurd h (by omega), ?_⟩
    rw [mul_div_assoc, div_self hne, mul_one] at hr4
    have hL : flux_vec[i - 1] + (flux_vec[i] - flux_vec[i - 1]) = flux_vec[i] := by ring
    rw [hL] at hr4
    exact hr4

/-- C1 amended, in `double` arithmetic on the table read from the rows `0.1 0.1` and `0.3 3`
at its last node, where the value returned is not the flux 3. -/
theorem InterpolateSpectrum_at_node_rounded_witness :
    ∃ r : ℚ, InterpolateSpectrum.rounded binary64 [((13421773 : ℚ) / 134217728), ((5033165 : ℚ) / 16777216)]
        [((13421773 : ℚ) / 134217728), (3 : ℚ)] ((5033165 : ℚ) / 16777216) = some r ∧
      (1 = 0 → r = ((13421773 : ℚ) / 134217728)) ∧
      |r - (3 : ℚ)| ≤ 1 / 2 ^ 53 * |(3 : ℚ)|
        + 7 * (1 / 2 ^ 53) * |(3 : ℚ) - ((13421773 : ℚ) / 134217728)| :=
  InterpolateSpectrum_at_node_rounded binary64 (1 / 2 ^ 53) binary64_rounding (by norm_num)
    [((13421773 : ℚ) / 134217728), ((5033165 : ℚ) / 16777216)]
    [((13421773 : ℚ) / 134217728), (3 : ℚ)] rfl (by decide)
    (by norm_num [StrictlyIncreasing])
    (by
      intro f hf
      simp only [List.mem_cons, List.mem_singleton, List.not_mem_nil, or_false] at hf
      rcases hf with rfl | rfl
      · exact binary64_tenth
      · exact binary64_three)
    1 (by decide)

/-! ## C2: interpolation at the midpoints -/

/-- C2, as stated, fails in `double` arithmetic: the table read from the rows `2.5 15` and
`12.1 0.1` has two points and strictly increasing energies, the midpoint of its two energies
is the `float` `7654605 / 2 ^ 20`, and the interpolation evaluated there returns
`7.550000000745057`, not the mean `7.550000000745058` of the two fluxes. -/
theorem InterpolateSpectrum_at_midpoint_counterexample :
    (2 ≤ [((5 : ℚ) / 2), ((6343885 : ℚ) / 524288)].length ∧
      StrictlyIncreasing [((5 : ℚ) / 2), ((6343885 : ℚ) / 524288)] ∧
      (((5 : ℚ) / 2) + ((6343885 : ℚ) / 524288)) / 2 = ((7654605 : ℚ) / 1048576)) ∧
    InterpolateSpectrum.rounded binary64 [((5 : ℚ) / 2), ((6343885 : ℚ) / 524288)]
      [(15 : ℚ), ((13421773 : ℚ) / 134217728)] ((7654605 : ℚ) / 1048576)
      = some ((8500544297500671 : ℚ) / 1125899906842624) ∧
    ¬ InterpolateSpectrum.rounded binary64 [((5 : ℚ) / 2), ((6343885 : ℚ) / 524288)]
      [(15 : ℚ), ((13421773 : ℚ) / 134217728)] ((7654605 : ℚ) / 1048576)
      = some (((15 : ℚ) + ((13421773 : ℚ) / 134217728)) / 2) := by
  refine ⟨⟨by decide, by norm_num [StrictlyIncreasing], by norm_num⟩,
    InterpolateSpectrum.rounded_midpointTable, ?_⟩
  rw [InterpolateSpectrum.rounded_midpointTable]
  norm_num

/-- C2, amended: on a table of at least two points with strictly increasing energies, the
interpolation in rounded arithmetic of unit roundoff `u ≤ 1/16` evaluated at the midpoint of
two adjacent nodes `i` and `i + 1` returns a number within
`u |(f1 + f2) / 2| + 7 u |(f2 - f1) / 2|` of the mean `(f1 + f2) / 2` of their two fluxes;
the distance is zero in exact arithmetic, `u = 0`. -/
theorem InterpolateSpectrum_at_midpoint_rounded (rnd : K → K) (u : K) (hr : Rounding rnd u)
    (hu : u ≤ 1 / 16) (ener_vec flux_vec : List K)
    (hlen : flux_vec.length = ener_vec.length)
    (hs : StrictlyIncreasing ener_vec) (i : Nat) (hi : i + 1 < ener_vec.length) :
    ∃ r, InterpolateSpectrum.rounded rnd ener_vec flux_vec
          ((ener_vec[i] + ener_vec[i + 1]) / 2) = some r ∧
      |r - (flux_vec[i] + flux_vec[i + 1]) / 2|
        ≤ u * |(flux_vec[i] + flux_vec[i + 1]) / 2|
          + 7 * u * |(flux_vec[i + 1] - flux_vec[i]) / 2| := by
  have hlt : ener_vec[i] < ener_vec[i + 1] := hs.lt_of_lt (Nat.lt_succ_self i) hi
  have hne : ener_vec[i + 1] - ener_vec[i] ≠ 0 := sub_ne_zero.mpr (ne_of_gt hlt)
  obtain ⟨r, hr1, _, _, hr4⟩ := InterpolateSpectrum.rounded_of_bracket hr hu ener_vec
    flux_vec ((ener_vec[i] + ener_vec[i + 1]) / 2) (i + 1) hlen hs (by omega) hi
    (by linarith)
    (fun k hk _ hki => by
      have hk_le : ener_vec[k] ≤ ener_vec[i] :=
        hs.increasing.le_of_le (Nat.lt_succ_iff.mp hki) (by omega)
      linarith)
  refine ⟨r, hr1, ?_⟩
  simp only [Nat.add_sub_cancel] at hr4
  have hQ : (flux_vec[i + 1] - flux_vec[i]) * ((ener_vec[i] + ener_vec[i + 1]) / 2 - ener_vec[i])
      / (ener_vec[i + 1] - ener_vec[i]) = (flux_vec[i + 1] - flux_vec[i]) / 2 := by
    field_simp
    ring
  rw [hQ] at hr4
  have hL : flux_vec[i] + (flux_vec[i + 1] - flux_vec[i]) / 2
      = (flux_vec[i] + flux_vec[i + 1]) / 2 := by ring
  rw [hL] at hr4
  exact hr4

/-- C2 amended, in `double` arithmetic on the table read from the rows `2.5 15` and
`12.1 0.1` at the midpoint of its two energies, where the value returned is not the mean. -/
theorem InterpolateSpectrum_at_midpoint_rounded_witness :
    ∃ r : ℚ, InterpolateSpectrum.rounded binary64 [((5 : ℚ) / 2), ((6343885 : ℚ) / 524288)]
        [(15 : ℚ), ((13421773 : ℚ) / 134217728)]
        ((((5 : ℚ) / 2) + ((6343885 : ℚ) / 524288)) / 2) = some r ∧
      |r - ((15 : ℚ) + ((13421773 : ℚ) / 134217728)) / 2|
        ≤ 1 / 2 ^ 53 * |((15 : ℚ) + ((13421773 : ℚ) / 134217728)) / 2|
          + 7 * (1 / 2 ^ 53) * |(((13421773 : ℚ) / 134217728) - (15 : ℚ)) / 2| :=
  InterpolateSpectrum_at_midpoint_rounded binary64 (1 / 2 ^ 53) binary64_rounding
    (by norm_num) [((5 : ℚ) / 2), ((6343885 : ℚ) / 524288)]
    [(15 : ℚ), ((13421773 : ℚ) / 134217728)] rfl (by norm_num [StrictlyIncreasing]) 0 (by decide)

/-! ## C19: interpolation inside the table -/

/-- C19, as stated, fails in `double` arithmetic, at both ends.  The tables read from the
rows `0.1 0.1`, `1.5 3` and `0.1 0.1`, `5.2 0` have two points, strictly increasing energies
and non-negative fluxes; evaluated at its last energy, the first returns
`6755399441055745 / 2 ^ 51 = 3.0000000000000004`, above both of its fluxes, and the second
returns `-1 / 2 ^ 56`, a negative number. -/
theorem InterpolateSpectrum_between_counterexample :
    ((2 ≤ [((13421773 : ℚ) / 134217728), ((3 : ℚ) / 2)].length ∧
        StrictlyIncreasing [((13421773 : ℚ) / 134217728), ((3 : ℚ) / 2)] ∧
        (∀ f ∈ [((13421773 : ℚ) / 134217728), (3 : ℚ)], 0 ≤ f) ∧
        ((13421773 : ℚ) / 134217728) ≤ ((3 : ℚ) / 2) ∧ ((3 : ℚ) / 2) ≤ ((3 : ℚ) / 2)) ∧
      ∃ v, InterpolateSpectrum.rounded binary64 [((13421773 : ℚ) / 134217728), ((3 : ℚ) / 2)]
          [((13421773 : ℚ) / 134217728), (3 : ℚ)] ((3 : ℚ) / 2) = some v ∧
        ∀ f ∈ [((13421773 : ℚ) / 134217728), (3 : ℚ)], f < v) ∧
    ((2 ≤ [((13421773 : ℚ) / 134217728), ((5452595 : ℚ) / 1048576)].length ∧
        StrictlyIncreasing [((13421773 : ℚ) / 134217728), ((5452595 : ℚ) / 1048576)] ∧
        (∀ f ∈ [((13421773 : ℚ) / 134217728), (0 : ℚ)], 0 ≤ f) ∧
        ((13421773 : ℚ) / 134217728) ≤ ((5452595 : ℚ) / 1048576) ∧
        ((5452595 : ℚ) / 1048576) ≤ ((5452595 : ℚ) / 1048576)) ∧
      ∃ v, InterpolateSpectrum.rounded binary64 [((13421773 : ℚ) / 134217728), ((5452595 : ℚ) / 1048576)]
          [((13421773 : ℚ) / 134217728), (0 : ℚ)] ((5452595 : ℚ) / 1048576) = some v ∧
        v < 0) := by
  refine ⟨⟨⟨by decide, by norm_num [StrictlyIncreasing], by norm_num, by norm_num,
    by norm_num⟩, _, InterpolateSpectrum.rounded_aboveTable, by norm_num⟩,
    ⟨⟨by decide, by norm_num [StrictlyIncreasing], by norm_num, by norm_num, by norm_num⟩,
      _, InterpolateSpectrum.rounded_belowTable, by norm_num⟩⟩

/-- C19, amended: on a table of at least two points with strictly increasing energies and
non-negative fluxes, a query between the first and the last energy is interpolated in rounded
arithmetic of unit roundoff `u ≤ 1/16` to a number that lies between the two fluxes `f1`,
`f2` of the bracket the scan selects up to `u max(f1, f2) + 7 u |f2 - f1|`, hence a number
not below `-8 u M` and not above `(1 + 8 u) M` for any bound `M` of the fluxes of the table,
their maximum included; with `u = 0` these are the bounds of exact arithmetic. -/
theorem InterpolateSpectrum_between_rounded (rnd : K → K) (u : K) (hr : Rounding rnd u)
    (hu : u ≤ 1 / 16) (ener_vec flux_vec : List K)
    (hlen : flux_vec.length = ener_vec.length) (h2 : 2 ≤ ener_vec.length)
    (hs : StrictlyIncreasing ener_vec) (hpos : ∀ f ∈ flux_vec, 0 ≤ f) (ene : K)
    (hlo : ener_vec[0] ≤ ene) (hhi : ene ≤ ener_vec[ener_vec.length - 1]) :
    ∃ (j : Nat) (f1 f2 v : K), 1 ≤ j ∧ flux_vec[j - 1]? = some f1 ∧ flux_vec[j]? = some f2 ∧
      InterpolateSpectrum.rounded rnd ener_vec flux_vec ene = some v ∧
      InterpolateSpectrum.roundedBracket rnd ener_vec flux_vec ene j = some v ∧
      (min f1 f2 - (u * max f1 f2 + 7 * u * |f2 - f1|) ≤ v ∧
        v ≤ max f1 f2 + (u * max f1 f2 + 7 * u * |f2 - f1|)) ∧
      ∀ M, (∀ f ∈ flux_vec, f ≤ M) → -(8 * u * M) ≤ v ∧ v ≤ (1 + 8 * u) * M := by
  have hu0 := hr.nonneg
  obtain ⟨j, hj1, hjl, hae, heb, hloop⟩ :=
    InterpolateSpectrum.roundedLoop_finds rnd ener_vec flux_vec ene h2 (fun _ => hhi)
      (ener_vec.length - 1) 1 le_rfl (by omega) (fun _ => hlo) (fun h => absurd h (lt_irrefl 1))
  have hlt : ener_vec[j - 1] < ener_vec[j] := hs.lt_of_lt (by omega) hjl
  have hd : 0 < ener_vec[j] - ener_vec[j - 1] := sub_pos.mpr hlt
  obtain ⟨hrne, herr⟩ := InterpolateSpectrum.rounded_line_error hr hu ener_vec[j - 1]
    ener_vec[j] flux_vec[j - 1] flux_vec[j] ene (ne_of_gt hd)
  have hbr := InterpolateSpectrum.roundedBracket_eq rnd ener_vec flux_vec ene j hjl (by omega)
    hrne
  have ht0 : 0 ≤ (ene - ener_vec[j - 1]) / (ener_vec[j] - ener_vec[j - 1]) :=
    div_nonneg (sub_nonneg.mpr hae) (le_of_lt hd)
  have ht1 : (ene - ener_vec[j - 1]) / (ener_vec[j] - ener_vec[j - 1]) ≤ 1 := by
    rw [div_le_one hd]
    linarith
  have hm1 : flux_vec[j - 1] ∈ flux_vec := List.getElem_mem _
  have hm2 : flux_vec[j] ∈ flux_vec := List.getElem_mem _
  have hf1 := hpos _ hm1
  have hf2 := hpos _ hm2
  have hq1 : flux_vec[j - 1]? = some flux_vec[j - 1] := List.getElem?_eq_getElem (by omega)
  have hq2 : flux_vec[j]? = some flux_vec[j] := List.getElem?_eq_getElem (by omega)
  rw [mul_div_assoc] at herr
  generalize (ene - ener_vec[j - 1]) / (ener_vec[j] - ener_vec[j - 1]) = t at ht0 ht1 herr
  generalize rnd (flux_vec[j - 1] + rnd (rnd (rnd (flux_vec[j] - flux_vec[j - 1])
    * rnd (ene - ener_vec[j - 1])) / rnd (ener_vec[j] - ener_vec[j - 1]))) = v at hbr herr
  generalize flux_vec[j - 1] = f1 at hm1 hf1 hq1 herr
  generalize flux_vec[j] = f2 at hm2 hf2 hq2 herr
  obtain ⟨hsl, hsu⟩ := @segment_between K _ f1 f2 t ht0 ht1
  have hminnn : 0 ≤ min f1 f2 := le_min hf1 hf2
  have hLabs : |f1 + (f2 - f1) * t| ≤ max f1 f2 := by
    rw [abs_of_nonneg (le_trans hminnn hsl)]
    exact hsu
  have hQabs : |(f2 - f1) * t| ≤ |f2 - f1| := by
    rw [abs_mul, abs_of_nonneg ht0]
    exact mul_le_of_le_one_right (abs_nonneg _) ht1
  have hdist : |v - (f1 + (f2 - f1) * t)| ≤ u * max f1 f2 + 7 * u * |f2 - f1| := by
    have a1 : u * |f1 + (f2 - f1) * t| ≤ u * max f1 f2 := mul_le_mul_of_nonneg_left hLabs hu0
    have a2 : 7 * u * |(f2 - f1) * t| ≤ 7 * u * |f2 - f1| :=
      mul_le_mul_of_nonneg_left hQabs (by linarith)
    linarith
  have hv := abs_le.mp hdist
  have hmaxnn : 0 ≤ max f1 f2 := le_trans hf1 (le_max_left _ _)
  have hdiff : |f2 - f1| ≤ max f1 f2 := by
    rw [abs_le]
    constructor
    · have := le_max_left f1 f2
      linarith
    · have := le_max_right f1 f2
      linarith
  refine ⟨j, f1, f2, v, hj1, ?_, ?_, ?_, hbr, ⟨by linarith [hv.1], by linarith [hv.2]⟩, ?_⟩
  · exact hq1
  · exact hq2
  · rw [InterpolateSpectrum.rounded, hloop, hbr]
  · intro M hM
    have hMmax : max f1 f2 ≤ M := max_le (hM f1 hm1) (hM f2 hm2)
    have h7 : 7 * u * |f2 - f1| ≤ 7 * u * max f1 f2 :=
      mul_le_mul_of_nonneg_left hdiff (by linarith)
    have huM : u * max f1 f2 ≤ u * M := mul_le_mul_of_nonneg_left hMmax hu0
    constructor
    · linarith [hv.1]
    · linarith [hv.2]

/-- C19 amended, in `double` arithmetic on the table read from the rows `0.1 0.1` and
`1.5 3` at its last energy, where the value returned is above both fluxes. -/
theorem InterpolateSpectrum_between_rounded_witness :
    ∃ (j : Nat) (f1 f2 v : ℚ), 1 ≤ j ∧
      [((13421773 : ℚ) / 134217728), (3 : ℚ)][j - 1]? = some f1 ∧
      [((13421773 : ℚ) / 134217728), (3 : ℚ)][j]? = some f2 ∧
      InterpolateSpectrum.rounded binary64 [((13421773 : ℚ) / 134217728), ((3 : ℚ) / 2)]
        [((13421773 : ℚ) / 134217728), (3 : ℚ)] ((3 : ℚ) / 2) = some v ∧
      InterpolateSpectrum.roundedBracket binary64 [((13421773 : ℚ) / 134217728), ((3 : ℚ) / 2)]
        [((13421773 : ℚ) / 134217728), (3 : ℚ)] ((3 : ℚ) / 2) j = some v ∧
      (min f1 f2 - (1 / 2 ^ 53 * max f1 f2 + 7 * (1 / 2 ^ 53) * |f2 - f1|) ≤ v ∧
        v ≤ max f1 f2 + (1 / 2 ^ 53 * max f1 f2 + 7 * (1 / 2 ^ 53) * |f2 - f1|)) ∧
      ∀ M, (∀ f ∈ [((13421773 : ℚ) / 134217728), (3 : ℚ)], f ≤ M) →
        -(8 * (1 / 2 ^ 53) * M) ≤ v ∧ v ≤ (1 + 8 * (1 / 2 ^ 53)) * M :=
  InterpolateSpectrum_between_rounded binary64 (1 / 2 ^ 53) binary64_rounding (by norm_num)
    [((13421773 : ℚ) / 134217728), ((3 : ℚ) / 2)]
    [((13421773 : ℚ) / 134217728), (3 : ℚ)] rfl (by decide)
    (by norm_num [StrictlyIncreasing]) (by norm_num) ((3 : ℚ) / 2) (by norm_num)
    (by norm_num)

/-! ## C13: what `ReadSpectrum` sets -/

/-- `ReadSpectrum` on a fresh generator and a non-empty list of rows: the table is the rows,
`e_min` and `e_max` are the first and the last energy, and `flux_max` is left as it was. -/
theorem ReadSpectrum_fresh (x : K) (geo : Nat → K) (row : K × K) (rows : List (K × K)) :
    ReadSpectrum (freshGenerator x geo) (row :: rows)
      = some { energy := (row :: rows).map Prod.fst,
               flux := (row :: rows).map Prod.snd,
               e_min := row.1,
               e_max := ((row :: rows).map Prod.fst).getLast (by simp),
               flux_max := x,
               GetGeo_Dm := geo } := by
  simp [ReadSpectrum, freshGenerator, List.getLast?_eq_getLast]

/-- C13 at the table `[(1.8, 0.0), (10.0, 1.0)]`: after `ReadSpectrum` on a fresh generator
whose `flux_max` holds `x`, the energies, the fluxes, `e_min = 1.8` and `e_max = 10.0` are
loaded, but `flux_max` is still `x`, whatever `x` is; for `x = 0` it is not the maximum flux
`1.0`. -/
theorem ReadSpectrum_leaves_flux_max :
    (∀ x : ℚ, ∃ g, ReadSpectrum (freshGenerator x (fun _ => 1)) [(1.8, 0.0), (10.0, 1.0)]
          = some g ∧
        g.energy = [1.8, 10.0] ∧ g.flux = [0.0, 1.0] ∧ g.e_min = 1.8 ∧ g.e_max = 10.0 ∧
        g.flux_max = x) ∧
      ∃ g, ReadSpectrum (freshGenerator (0 : ℚ) (fun _ => 1)) [(1.8, 0.0), (10.0, 1.0)]
          = some g ∧
        g.flux_max ≠ 1.0 ∧ (1.0 : ℚ) ∈ g.flux ∧ ∀ f ∈ g.flux, f ≤ 1.0 := by
  constructor
  · intro x
    exact ⟨_, ReadSpectrum_fresh x _ _ _, by simp⟩
  · refine ⟨_, ReadSpectrum_fresh 0 _ _ _, ?_⟩
    norm_num

/-! ## C20: no division by zero at or above the threshold -/

/-- When `M_p < M_n + m_e`, the threshold exceeds `DELTA + m_e`. -/
theorem CrossSection.e_nu_min_gt (c : PhysicalConstants K)
    (hmass : c.proton_mass_c2 < c.neutron_mass_c2 + c.electron_mass_c2) :
    CrossSection.DELTA c + c.electron_mass_c2 < CrossSection.e_nu_min c := by
  have hp := c.proton_mass_pos
  have ha : 0 < c.neutron_mass_c2 + c.electron_mass_c2 - c.proton_mass_c2 := by linarith
  rw [CrossSection.e_nu_min_eq, lt_div_iff₀ (by linarith)]
  unfold CrossSection.DELTA
  nlinarith [mul_pos ha ha]

/-- C20: when `M_p < M_n + m_e`, as with the CLHEP masses, and the square root is exact, for
every `e_nu` at or above the threshold the order 0 energy `e_nu - DELTA` is strictly above the
electron mass, so the clamp of `e0` is not taken; the order 0 momentum has a value, the
velocity `v0 = p0 / e0` is strictly positive, the quotients by `e0` and by `v0` of the `gamma`
term have values, and `CrossSection` returns a number. -/
theorem CrossSection_no_division_by_zero (c : PhysicalConstants K) (m : LibM K)
    (hm : m.SqrtExact)
    (hmass : c.proton_mass_c2 < c.neutron_mass_c2 + c.electron_mass_c2)
    (e_nu cos_theta : K) (hthr : CrossSection.e_nu_min c ≤ e_nu) :
    c.electron_mass_c2 < e_nu - CrossSection.DELTA c ∧
    CrossSection.e0 c e_nu = e_nu - CrossSection.DELTA c ∧
    ∃ p0, m.sqrt (CrossSection.e0 c e_nu * CrossSection.e0 c e_nu
              - c.electron_mass_c2 * c.electron_mass_c2) = some p0 ∧
      0 < p0 / CrossSection.e0 c e_nu ∧
      fdiv p0 (CrossSection.e0 c e_nu) = some (p0 / CrossSection.e0 c e_nu) ∧
      fdiv (c.electron_mass_c2 * c.electron_mass_c2) (CrossSection.e0 c e_nu)
        = some (c.electron_mass_c2 * c.electron_mass_c2 / CrossSection.e0 c e_nu) ∧
      fdiv cos_theta (p0 / CrossSection.e0 c e_nu)
        = some (cos_theta / (p0 / CrossSection.e0 c e_nu)) ∧
      ∃ xs, CrossSection c m e_nu cos_theta = some xs := by
  have hme := c.electron_mass_pos
  have hgt := CrossSection.e_nu_min_gt c hmass
  have h0 : c.electron_mass_c2 < e_nu - CrossSection.DELTA c := by linarith
  have he0 : CrossSection.e0 c e_nu = e_nu - CrossSection.DELTA c := by
    unfold CrossSection.e0
    simp [not_lt.mpr (le_of_lt h0)]
  have he0lt : c.electron_mass_c2 < CrossSection.e0 c e_nu := by rw [he0]; exact h0
  have he0pos : 0 < CrossSection.e0 c e_nu := lt_trans hme he0lt
  obtain ⟨p0, hp0, hp0nn, hp0sq⟩ := (hm (CrossSection.e0 c e_nu * CrossSection.e0 c e_nu
      - c.electron_mass_c2 * c.electron_mass_c2)).2 (by nlinarith)
  have hp0pos : 0 < p0 := by
    rcases eq_or_lt_of_le hp0nn with h | h
    · rw [← h, mul_zero] at hp0sq
      nlinarith
    · exact h
  have hv0 : 0 < p0 / CrossSection.e0 c e_nu := div_pos hp0pos he0pos
  exact ⟨h0, he0, p0, hp0, hv0, fdiv_of_ne _ (ne_of_gt he0pos), fdiv_of_ne _ (ne_of_gt he0pos),
    fdiv_of_ne _ (ne_of_gt hv0),
    CrossSection_isSome c m hm e_nu cos_theta (not_lt.mpr hthr) he0lt⟩

/-- C20, with the CLHEP masses at `e_nu = 10` MeV and `cos_theta = -1`. -/
theorem CrossSection_no_division_by_zero_witness :
    (clhep : PhysicalConstants ℝ).electron_mass_c2
      < 10 - CrossSection.DELTA (clhep : PhysicalConstants ℝ) ∧
    CrossSection.e0 (clhep : PhysicalConstants ℝ) 10
      = 10 - CrossSection.DELTA (clhep : PhysicalConstants ℝ) ∧
    ∃ p0, realLibM.sqrt (CrossSection.e0 (clhep : PhysicalConstants ℝ) 10
              * CrossSection.e0 (clhep : PhysicalConstants ℝ) 10
              - (clhep : PhysicalConstants ℝ).electron_mass_c2
                * (clhep : PhysicalConstants ℝ).electron_mass_c2) = some p0 ∧
      0 < p0 / CrossSection.e0 (clhep : PhysicalConstants ℝ) 10 ∧
      fdiv p0 (CrossSection.e0 (clhep : PhysicalConstants ℝ) 10)
        = some (p0 / CrossSection.e0 (clhep : PhysicalConstants ℝ) 10) ∧
      fdiv ((clhep : PhysicalConstants ℝ).electron_mass_c2
          * (clhep : PhysicalConstants ℝ).electron_mass_c2)
          (CrossSection.e0 (clhep : PhysicalConstants ℝ) 10)
        = some ((clhep : PhysicalConstants ℝ).electron_mass_c2
            * (clhep : PhysicalConstants ℝ).electron_mass_c2
            / CrossSection.e0 (clhep : PhysicalConstants ℝ) 10) ∧
      fdiv (-1) (p0 / CrossSection.e0 (clhep : PhysicalConstants ℝ) 10)
        = some (-1 / (p0 / CrossSection.e0 (clhep : PhysicalConstants ℝ) 10)) ∧
      ∃ xs, CrossSection (clhep : PhysicalConstants ℝ) realLibM 10 (-1) = some xs :=
  CrossSection_no_division_by_zero (clhep : PhysicalConstants ℝ) realLibM realLibM_sqrtExact
    (by norm_num [clhep]) 10 (-1) (le_of_lt CrossSection.e_nu_min_clhep_lt_ten)
/-! ## C18: the positron energy between 0 and 100 MeV -/

/-- The order 1 energy of `PositronEnergy` before its clamp is negative when the order 0
energy `e0` is at most `-839`, the momentum `p0` lies in `[0, -e0]`, `e_nu` in `[0, 100]` and
`cos_theta` in `[-1, 1]`: the factor of `e0` is at least `0.78`. -/
theorem PositronEnergy.raw_neg {e0 p0 e_nu cos_theta : K} (he0 : e0 ≤ -839) (hp0nn : 0 ≤ p0)
    (hp0le : p0 ≤ -e0) (h0 : 0 ≤ e_nu) (h100 : e_nu ≤ 100) (hc1 : -1 ≤ cos_theta)
    (hc2 : cos_theta ≤ 1) :
    e0 * (1 - e_nu / 938.272013 * (1 - p0 / e0 * cos_theta))
      - (939.56536 - 938.272013) * (939.56536 - 938.272013) / 2 / 938.272013 < 0 := by
  have he0neg : e0 < 0 := by linarith
  have hv0lo : -1 ≤ p0 / e0 := by
    rw [le_div_iff_of_neg he0neg]
    linarith
  have hv0hi : p0 / e0 ≤ 0 := div_nonpos_of_nonneg_of_nonpos hp0nn (le_of_lt he0neg)
  generalize p0 / e0 = v0 at hv0lo hv0hi ⊢
  have hs_lo : 0 ≤ 1 - v0 * cos_theta := by
    nlinarith [mul_nonneg (sub_nonneg.mpr hv0lo) (sub_nonneg.mpr hc2),
      mul_nonneg (neg_nonneg.mpr hv0hi) (sub_nonneg.mpr hc1)]
  have hs_hi : 1 - v0 * cos_theta ≤ 2 := by
    nlinarith [mul_nonneg (sub_nonneg.mpr hv0lo) (sub_nonneg.mpr hc1),
      mul_nonneg (neg_nonneg.mpr hv0hi) (sub_nonneg.mpr hc2)]
  generalize 1 - v0 * cos_theta = s at hs_lo hs_hi ⊢
  have ht_lo : (0 : K) ≤ e_nu / 938.272013 := div_nonneg h0 (by norm_num)
  have ht_hi : e_nu / 938.272013 ≤ 0.11 := by
    rw [div_le_iff₀ (by norm_num)]
    linarith
  generalize e_nu / 938.272013 = t at ht_lo ht_hi ⊢
  have hts : t * s ≤ 0.11 * 2 := mul_le_mul ht_hi hs_hi hs_lo (by norm_num)
  have hF : (0.78 : K) ≤ 1 - t * s := by linarith
  have h1 : e0 * (1 - t * s) ≤ e0 * 0.78 :=
    mul_le_mul_of_nonpos_left hF (le_of_lt he0neg)
  have h2 : (0 : K) < (939.56536 - 938.272013) * (939.56536 - 938.272013) / 2
      / 938.272013 := by norm_num
  linarith

/-- C18: with the CLHEP masses and an exact square root, for every `e_nu` in `[0, 100]` MeV
and every `cos_theta` in `[-1, 1]`, the order 0 energy `e_nu - M_n + m_e` of `PositronEnergy`
is negative, its order 1 energy before the clamp is negative, the clamp fires and
`PositronEnergy` returns exactly the electron mass; the positron momentum
`sqrt(e1² - m_e²)` that `GenEvent` derives from it is 0. -/
theorem PositronEnergy_eq_electron_mass (m : LibM K) (hm : m.SqrtExact) (e_nu cos_theta : K)
    (h0 : 0 ≤ e_nu) (h100 : e_nu ≤ 100) (hc1 : -1 ≤ cos_theta) (hc2 : cos_theta ≤ 1) :
    PositronEnergy.e0 (clhep : PhysicalConstants K) e_nu < 0 ∧
    (∃ p0, m.sqrt (PositronEnergy.e0 (clhep : PhysicalConstants K) e_nu
                * PositronEnergy.e0 (clhep : PhysicalConstants K) e_nu
              - (clhep : PhysicalConstants K).electron_mass_c2
                * (clhep : PhysicalConstants K).electron_mass_c2) = some p0 ∧
      PositronEnergy.e0 (clhep : PhysicalConstants K) e_nu
          * (1 - e_nu / (clhep : PhysicalConstants K).proton_mass_c2
              * (1 - p0 / PositronEnergy.e0 (clhep : PhysicalConstants K) e_nu * cos_theta))
        - ((clhep : PhysicalConstants K).neutron_mass_c2
            - (clhep : PhysicalConstants K).proton_mass_c2)
          * ((clhep : PhysicalConstants K).neutron_mass_c2
            - (clhep : PhysicalConstants K).proton_mass_c2) / 2
          / (clhep : PhysicalConstants K).proton_mass_c2 < 0) ∧
    PositronEnergy (clhep : PhysicalConstants K) m e_nu cos_theta
      = some (clhep : PhysicalConstants K).electron_mass_c2 ∧
    m.sqrt ((clhep : PhysicalConstants K).electron_mass_c2
          * (clhep : PhysicalConstants K).electron_mass_c2
        - (clhep : PhysicalConstants K).electron_mass_c2
          * (clhep : PhysicalConstants K).electron_mass_c2) = some 0 := by
  have hme : (clhep : PhysicalConstants K).electron_mass_c2 = 0.510998910 := rfl
  have hmp : (clhep : PhysicalConstants K).proton_mass_c2 = 938.272013 := rfl
  have hmn : (clhep : PhysicalConstants K).neutron_mass_c2 = 939.56536 := rfl
  have he0 : PositronEnergy.e0 (clhep : PhysicalConstants K) e_nu = e_nu - 939.56536
      + 0.510998910 := rfl
  have he0neg : PositronEnergy.e0 (clhep : PhysicalConstants K) e_nu < 0 := by
    rw [he0]; linarith
  have he0hi : PositronEnergy.e0 (clhep : PhysicalConstants K) e_nu ≤ -839 := by
    rw [he0]; linarith
  obtain ⟨p0, hp0nn, hp0sq, hPE⟩ := PositronEnergy_eq_e1 (clhep : PhysicalConstants K) m hm
    e_nu cos_theta (by rw [hme]; nlinarith)
  have hs0 : m.sqrt (PositronEnergy.e0 (clhep : PhysicalConstants K) e_nu
        * PositronEnergy.e0 (clhep : PhysicalConstants K) e_nu
      - (clhep : PhysicalConstants K).electron_mass_c2
        * (clhep : PhysicalConstants K).electron_mass_c2) = some p0 := by
    obtain ⟨y, hy, hynn, hysq⟩ := (hm (PositronEnergy.e0 (clhep : PhysicalConstants K) e_nu
        * PositronEnergy.e0 (clhep : PhysicalConstants K) e_nu
      - (clhep : PhysicalConstants K).electron_mass_c2
        * (clhep : PhysicalConstants K).electron_mass_c2)).2 (by rw [← hp0sq]; nlinarith)
    have hyp : y = p0 := by
      have h1 : y * y = p0 * p0 := by rw [hysq, hp0sq]
      nlinarith [mul_self_eq_mul_self_iff.mp h1]
    rw [hy, hyp]
  generalize PositronEnergy.e0 (clhep : PhysicalConstants K) e_nu = e0
    at he0 he0neg he0hi hp0sq hPE hs0 ⊢
  have hp0le : p0 ≤ -e0 := by
    apply le_of_mul_self_le_of_nonneg (by linarith)
    rw [hp0sq, hme]
    nlinarith
  have hraw := PositronEnergy.raw_neg he0hi hp0nn hp0le h0 h100 hc1 hc2
  have hsqrt0 : m.sqrt ((0.510998910 : K) * 0.510998910 - 0.510998910 * 0.510998910)
      = some 0 := by
    obtain ⟨y, hy, _, hysq⟩ := (hm ((0.510998910 : K) * 0.510998910
      - 0.510998910 * 0.510998910)).2 (by norm_num)
    have hy0 : y = 0 := by
      rw [sub_self] at hysq
      exact mul_self_eq_zero.mp hysq
    rw [hy, hy0]
  refine ⟨he0neg, ⟨p0, hs0, ?_⟩, ?_, ?_⟩
  · rw [hmp, hmn]
    exact hraw
  · rw [hPE]
    unfold PositronEnergy.e1
    simp only [hmp, hmn, hme]
    rw [if_pos (lt_trans hraw (by norm_num))]
  · rw [hme]
    exact hsqrt0

/-- C18, at `e_nu = 50` MeV and `cos_theta = 1/2` over the real numbers. -/
theorem PositronEnergy_eq_electron_mass_witness :
    PositronEnergy (clhep : PhysicalConstants ℝ) realLibM 50 (1 / 2)
        = some (clhep : PhysicalConstants ℝ).electron_mass_c2 ∧
      realLibM.sqrt ((clhep : PhysicalConstants ℝ).electron_mass_c2
            * (clhep : PhysicalConstants ℝ).electron_mass_c2
          - (clhep : PhysicalConstants ℝ).electron_mass_c2
            * (clhep : PhysicalConstants ℝ).electron_mass_c2) = some 0 :=
  (PositronEnergy_eq_electron_mass realLibM realLibM_sqrtExact 50 (1 / 2) (by norm_num)
    (by norm_num) (by norm_num) (by norm_num)).2.2

/-! ## C15 and C16: candidates below the threshold -/

/-- One iteration of the loop of `GenInteraction`, in terms of its acceptance test. -/
theorem GenInteraction.loop_succ (c : PhysicalConstants K) (m : LibM K) (g : Generator K)
    (xs_max : Option K) (rand : Nat → K) (fuel k : Nat) :
    GenInteraction.loop c m g xs_max rand (fuel + 1) k
      = if GenInteraction.passed c m g xs_max (rand k) (rand (k + 1)) (rand (k + 2)) = true
        then some (g.e_min + (g.e_max - g.e_min) * rand k, -1 + 2 * rand (k + 1), k + 3)
        else GenInteraction.loop c m g xs_max rand fuel (k + 3) := by
  rw [GenInteraction.loop]
  rfl

/-- A candidate below the threshold has `CrossSection = 0` and fails the acceptance test as
soon as `xs_test` is not negative. -/
theorem GenInteraction.passed_below_threshold (c : PhysicalConstants K) (m : LibM K)
    (g : Generator K) (xs_max : Option K) (u1 u2 u3 : K)
    (he : g.e_min + (g.e_max - g.e_min) * u1 < CrossSection.e_nu_min c)
    (hxs : ∀ x, xs_max = some x → 0 ≤ x * g.flux_max * u3) :
    CrossSection c m (g.e_min + (g.e_max - g.e_min) * u1) (-1 + 2 * u2) = some 0 ∧
      GenInteraction.passed c m g xs_max u1 u2 u3 = false := by
  have hcs : CrossSection c m (g.e_min + (g.e_max - g.e_min) * u1) (-1 + 2 * u2) = some 0 := by
    simp [CrossSection, he]
  refine ⟨hcs, ?_⟩
  unfold GenInteraction.passed
  simp only [hcs]
  cases hx : xs_max with
  | none => simp [flt]
  | some x =>
    cases hf : InterpolateSpectrum g.energy g.flux (g.e_min + (g.e_max - g.e_min) * u1) with
    | none => simp [flt, fmul]
    | some fl =>
      have := hxs x hx
      simp [flt, fmul, not_lt.mpr this]

/-- C15: when the envelope `xs_max * flux_max` is not negative, a candidate of
`GenInteraction` whose energy is below the threshold has `CrossSection = 0` and fails the
acceptance test whatever its three draws in `[0, 1]`, and for every stream of draws in
`[0, 1]` an energy returned by `GenInteraction` is not below the threshold. -/
theorem GenInteraction_not_below_threshold (c : PhysicalConstants K) (m : LibM K)
    (g : Generator K) (rand : Nat → K) (fuel k : Nat) (hr : UniformDraws rand)
    (henv : ∀ x, CrossSection c m g.e_max (-1) = some x → 0 ≤ x * g.flux_max)
    (e_nu cos_theta : K) (k' : Nat)
    (h : GenInteraction c m g rand fuel k = some (e_nu, cos_theta, k')) :
    (∀ u1 u2 u3 : K, 0 ≤ u3 →
      g.e_min + (g.e_max - g.e_min) * u1 < CrossSection.e_nu_min c →
      CrossSection c m (g.e_min + (g.e_max - g.e_min) * u1) (-1 + 2 * u2) = some 0 ∧
        GenInteraction.passed c m g (CrossSection c m g.e_max (-1)) u1 u2 u3 = false) ∧
    CrossSection.e_nu_min c ≤ e_nu := by
  have hall : ∀ u1 u2 u3 : K, 0 ≤ u3 →
      g.e_min + (g.e_max - g.e_min) * u1 < CrossSection.e_nu_min c →
      CrossSection c m (g.e_min + (g.e_max - g.e_min) * u1) (-1 + 2 * u2) = some 0 ∧
        GenInteraction.passed c m g (CrossSection c m g.e_max (-1)) u1 u2 u3 = false :=
    fun u1 u2 u3 hu3 he =>
      GenInteraction.passed_below_threshold c m g _ u1 u2 u3 he
        (fun x hx => mul_nonneg (henv x hx) hu3)
  refine ⟨hall, ?_⟩
  obtain ⟨j, he, hc, _, hpass⟩ :=
    GenInteraction.loop_returns_candidate c m g _ rand fuel k e_nu cos_theta k' h
  by_contra hlt
  have hlt' : g.e_min + (g.e_max - g.e_min) * rand j < CrossSection.e_nu_min c := by
    rw [← he]; exact not_le.mp hlt
  have hfalse := (hall (rand j) (rand (j + 1)) (rand (j + 2)) (hr (j + 2)).1 hlt').2
  unfold GenInteraction.passed at hfalse
  rw [he, hc] at hpass
  rw [hpass] at hfalse
  exact absurd hfalse (by simp)

/-- C16: on a spectrum with `e_min ≤ e_max` whose last energy is below the threshold, the
acceptance test of `GenInteraction` is false for every triple of draws in `[0, 1]`, and for
every stream of draws in `[0, 1]` no amount of fuel makes the loop, which has no other exit,
return a pair. -/
theorem GenInteraction_never_returns (c : PhysicalConstants K) (m : LibM K) (g : Generator K)
    (rand : Nat → K) (hr : UniformDraws rand) (hrange : g.e_min ≤ g.e_max)
    (hbelow : g.e_max < CrossSection.e_nu_min c) :
    (∀ u1 u2 u3 : K, 0 ≤ u1 → u1 ≤ 1 → 0 ≤ u2 → u2 ≤ 1 → 0 ≤ u3 → u3 ≤ 1 →
      GenInteraction.passed c m g (CrossSection c m g.e_max (-1)) u1 u2 u3 = false) ∧
    ∀ fuel k : Nat, GenInteraction c m g rand fuel k = none := by
  have hxs : CrossSection c m g.e_max (-1) = some 0 := by
    simp [CrossSection, hbelow]
  have hall : ∀ u1 u2 u3 : K, u1 ≤ 1 →
      GenInteraction.passed c m g (CrossSection c m g.e_max (-1)) u1 u2 u3 = false := by
    intro u1 u2 u3 hu1
    refine (GenInteraction.passed_below_threshold c m g _ u1 u2 u3 ?_ ?_).2
    · nlinarith [mul_nonneg (sub_nonneg.mpr hrange) (sub_nonneg.mpr hu1)]
    · intro x hx
      rw [hxs, Option.some.injEq] at hx
      rw [← hx]
      simp
  refine ⟨fun u1 u2 u3 _ hu1 _ _ _ _ => hall u1 u2 u3 hu1, ?_⟩
  intro fuel
  unfold GenInteraction
  induction fuel with
  | zero => intro k; rfl
  | succ fuel ih =>
    intro k
    rw [GenInteraction.loop_succ, hall _ _ _ (hr k).2]
    simpa using ih (k + 3)

/-- C16, on the spectrum `[(0.5, 1.0), (1.5, 1.0)]` with the CLHEP masses: a thousand
iterations return nothing. -/
theorem GenInteraction_never_returns_witness :
    GenInteraction (clhep : PhysicalConstants ℝ) realLibM belowThresholdGenerator
      sampleDraws 1000 0 = none :=
  (GenInteraction_never_returns (clhep : PhysicalConstants ℝ) realLibM
    belowThresholdGenerator sampleDraws sampleDraws_uniform
    (by norm_num [belowThresholdGenerator])
    (by norm_num [belowThresholdGenerator, CrossSection.e_nu_min, CrossSection.DELTA,
      clhep])).2 1000 0

/-- The square root of a number between `a²` and `b²`, for `0 ≤ b`, lies between `a`
and `b`. -/
theorem LibM.SqrtExact.bounds {m : LibM K} (hm : m.SqrtExact) {x a b : K}
    (hb : 0 ≤ b) (hax : a * a ≤ x) (hxb : x ≤ b * b) :
    ∃ y, m.sqrt x = some y ∧ a ≤ y ∧ y ≤ b ∧ y * y = x := by
  obtain ⟨y, hy, hynn, hysq⟩ := (hm x).2 (le_trans (mul_self_nonneg a) hax)
  refine ⟨y, hy, le_of_mul_self_le_of_nonneg hynn (by rw [hysq]; exact hax), ?_, hysq⟩
  by_contra hlt
  have h1 : b * b < y * y := mul_self_lt_mul_self hb (not_le.mp hlt)
  rw [hysq] at h1
  exact absurd hxb (not_le.mpr h1)

/-- The term `gamma` at `e_nu = 10`, `cos_theta = -1` with the CLHEP masses is between 0
and 600 for a velocity `v0` in `[0.9, 1]`. -/
theorem CrossSection.gamma_ten_backward {v0 a q : K} (hv0lo : 0.9 ≤ v0) (hv0hi : v0 ≤ 1)
    (ha0 : 0 ≤ a) (ha1 : a ≤ 0.1) (hq0 : -1.2 ≤ q) (hq1 : q ≤ -1) :
    0 ≤ CrossSection.gamma (clhep : PhysicalConstants K) (-1) 8.706653 v0 a q ∧
      CrossSection.gamma (clhep : PhysicalConstants K) (-1) 8.706653 v0 a q ≤ 600 := by
  have hD : CrossSection.DELTA (clhep : PhysicalConstants K) = 1.293347 := by
    norm_num [CrossSection.DELTA, clhep]
  unfold CrossSection.gamma
  simp only [hD]
  have hX0 : (0 : K) ≤ (8.706653 + 1.293347) * (1 - q) - 1.293347 := by linarith
  have hX1 : (8.706653 + 1.293347) * (1 - q) - 1.293347 ≤ 21 := by linarith
  have hXv0 := mul_nonneg hX0 (by linarith : (0 : K) ≤ v0)
  have hXv1 := mul_nonneg hX0 (sub_nonneg.mpr hv0hi)
  constructor <;> nlinarith

/-- The sign of `CrossSection.combine` with the CLHEP constants is the sign of its first
statement, the difference of the order 1 term and the recoil term. -/
theorem CrossSection.combine_clhep (cos_theta e0 p0 e1 p1 v1 gamma : K) :
    ∃ k : K, 0 < k ∧
      CrossSection.combine (clhep : PhysicalConstants K) cos_theta e0 p0 e1 p1 v1 gamma
        = (((1.00 * 1.00 + 3 * 1.26 * 1.26) + (1.00 * 1.00 - 1.26 * 1.26) * v1 * cos_theta)
              * e1 * p1 - gamma / 938.272013 * e0 * p0) * k := by
  refine ⟨CrossSection.sigma_0 (clhep : PhysicalConstants K) / 2
    * ((clhep : PhysicalConstants K).hbarc * (clhep : PhysicalConstants K).hbarc), ?_, ?_⟩
  · norm_num [CrossSection.sigma_0, clhep]
  · unfold CrossSection.combine
    simp only [show (clhep : PhysicalConstants K).proton_mass_c2 = 938.272013 from rfl]
    ring

/-- The first statement of `CrossSection.combine` at `e_nu = 10`, `cos_theta = -1`: the
order 1 term is above 391 and the recoil term below 51. -/
theorem CrossSection.core_ten_backward {p0 e1 p1 v1 G : K} (hp0 : 0 ≤ p0) (hp0hi : p0 ≤ 9)
    (he1 : 8.5 ≤ e1) (hp1 : 8 ≤ p1) (hv1 : 0 ≤ v1) (hG0 : 0 ≤ G) (hG : G ≤ 600) :
    0 < ((1.00 * 1.00 + 3 * 1.26 * 1.26) + (1.00 * 1.00 - 1.26 * 1.26) * v1 * (-1))
          * e1 * p1 - G / 938.272013 * 8.706653 * p0 := by
  have hEp : (8.5 : K) * 8 ≤ e1 * p1 := mul_le_mul he1 hp1 (by norm_num) (by linarith)
  have hvEp : 0 ≤ v1 * (e1 * p1) := mul_nonneg hv1 (by linarith)
  have ht : G / 938.272013 * 8.706653 ≤ 5.6 := by
    have : G / 938.272013 * 8.706653 ≤ 600 / 938.272013 * 8.706653 :=
      mul_le_mul_of_nonneg_right (div_le_div_of_nonneg_right hG (by norm_num)) (by norm_num)
    exact le_trans this (by norm_num)
  have ht0 : (0 : K) ≤ G / 938.272013 * 8.706653 :=
    mul_nonneg (div_nonneg hG0 (by norm_num)) (by norm_num)
  have htp : G / 938.272013 * 8.706653 * p0 ≤ 5.6 * 9 := mul_le_mul ht hp0hi hp0 (by norm_num)
  have hA : ((1.00 * 1.00 + 3 * 1.26 * 1.26) + (1.00 * 1.00 - 1.26 * 1.26) * v1 * (-1))
      * e1 * p1 = (1.00 * 1.00 + 3 * 1.26 * 1.26) * (e1 * p1)
        + (1.26 * 1.26 - 1.00 * 1.00) * (v1 * (e1 * p1)) := by ring
  rw [hA]
  nlinarith

/-- The clamped order 1 energy at `e_nu = 10`, `cos_theta = -1` for a velocity in `[0.9, 1]`
lies in `[8.5, 8.71]`. -/
theorem CrossSection.e1_ten_backward {v0 : K} (hv0lo : 0.9 ≤ v0) (hv0hi : v0 ≤ 1) :
    8.5 ≤ CrossSection.e1 (clhep : PhysicalConstants K) 10 (-1) 8.706653 v0 ∧
      CrossSection.e1 (clhep : PhysicalConstants K) 10 (-1) 8.706653 v0 ≤ 8.71 := by
  have hD : CrossSection.DELTA (clhep : PhysicalConstants K) = 1.293347 := by
    norm_num [CrossSection.DELTA, clhep]
  unfold CrossSection.e1
  simp only [hD, show (clhep : PhysicalConstants K).proton_mass_c2 = 938.272013 from rfl,
    show (clhep : PhysicalConstants K).electron_mass_c2 = 0.510998910 from rfl]
  have h1 : (10 : K) / 938.272013 ≤ 0.0107 := by
    rw [div_le_iff₀ (by norm_num)]; norm_num
  have h0 : (0 : K) ≤ 10 / 938.272013 := by norm_num
  have hy0 : (0 : K) ≤ (1.293347 * 1.293347 - 0.510998910 * 0.510998910) / 2 / 938.272013 := by
    norm_num
  have hy1 : ((1.293347 : K) * 1.293347 - 0.510998910 * 0.510998910) / 2 / 938.272013
      ≤ 0.001 := by
    norm_num
  generalize (10 : K) / 938.272013 = t at h0 h1 ⊢
  generalize ((1.293347 : K) * 1.293347 - 0.510998910 * 0.510998910) / 2 / 938.272013 = y
    at hy0 hy1 ⊢
  have hts : t * (1 - v0 * -1) ≤ 0.0107 * 2 :=
    mul_le_mul h1 (by linarith) (by linarith) (by norm_num)
  have hts0 : 0 ≤ t * (1 - v0 * -1) := mul_nonneg h0 (by linarith)
  split_ifs with hc
  · exfalso
    nlinarith
  · constructor <;> nlinarith

/-- With the CLHEP masses and an exact square root, `CrossSection(10, -1)`, the envelope
factor `xs_max` of the two-point spectrum, is a strictly positive number. -/
theorem CrossSection_ten_backward_pos (m : LibM K) (hm : m.SqrtExact) :
    ∃ xs, CrossSection (clhep : PhysicalConstants K) m 10 (-1) = some xs ∧ 0 < xs := by
  have hE0 : CrossSection.e0 (clhep : PhysicalConstants K) 10 = 8.706653 := by
    norm_num [CrossSection.e0, CrossSection.DELTA, clhep]
  have hme : (clhep : PhysicalConstants K).electron_mass_c2 = 0.510998910 := rfl
  obtain ⟨p0, hp0, hp0lo, hp0hi, hp0sq⟩ := hm.bounds (x := (8.706653 : K) * 8.706653
      - 0.510998910 * 0.510998910) (a := 8) (b := 8.706653) (by norm_num) (by norm_num)
      (by norm_num)
  have hv0lo : (0.9 : K) ≤ p0 / 8.706653 := by
    rw [le_div_iff₀ (by norm_num)]; linarith
  have hv0hi : p0 / 8.706653 ≤ 1 := by
    rw [div_le_one (by norm_num)]; exact hp0hi
  have hv0pos : (0 : K) < p0 / 8.706653 := by linarith
  obtain ⟨he1lo, he1hi⟩ := CrossSection.e1_ten_backward hv0lo hv0hi
  have hq0 : (-1.2 : K) ≤ -1 / (p0 / 8.706653) := by
    rw [le_div_iff₀ hv0pos]; linarith
  have hq1 : -1 / (p0 / 8.706653) ≤ (-1 : K) := by
    rw [div_le_iff₀ hv0pos]; linarith
  obtain ⟨hG0, hG1⟩ := @CrossSection.gamma_ten_backward K _ (p0 / 8.706653)
    ((0.510998910 : K) * 0.510998910 / 8.706653) (-1 / (p0 / 8.706653))
    hv0lo hv0hi (by norm_num) (by norm_num) hq0 hq1
  generalize hE1g : CrossSection.e1 (clhep : PhysicalConstants K) 10 (-1) 8.706653
    (p0 / 8.706653) = E1 at he1lo he1hi
  have hp0nn : 0 ≤ p0 := le_trans (by norm_num) hp0lo
  have hp09 : p0 ≤ 9 := le_trans hp0hi (by norm_num)
  have hE1nn : 0 ≤ E1 := le_trans (by norm_num) he1lo
  obtain ⟨p1, hp1, hp1lo, _, _⟩ := hm.bounds (x := E1 * E1 - 0.510998910 * 0.510998910)
    (a := 8) (b := 8.71) (by norm_num) (by nlinarith) (by nlinarith)
  have hcs := CrossSection_eq_combine (clhep : PhysicalConstants K) m 10 (-1)
    (not_lt.mpr (le_of_lt CrossSection.e_nu_min_clhep_lt_ten)) p0 p1
    (by rw [hE0, hme]; exact hp0) (ne_of_gt (lt_of_lt_of_le (by norm_num) hp0lo))
    (by rw [hE0, hE1g, hme]; exact hp1)
  rw [hE0, hE1g, hme] at hcs
  refine ⟨_, hcs, ?_⟩
  generalize CrossSection.gamma (clhep : PhysicalConstants K) (-1) 8.706653 (p0 / 8.706653)
    ((0.510998910 : K) * 0.510998910 / 8.706653) (-1 / (p0 / 8.706653)) = G at hG0 hG1 ⊢
  obtain ⟨k, hk, hcomb⟩ := CrossSection.combine_clhep (-1 : K) 8.706653 p0 E1 p1 (p1 / E1) G
  rw [hcomb]
  exact mul_pos (CrossSection.core_ten_backward hp0nn hp09 he1lo hp1lo
    (div_nonneg (le_trans (by norm_num) hp1lo) hE1nn) hG0 hG1) hk

/-- C15, on the two-point spectrum `[(1.8, 0.0), (10.0, 1.0)]` with the CLHEP masses: the
envelope `CrossSection(10, -1) * 1` is positive, and the energy returned for the sample
stream, 10 MeV, is not below the threshold. -/
theorem GenInteraction_not_below_threshold_witness :
    GenInteraction (clhep : PhysicalConstants ℝ) realLibM twoPointGenerator sampleDraws 1 2
        = some (10, 0, 5) ∧
      CrossSection.e_nu_min (clhep : PhysicalConstants ℝ) ≤ 10 :=
  ⟨GenInteraction_twoPoint realLibM realLibM_sqrtExact,
    (GenInteraction_not_below_threshold (clhep : PhysicalConstants ℝ) realLibM
      twoPointGenerator sampleDraws 1 2 sampleDraws_uniform
      (fun x hx => by
        obtain ⟨y, hy, hypos⟩ := CrossSection_ten_backward_pos realLibM realLibM_sqrtExact
        have hemax : (twoPointGenerator : Generator ℝ).e_max = 10 := by
          norm_num [twoPointGenerator]
        rw [hemax, hy, Option.some.injEq] at hx
        rw [← hx]
        norm_num [twoPointGenerator]
        exact le_of_lt hypos)
      10 0 5 (GenInteraction_twoPoint realLibM realLibM_sqrtExact)).2⟩

/-! ## The cross-section at 100 MeV, backwards -/

/-- The term `gamma` at `e_nu = 100`, `cos_theta = -1` with the CLHEP masses is at least
5800 for a velocity `v0` of at least `0.99`. -/
theorem CrossSection.gamma_hundred_backward {v0 a q : K} (hv0lo : 0.99 ≤ v0)
    (ha1 : a ≤ 0.01) (hq1 : q ≤ -1) :
    5800 ≤ CrossSection.gamma (clhep : PhysicalConstants K) (-1) 98.706653 v0 a q := by
  have hD : CrossSection.DELTA (clhep : PhysicalConstants K) = 1.293347 := by
    norm_num [CrossSection.DELTA, clhep]
  unfold CrossSection.gamma
  simp only [hD]
  have hX0 : (198 : K) ≤ (98.706653 + 1.293347) * (1 - q) - 1.293347 := by linarith
  have hXv0 := mul_nonneg (by linarith : (0 : K) ≤ (98.706653 + 1.293347) * (1 - q) - 1.293347)
    (by linarith : (0 : K) ≤ v0)
  nlinarith

/-- The clamped order 1 energy at `e_nu = 100`, `cos_theta = -1` for a velocity in
`[0.99, 1]` lies in `[77, 77.8]`. -/
theorem CrossSection.e1_hundred_backward {v0 : K} (hv0lo : 0.99 ≤ v0) (hv0hi : v0 ≤ 1) :
    77 ≤ CrossSection.e1 (clhep : PhysicalConstants K) 100 (-1) 98.706653 v0 ∧
      CrossSection.e1 (clhep : PhysicalConstants K) 100 (-1) 98.706653 v0 ≤ 77.8 := by
  have hD : CrossSection.DELTA (clhep : PhysicalConstants K) = 1.293347 := by
    norm_num [CrossSection.DELTA, clhep]
  unfold CrossSection.e1
  simp only [hD, show (clhep : PhysicalConstants K).proton_mass_c2 = 938.272013 from rfl,
    show (clhep : PhysicalConstants K).electron_mass_c2 = 0.510998910 from rfl]
  have h1 : (100 : K) / 938.272013 ≤ 0.10658 := by
    rw [div_le_iff₀ (by norm_num)]; norm_num
  have h0 : (0.10657 : K) ≤ 100 / 938.272013 := by
    rw [le_div_iff₀ (by norm_num)]; norm_num
  have hy0 : (0 : K) ≤ (1.293347 * 1.293347 - 0.510998910 * 0.510998910) / 2 / 938.272013 := by
    norm_num
  have hy1 : ((1.293347 : K) * 1.293347 - 0.510998910 * 0.510998910) / 2 / 938.272013
      ≤ 0.001 := by
    norm_num
  generalize (100 : K) / 938.272013 = t at h0 h1 ⊢
  generalize ((1.293347 : K) * 1.293347 - 0.510998910 * 0.510998910) / 2 / 938.272013 = y
    at hy0 hy1 ⊢
  have hts : t * (1 - v0 * -1) ≤ 0.10658 * 2 :=
    mul_le_mul h1 (by linarith) (by linarith) (by norm_num)
  have hts0 : 0.10657 * 1.99 ≤ t * (1 - v0 * -1) :=
    mul_le_mul h0 (by linarith) (by norm_num) (by linarith)
  split_ifs with hc
  · exfalso
    nlinarith
  · constructor <;> nlinarith

/-- The first statement of `CrossSection.combine` at `e_nu = 100`, `cos_theta = -1`: the
order 1 term is below 38500 and the recoil term above 59000. -/
theorem CrossSection.core_hundred_backward {p0 e1 p1 v1 G : K} (hp0 : 98 ≤ p0)
    (he1 : 0 ≤ e1) (he1hi : e1 ≤ 77.8) (hp1 : 0 ≤ p1) (hp1hi : p1 ≤ 77.8)
    (hv1hi : v1 ≤ 1) (hG : 5800 ≤ G) :
    ((1.00 * 1.00 + 3 * 1.26 * 1.26) + (1.00 * 1.00 - 1.26 * 1.26) * v1 * (-1))
          * e1 * p1 - G / 938.272013 * 98.706653 * p0 < 0 := by
  have hEp : e1 * p1 ≤ 77.8 * 77.8 := mul_le_mul he1hi hp1hi hp1 (by norm_num)
  have hEp0 : 0 ≤ e1 * p1 := mul_nonneg he1 hp1
  have hvEp : v1 * (e1 * p1) ≤ 1 * (77.8 * 77.8) := mul_le_mul hv1hi hEp hEp0 (by norm_num)
  have ht : (610 : K) ≤ G / 938.272013 * 98.706653 := by
    have : (5800 : K) / 938.272013 * 98.706653 ≤ G / 938.272013 * 98.706653 :=
      mul_le_mul_of_nonneg_right (div_le_div_of_nonneg_right hG (by norm_num)) (by norm_num)
    exact le_trans (by norm_num) this
  have htp : (610 : K) * 98 ≤ G / 938.272013 * 98.706653 * p0 :=
    mul_le_mul ht hp0 (by norm_num) (by linarith)
  have hA : ((1.00 * 1.00 + 3 * 1.26 * 1.26) + (1.00 * 1.00 - 1.26 * 1.26) * v1 * (-1))
      * e1 * p1 = (1.00 * 1.00 + 3 * 1.26 * 1.26) * (e1 * p1)
        + (1.26 * 1.26 - 1.00 * 1.00) * (v1 * (e1 * p1)) := by ring
  rw [hA]
  nlinarith

/-- The CLHEP threshold is below 100 MeV. -/
theorem CrossSection.e_nu_min_clhep_lt_hundred :
    CrossSection.e_nu_min (clhep : PhysicalConstants K) < 100 := by
  norm_num [CrossSection.e_nu_min, CrossSection.DELTA, clhep]

/-- With the CLHEP masses and an exact square root, `CrossSection(100, -1)` is a strictly
negative number: the recoil term `gamma / M_p * e0 * p0` exceeds the order 1 term. -/
theorem CrossSection_hundred_backward_neg (m : LibM K) (hm : m.SqrtExact) :
    ∃ xs, CrossSection (clhep : PhysicalConstants K) m 100 (-1) = some xs ∧ xs < 0 := by
  have hE0 : CrossSection.e0 (clhep : PhysicalConstants K) 100 = 98.706653 := by
    norm_num [CrossSection.e0, CrossSection.DELTA, clhep]
  have hme : (clhep : PhysicalConstants K).electron_mass_c2 = 0.510998910 := rfl
  obtain ⟨p0, hp0, hp0lo, hp0hi, hp0sq⟩ := hm.bounds (x := (98.706653 : K) * 98.706653
      - 0.510998910 * 0.510998910) (a := 98) (b := 98.706653) (by norm_num) (by norm_num)
      (by norm_num)
  have hp0pos : (0 : K) < p0 := lt_of_lt_of_le (by norm_num) hp0lo
  have hv0lo : (0.99 : K) ≤ p0 / 98.706653 := by
    rw [le_div_iff₀ (by norm_num)]; linarith
  have hv0hi : p0 / 98.706653 ≤ 1 := by
    rw [div_le_one (by norm_num)]; exact hp0hi
  have hv0pos : (0 : K) < p0 / 98.706653 := lt_of_lt_of_le (by norm_num) hv0lo
  obtain ⟨he1lo, he1hi⟩ := CrossSection.e1_hundred_backward hv0lo hv0hi
  have hq1 : -1 / (p0 / 98.706653) ≤ (-1 : K) := by
    rw [div_le_iff₀ hv0pos]; linarith
  have hG := @CrossSection.gamma_hundred_backward K _ (p0 / 98.706653)
    ((0.510998910 : K) * 0.510998910 / 98.706653) (-1 / (p0 / 98.706653))
    hv0lo (by norm_num) hq1
  generalize hE1g : CrossSection.e1 (clhep : PhysicalConstants K) 100 (-1) 98.706653
    (p0 / 98.706653) = E1 at he1lo he1hi
  have hE1nn : 0 ≤ E1 := le_trans (by norm_num) he1lo
  have hE1pos : 0 < E1 := lt_of_lt_of_le (by norm_num) he1lo
  obtain ⟨p1, hp1, hp1lo, hp1hi, _⟩ := hm.bounds (x := E1 * E1 - 0.510998910 * 0.510998910)
    (a := 0) (b := E1) hE1nn (by nlinarith) (by nlinarith)
  have hcs := CrossSection_eq_combine (clhep : PhysicalConstants K) m 100 (-1)
    (not_lt.mpr (le_of_lt CrossSection.e_nu_min_clhep_lt_hundred)) p0 p1
    (by rw [hE0, hme]; exact hp0) (ne_of_gt hp0pos)
    (by rw [hE0, hE1g, hme]; exact hp1)
  rw [hE0, hE1g, hme] at hcs
  refine ⟨_, hcs, ?_⟩
  generalize CrossSection.gamma (clhep : PhysicalConstants K) (-1) 98.706653 (p0 / 98.706653)
    ((0.510998910 : K) * 0.510998910 / 98.706653) (-1 / (p0 / 98.706653)) = G at hG ⊢
  obtain ⟨k, hk, hcomb⟩ := CrossSection.combine_clhep (-1 : K) 98.706653 p0 E1 p1 (p1 / E1) G
  rw [hcomb]
  exact mul_neg_of_neg_of_pos (CrossSection.core_hundred_backward hp0lo hE1nn he1hi hp1lo
    (le_trans hp1hi he1hi) ((div_le_one hE1pos).mpr hp1hi) hG) hk

/-! ## C11: the rotation of the positron momentum -/

/-- What `rotate` returns: the vector itself for a zero angle or a zero axis, otherwise the
image of the vector under the rotation matrix of the normalised axis. -/
theorem ThreeVector.rotate_cases (m : LibM K) (hm : m.SqrtExact) (v : ThreeVector K)
    (angle : K) (axis w : ThreeVector K) (h : ThreeVector.rotate m v angle axis = some w) :
    (w = v ∧ (angle = 0 ∨ axis.mag2 = 0)) ∨
    ∃ ll : K, ll ≠ 0 ∧ ll * ll = axis.mag2 ∧
      w = ThreeVector.rotationImage (m.cos angle) (m.sin angle)
            ⟨axis.x / ll, axis.y / ll, axis.z / ll⟩ v := by
  obtain ⟨ll, hll, _, hsq⟩ := (hm axis.mag2).2 axis.mag2_nonneg
  unfold ThreeVector.rotate at h
  by_cases ha : angle = 0
  · left
    simp only [ha, if_true, Option.some.injEq] at h
    exact ⟨h.symm, Or.inl ha⟩
  · by_cases hl : ll = 0
    · left
      simp only [ha, hll, hl, if_false, if_true, Option.bind_eq_bind, Option.some_bind,
        Option.pure_def, Option.some.injEq] at h
      refine ⟨h.symm, Or.inr ?_⟩
      rw [← hsq, hl, mul_zero]
    · right
      simp only [ha, hll, hl, if_false, Option.bind_eq_bind, Option.some_bind,
        Option.pure_def, Option.some.injEq] at h
      exact ⟨ll, hl, hsq, h.symm⟩

/-- The rotation matrix of a unit axis at an angle with `cos² + sin² = 1` preserves the
squared length. -/
theorem ThreeVector.rotationImage_mag2 (ca sa : K) (d v : ThreeVector K)
    (hcs : sa * sa + ca * ca = 1) (hd : d.mag2 = 1) :
    (ThreeVector.rotationImage ca sa d v).mag2 = v.mag2 := by
  unfold ThreeVector.mag2 at hd ⊢
  unfold ThreeVector.rotationImage
  simp only
  linear_combination
    ((v.x * v.x + v.y * v.y + v.z * v.z) - (d.x * v.x + d.y * v.y + d.z * v.z) ^ 2) * hcs
    + ((1 - ca) ^ 2 * (d.x * v.x + d.y * v.y + d.z * v.z) ^ 2
        + sa * sa * (v.x * v.x + v.y * v.y + v.z * v.z)) * hd

/-- The axis of `rotate` divided by its length `ll`, `ll² = |axis|²`, is a unit vector. -/
theorem ThreeVector.normalised_mag2 (axis : ThreeVector K) (ll : K) (hl : ll ≠ 0)
    (hsq : ll * ll = axis.mag2) :
    (⟨axis.x / ll, axis.y / ll, axis.z / ll⟩ : ThreeVector K).mag2 = 1 := by
  unfold ThreeVector.mag2 at hsq ⊢
  simp only
  field_simp
  linear_combination -hsq

/-- With exact square root and trigonometry, `rotate` preserves the squared length. -/
theorem ThreeVector.rotate_mag2 (m : LibM K) (hm : m.SqrtExact) (ht : m.TrigExact)
    (v : ThreeVector K) (angle : K) (axis w : ThreeVector K)
    (h : ThreeVector.rotate m v angle axis = some w) : w.mag2 = v.mag2 := by
  rcases ThreeVector.rotate_cases m hm v angle axis w h with ⟨hw, _⟩ | ⟨ll, hl, hsq, hw⟩
  · rw [hw]
  · rw [hw]
    exact ThreeVector.rotationImage_mag2 _ _ _ _ (ht.1 angle)
      (ThreeVector.normalised_mag2 axis ll hl hsq)

theorem realLibM_trigExact : realLibM.TrigExact := by
  refine ⟨fun x => ?_, Real.cos_zero, fun x theta h => ?_⟩
  · have := Real.sin_sq_add_cos_sq x
    simp only [realLibM]
    nlinarith
  · simp only [realLibM] at h
    split_ifs at h with hx
    · simp only [Option.some.injEq] at h
      rw [← h]
      simp only [realLibM]
      push_neg at hx
      exact Real.cos_arccos hx.1 hx.2

/-- With an exact square root, `sqrt (a * a) = a` for `0 ≤ a`. -/
theorem LibM.SqrtExact.sqrt_mul_self {m : LibM K} (hm : m.SqrtExact) {a : K} (ha : 0 ≤ a) :
    m.sqrt (a * a) = some a := by
  obtain ⟨y, hy, hynn, hysq⟩ := (hm (a * a)).2 (mul_self_nonneg a)
  have : y = a := by
    rcases mul_self_eq_mul_self_iff.mp hysq with h | h
    · exact h
    · have h0 : y = 0 := by linarith
      linarith
  rw [hy, this]

/-- With exact trigonometry, `setRThetaPhi(1, theta, phi)` is a unit vector. -/
theorem ThreeVector.setRThetaPhi_mag2 (m : LibM K) (ht : m.TrigExact) (theta phi : K) :
    (ThreeVector.setRThetaPhi m 1 theta phi).mag2 = 1 := by
  have h1 := ht.1 theta
  have h2 := ht.1 phi
  unfold ThreeVector.setRThetaPhi ThreeVector.mag2
  simp only
  linear_combination (m.sin theta * m.sin theta) * h2 + h1

/-- The squared length of `a * v`. -/
theorem ThreeVector.smul_mag2 (a : K) (v : ThreeVector K) :
    (ThreeVector.smul a v).mag2 = a * a * v.mag2 := by
  unfold ThreeVector.smul ThreeVector.mag2
  simp only
  ring

/-! ## The cross-section at high energies -/

/-- `CrossSection.combine` with the CLHEP constants is its first statement, the difference of
the order 1 term and the recoil term, times the constant `sigma_0 / 2 * hbarc²`. -/
theorem CrossSection.combine_clhep_eq (cos_theta e0 p0 e1 p1 v1 gamma : K) :
    CrossSection.combine (clhep : PhysicalConstants K) cos_theta e0 p0 e1 p1 v1 gamma
      = (((1.00 * 1.00 + 3 * 1.26 * 1.26) + (1.00 * 1.00 - 1.26 * 1.26) * v1 * cos_theta)
            * e1 * p1 - gamma / 938.272013 * e0 * p0)
        * (CrossSection.sigma_0 (clhep : PhysicalConstants K) / 2
            * ((clhep : PhysicalConstants K).hbarc * (clhep : PhysicalConstants K).hbarc)) := by
  unfold CrossSection.combine
  simp only [show (clhep : PhysicalConstants K).proton_mass_c2 = 938.272013 from rfl]
  ring

/-- The constant `sigma_0 / 2 * hbarc²` of the CLHEP constants is positive. -/
theorem CrossSection.scale_clhep_pos :
    (0 : K) < CrossSection.sigma_0 (clhep : PhysicalConstants K) / 2
      * ((clhep : PhysicalConstants K).hbarc * (clhep : PhysicalConstants K).hbarc) := by
  norm_num [CrossSection.sigma_0, clhep]

/-- The order 1 term of the cross-section is not negative: its angular factor is at least
`f² + 3 g² - |f² - g²|` for a velocity `p1 / e1` in `[0, 1]` and a cosine in `[-1, 1]`. -/
theorem CrossSection.order_one_nonneg {cos_theta e1 p1 : K} (hc1 : -1 ≤ cos_theta)
    (hc2 : cos_theta ≤ 1) (he1 : 0 < e1) (hp1 : 0 ≤ p1) (hp1e : p1 ≤ e1) :
    0 ≤ ((1.00 * 1.00 + 3 * 1.26 * 1.26) + (1.00 * 1.00 - 1.26 * 1.26) * (p1 / e1) * cos_theta)
          * e1 * p1 := by
  have hv0 : 0 ≤ p1 / e1 := div_nonneg hp1 (le_of_lt he1)
  have hv1 : p1 / e1 ≤ 1 := (div_le_one he1).mpr hp1e
  generalize p1 / e1 = v1 at hv0 hv1
  have hvc : v1 * cos_theta ≤ 1 := by nlinarith
  have hcoef : (0 : K) ≤ (1.00 * 1.00 + 3 * 1.26 * 1.26)
      + (1.00 * 1.00 - 1.26 * 1.26) * v1 * cos_theta := by
    have : (1.00 * 1.00 - 1.26 * 1.26) * v1 * cos_theta
        = -(0.5876 * (v1 * cos_theta)) := by ring
    rw [this]
    linarith
  exact mul_nonneg (mul_nonneg hcoef (le_of_lt he1)) hp1

/-- With the CLHEP masses and an exact square root, the cross-section at an energy whose
order 0 energy `E0` satisfies `m_e² ≤ d (2 E0 - d)` for a `d` in `[0, E0)`: the order 0
momentum `p0` lies within `d` of `E0`, the order 1 momentum `p1` is the root of `E1² - m_e²`
for the clamped order 1 energy `E1`, and the value is the first statement of
`CrossSection.combine` times `sigma_0 / 2 * hbarc²`. -/
theorem CrossSection_eq_core (m : LibM K) (hm : m.SqrtExact) (e_nu cos_theta E0 d : K)
    (hthr : ¬ e_nu < CrossSection.e_nu_min (clhep : PhysicalConstants K))
    (hE0 : CrossSection.e0 (clhep : PhysicalConstants K) e_nu = E0) (hd0 : 0 ≤ d)
    (hdE : d < E0) (hd : 0.510998910 * 0.510998910 ≤ d * (2 * E0 - d)) :
    ∃ p0 p1 : K, E0 - d ≤ p0 ∧ p0 ≤ E0 ∧ 0 ≤ p1 ∧
      p1 ≤ CrossSection.e1 (clhep : PhysicalConstants K) e_nu cos_theta E0 (p0 / E0) ∧
      p1 * p1 = CrossSection.e1 (clhep : PhysicalConstants K) e_nu cos_theta E0 (p0 / E0)
          * CrossSection.e1 (clhep : PhysicalConstants K) e_nu cos_theta E0 (p0 / E0)
          - 0.510998910 * 0.510998910 ∧
      CrossSection (clhep : PhysicalConstants K) m e_nu cos_theta
        = some ((((1.00 * 1.00 + 3 * 1.26 * 1.26) + (1.00 * 1.00 - 1.26 * 1.26)
              * (p1 / CrossSection.e1 (clhep : PhysicalConstants K) e_nu cos_theta E0 (p0 / E0))
              * cos_theta)
              * CrossSection.e1 (clhep : PhysicalConstants K) e_nu cos_theta E0 (p0 / E0) * p1
            - CrossSection.gamma (clhep : PhysicalConstants K) cos_theta E0 (p0 / E0)
                (0.510998910 * 0.510998910 / E0) (cos_theta / (p0 / E0))
              / 938.272013 * E0 * p0)
          * (CrossSection.sigma_0 (clhep : PhysicalConstants K) / 2
              * ((clhep : PhysicalConstants K).hbarc
                  * (clhep : PhysicalConstants K).hbarc))) := by
  have hme : (clhep : PhysicalConstants K).electron_mass_c2 = 0.510998910 := rfl
  have hsq : (E0 - d) * (E0 - d) = E0 * E0 - d * (2 * E0 - d) := by ring
  obtain ⟨p0, hp0, hp0lo, hp0hi, _⟩ := hm.bounds (x := E0 * E0 - 0.510998910 * 0.510998910)
    (a := E0 - d) (b := E0) (by linarith) (by rw [hsq]; linarith) (by norm_num)
  have hp0pos : (0 : K) < p0 := by linarith
  have hE1ge := CrossSection.e1_ge_electron_mass (clhep : PhysicalConstants K) e_nu cos_theta
    E0 (p0 / E0)
  rw [hme] at hE1ge
  generalize hE1g : CrossSection.e1 (clhep : PhysicalConstants K) e_nu cos_theta E0 (p0 / E0)
    = E1 at hE1ge
  have hE1nn : (0 : K) ≤ E1 := le_trans (by norm_num) hE1ge
  obtain ⟨p1, hp1, hp1lo, hp1hi, hp1sq⟩ := hm.bounds
    (x := E1 * E1 - 0.510998910 * 0.510998910) (a := 0) (b := E1) hE1nn
    (by nlinarith) (by nlinarith)
  have hcs := CrossSection_eq_combine (clhep : PhysicalConstants K) m e_nu cos_theta hthr p0 p1
    (by rw [hE0, hme]; exact hp0) (ne_of_gt hp0pos)
    (by rw [hE0, hE1g, hme]; exact hp1)
  rw [hE0, hE1g, hme, CrossSection.combine_clhep_eq] at hcs
  subst hE1g
  exact ⟨p0, p1, hp0lo, hp0hi, hp1lo, hp1hi, hp1sq, hcs⟩

/-- The recoil term bounds the first statement of `CrossSection.combine` from below: the
order 1 term is not negative. -/
theorem CrossSection.core_lower {cos_theta E0 p0 E1 p1 G Ghi : K} (hc1 : -1 ≤ cos_theta)
    (hc2 : cos_theta ≤ 1) (hE1 : 0 < E1) (hp1 : 0 ≤ p1) (hp1e : p1 ≤ E1) (hp0 : 0 ≤ p0)
    (hp0E : p0 ≤ E0) (hG : G ≤ Ghi) (hGhi : 0 ≤ Ghi) :
    -(Ghi / 938.272013 * E0 * E0)
      ≤ ((1.00 * 1.00 + 3 * 1.26 * 1.26) + (1.00 * 1.00 - 1.26 * 1.26) * (p1 / E1) * cos_theta)
          * E1 * p1 - G / 938.272013 * E0 * p0 := by
  have h1 := CrossSection.order_one_nonneg hc1 hc2 hE1 hp1 hp1e
  have hE0 : 0 ≤ E0 := le_trans hp0 hp0E
  have hEp : E0 * p0 ≤ E0 * E0 := mul_le_mul_of_nonneg_left hp0E hE0
  have hEp0 : 0 ≤ E0 * p0 := mul_nonneg hE0 hp0
  have h2 : G / 938.272013 * E0 * p0 ≤ Ghi / 938.272013 * E0 * E0 := by
    have e1 : G / 938.272013 * E0 * p0 = G / 938.272013 * (E0 * p0) := by ring
    have e2 : Ghi / 938.272013 * E0 * E0 = Ghi / 938.272013 * (E0 * E0) := by ring
    rw [e1, e2]
    have hg : G / 938.272013 ≤ Ghi / 938.272013 :=
      div_le_div_of_nonneg_right hG (by norm_num)
    have hghi : 0 ≤ Ghi / 938.272013 := div_nonneg hGhi (by norm_num)
    calc G / 938.272013 * (E0 * p0) ≤ Ghi / 938.272013 * (E0 * p0) :=
          mul_le_mul_of_nonneg_right hg hEp0
      _ ≤ Ghi / 938.272013 * (E0 * E0) := mul_le_mul_of_nonneg_left hEp hghi
  linarith

/-- The term `gamma` at `e_nu = 942`, `cos_theta = -1` with the CLHEP masses is at least
56000 for a velocity `v0` of at least `0.999`. -/
theorem CrossSection.gamma_envelope_high {v0 a q : K} (hv0lo : 0.999 ≤ v0)
    (ha1 : a ≤ 0.01) (hq1 : q ≤ -1) :
    56000 ≤ CrossSection.gamma (clhep : PhysicalConstants K) (-1) 940.706653 v0 a q := by
  have hD : CrossSection.DELTA (clhep : PhysicalConstants K) = 1.293347 := by
    norm_num [CrossSection.DELTA, clhep]
  unfold CrossSection.gamma
  simp only [hD]
  have hX0 : (1882 : K) ≤ (940.706653 + 1.293347) * (1 - q) - 1.293347 := by linarith
  have hXv0 := mul_nonneg (by linarith : (0 : K) ≤ (940.706653 + 1.293347) * (1 - q) - 1.293347)
    (by linarith : (0 : K) ≤ v0)
  nlinarith

/-- The order 1 energy at `e_nu = 942`, `cos_theta = -1` for a velocity of at least `0.999`
is clamped to the electron mass. -/
theorem CrossSection.e1_envelope_high {v0 : K} (hv0lo : 0.999 ≤ v0) :
    CrossSection.e1 (clhep : PhysicalConstants K) 942 (-1) 940.706653 v0 = 0.510998910 := by
  have hD : CrossSection.DELTA (clhep : PhysicalConstants K) = 1.293347 := by
    norm_num [CrossSection.DELTA, clhep]
  unfold CrossSection.e1
  simp only [hD, show (clhep : PhysicalConstants K).proton_mass_c2 = 938.272013 from rfl,
    show (clhep : PhysicalConstants K).electron_mass_c2 = 0.510998910 from rfl]
  have h0 : (1 : K) ≤ 942 / 938.272013 := by
    rw [le_div_iff₀ (by norm_num)]; norm_num
  have hy0 : (0 : K) ≤ (1.293347 * 1.293347 - 0.510998910 * 0.510998910) / 2 / 938.272013 := by
    norm_num
  generalize (942 : K) / 938.272013 = t at h0 ⊢
  generalize ((1.293347 : K) * 1.293347 - 0.510998910 * 0.510998910) / 2 / 938.272013 = y
    at hy0 ⊢
  have hts : 1 * 1.999 ≤ t * (1 - v0 * -1) :=
    mul_le_mul h0 (by linarith) (by norm_num) (by linarith)
  rw [if_pos]
  nlinarith

/-- With the CLHEP masses and an exact square root, `CrossSection(942, -1)`, the envelope
factor `xs_max` of `highEnergyGenerator`, is a negative number: `c * sigma_0 / 2 * hbarc²`
with `c ≤ -5 * 10⁷`. -/
theorem CrossSection_envelope_high (m : LibM K) (hm : m.SqrtExact) :
    ∃ c0 : K, CrossSection (clhep : PhysicalConstants K) m 942 (-1)
        = some (c0 * (CrossSection.sigma_0 (clhep : PhysicalConstants K) / 2
            * ((clhep : PhysicalConstants K).hbarc * (clhep : PhysicalConstants K).hbarc))) ∧
      c0 ≤ -50000000 := by
  obtain ⟨p0, p1, hp0lo, hp0hi, hp1nn, _, hp1sq, hcs⟩ := CrossSection_eq_core m hm 942 (-1)
    940.706653 0.001 (by norm_num [CrossSection.e_nu_min, CrossSection.DELTA, clhep])
    (by norm_num [CrossSection.e0, CrossSection.DELTA, clhep]) (by norm_num) (by norm_num)
    (by norm_num)
  have hp0pos : (0 : K) < p0 := by linarith
  have hv0lo : (0.999 : K) ≤ p0 / 940.706653 := by
    rw [le_div_iff₀ (by norm_num)]; linarith
  have hv0pos : (0 : K) < p0 / 940.706653 := lt_of_lt_of_le (by norm_num) hv0lo
  have hv0hi : p0 / 940.706653 ≤ 1 := by
    rw [div_le_one (by norm_num)]; exact hp0hi
  have hq1 : -1 / (p0 / 940.706653) ≤ (-1 : K) := by
    rw [div_le_iff₀ hv0pos]; linarith
  have hG := @CrossSection.gamma_envelope_high K _ (p0 / 940.706653)
    ((0.510998910 : K) * 0.510998910 / 940.706653) (-1 / (p0 / 940.706653))
    hv0lo (by norm_num) hq1
  rw [CrossSection.e1_envelope_high hv0lo] at hp1sq hcs
  have hp10 : p1 = 0 := by
    have : p1 * p1 = 0 := by rw [hp1sq]; ring
    exact mul_self_eq_zero.mp this
  rw [hp10] at hcs
  refine ⟨_, hcs, ?_⟩
  generalize CrossSection.gamma (clhep : PhysicalConstants K) (-1) 940.706653
    (p0 / 940.706653) ((0.510998910 : K) * 0.510998910 / 940.706653)
    (-1 / (p0 / 940.706653)) = G at hG ⊢
  have ht : (56000 : K) / 938.272013 * 940.706653 ≤ G / 938.272013 * 940.706653 :=
    mul_le_mul_of_nonneg_right (div_le_div_of_nonneg_right hG (by norm_num)) (by norm_num)
  have ht' : (56100 : K) ≤ G / 938.272013 * 940.706653 := le_trans (by norm_num) ht
  have htp : (56100 : K) * 940 ≤ G / 938.272013 * 940.706653 * p0 :=
    mul_le_mul ht' (by linarith) (by norm_num) (by linarith)
  simp only [mul_zero, zero_sub]
  linarith

/-- With the CLHEP masses and an exact square root, `CrossSection(939, 0)` is a number
`c * sigma_0 / 2 * hbarc²` with `c ≥ -2.6 * 10⁷`. -/
theorem CrossSection_nan_candidate (m : LibM K) (hm : m.SqrtExact) :
    ∃ c1 : K, CrossSection (clhep : PhysicalConstants K) m 939 0
        = some (c1 * (CrossSection.sigma_0 (clhep : PhysicalConstants K) / 2
            * ((clhep : PhysicalConstants K).hbarc * (clhep : PhysicalConstants K).hbarc))) ∧
      -26000000 ≤ c1 := by
  obtain ⟨p0, p1, hp0lo, hp0hi, hp1nn, hp1le, _, hcs⟩ := CrossSection_eq_core m hm 939 0
    937.706653 0.001 (by norm_num [CrossSection.e_nu_min, CrossSection.DELTA, clhep])
    (by norm_num [CrossSection.e0, CrossSection.DELTA, clhep]) (by norm_num) (by norm_num)
    (by norm_num)
  have hE1ge := CrossSection.e1_ge_electron_mass (clhep : PhysicalConstants K) 939 0
    937.706653 (p0 / 937.706653)
  have hE1pos : 0 < CrossSection.e1 (clhep : PhysicalConstants K) 939 0 937.706653
      (p0 / 937.706653) := lt_of_lt_of_le (clhep : PhysicalConstants K).electron_mass_pos hE1ge
  have hG : CrossSection.gamma (clhep : PhysicalConstants K) 0 937.706653 (p0 / 937.706653)
      ((0.510998910 : K) * 0.510998910 / 937.706653) (0 / (p0 / 937.706653)) ≤ 27700 := by
    norm_num [CrossSection.gamma, CrossSection.DELTA, clhep]
  refine ⟨_, hcs, ?_⟩
  have h := CrossSection.core_lower (by norm_num : (-1 : K) ≤ 0) (by norm_num : (0 : K) ≤ 1)
    hE1pos hp1nn hp1le (by linarith : (0 : K) ≤ p0) hp0hi hG (by norm_num)
  exact le_trans (by norm_num) h

/-- The term `gamma` at `e_nu = 941`, `cos_theta = 1/2` with the CLHEP masses is at most
14000 for a velocity `v0` of at least `0.999`. -/
theorem CrossSection.gamma_moving_candidate {v0 a q : K} (hv0lo : 0.999 ≤ v0)
    (ha0 : 0 ≤ a) (hq0 : 0.5 ≤ q) (hq1 : q ≤ 0.51) :
    CrossSection.gamma (clhep : PhysicalConstants K) (1 / 2) 939.706653 v0 a q ≤ 14000 := by
  have hD : CrossSection.DELTA (clhep : PhysicalConstants K) = 1.293347 := by
    norm_num [CrossSection.DELTA, clhep]
  unfold CrossSection.gamma
  simp only [hD]
  have hX0 : (0 : K) ≤ (939.706653 + 1.293347) * (1 - q) - 1.293347 := by linarith
  have hX1 : (939.706653 + 1.293347) * (1 - q) - 1.293347 ≤ 470 := by linarith
  have hXv0 := mul_nonneg hX0 (by linarith : (0 : K) ≤ v0)
  nlinarith

/-- With the CLHEP masses and an exact square root, `CrossSection(941, 1/2)` is a number
`c * sigma_0 / 2 * hbarc²` with `c ≥ -1.4 * 10⁷`. -/
theorem CrossSection_moving_candidate (m : LibM K) (hm : m.SqrtExact) :
    ∃ c2 : K, CrossSection (clhep : PhysicalConstants K) m 941 (1 / 2)
        = some (c2 * (CrossSection.sigma_0 (clhep : PhysicalConstants K) / 2
            * ((clhep : PhysicalConstants K).hbarc * (clhep : PhysicalConstants K).hbarc))) ∧
      -14000000 ≤ c2 := by
  obtain ⟨p0, p1, hp0lo, hp0hi, hp1nn, hp1le, _, hcs⟩ := CrossSection_eq_core m hm 941 (1 / 2)
    939.706653 0.001 (by norm_num [CrossSection.e_nu_min, CrossSection.DELTA, clhep])
    (by norm_num [CrossSection.e0, CrossSection.DELTA, clhep]) (by norm_num) (by norm_num)
    (by norm_num)
  have hE1ge := CrossSection.e1_ge_electron_mass (clhep : PhysicalConstants K) 941 (1 / 2)
    939.706653 (p0 / 939.706653)
  have hE1pos : 0 < CrossSection.e1 (clhep : PhysicalConstants K) 941 (1 / 2) 939.706653
      (p0 / 939.706653) := lt_of_lt_of_le (clhep : PhysicalConstants K).electron_mass_pos hE1ge
  have hv0lo : (0.999 : K) ≤ p0 / 939.706653 := by
    rw [le_div_iff₀ (by norm_num)]; linarith
  have hv0pos : (0 : K) < p0 / 939.706653 := lt_of_lt_of_le (by norm_num) hv0lo
  have hv0hi : p0 / 939.706653 ≤ 1 := by
    rw [div_le_one (by norm_num)]; exact hp0hi
  have hq0 : (0.5 : K) ≤ 1 / 2 / (p0 / 939.706653) := by
    rw [le_div_iff₀ hv0pos]; linarith
  have hq1 : 1 / 2 / (p0 / 939.706653) ≤ (0.51 : K) := by
    rw [div_le_iff₀ hv0pos]; linarith
  have hG := @CrossSection.gamma_moving_candidate K _ (p0 / 939.706653)
    ((0.510998910 : K) * 0.510998910 / 939.706653) (1 / 2 / (p0 / 939.706653))
    hv0lo (by norm_num) hq0 hq1
  refine ⟨_, hcs, ?_⟩
  have h := CrossSection.core_lower (by norm_num : (-1 : K) ≤ 1 / 2)
    (by norm_num : (1 / 2 : K) ≤ 1)
    hE1pos hp1nn hp1le (by linarith : (0 : K) ≤ p0) hp0hi hG (by norm_num)
  exact le_trans (by norm_num) h

/-! ## C14: the rejection envelope against the target -/

/-- The order 1 term of the cross-section, with the velocity `p1 / e1` multiplied out. -/
theorem CrossSection.order_one_eq {cos_theta e1 p1 : K} (he1 : e1 ≠ 0) :
    ((1.00 * 1.00 + 3 * 1.26 * 1.26) + (1.00 * 1.00 - 1.26 * 1.26) * (p1 / e1) * cos_theta)
        * e1 * p1
      = 5.7628 * (e1 * p1) - 0.5876 * cos_theta * (p1 * p1) := by
  field_simp
  ring

/-- The momentum `p1` of an energy `e1 ≥ 30` MeV lies within `0.005` of it. -/
theorem CrossSection.momentum_near_energy {e1 p1 : K} (he1 : 30 ≤ e1) (hp1 : 0 ≤ p1)
    (hsq : p1 * p1 = e1 * e1 - 0.510998910 * 0.510998910) : e1 - 0.005 ≤ p1 := by
  apply le_of_mul_self_le_of_nonneg hp1
  rw [hsq]
  have : (e1 - 0.005) * (e1 - 0.005) = e1 * e1 - 0.01 * e1 + 0.000025 := by ring
  rw [this]
  norm_num
  linarith

/-- The order 1 energy at `e_nu = 50`, `cos_theta = -1` with the CLHEP masses lies in
`[43.51, 43.52]` for a velocity `v0` in `[0.9998, 1]`. -/
theorem CrossSection.e1_fifty_backward {v0 : K} (hv0lo : 0.9998 ≤ v0) (hv0hi : v0 ≤ 1) :
    43.51 ≤ CrossSection.e1 (clhep : PhysicalConstants K) 50 (-1) 48.706653 v0 ∧
      CrossSection.e1 (clhep : PhysicalConstants K) 50 (-1) 48.706653 v0 ≤ 43.52 := by
  have hD : CrossSection.DELTA (clhep : PhysicalConstants K) = 1.293347 := by
    norm_num [CrossSection.DELTA, clhep]
  unfold CrossSection.e1
  simp only [hD, show (clhep : PhysicalConstants K).proton_mass_c2 = 938.272013 from rfl,
    show (clhep : PhysicalConstants K).electron_mass_c2 = 0.510998910 from rfl]
  have ht0 : (0.05328 : K) ≤ 50 / 938.272013 := by
    rw [le_div_iff₀ (by norm_num)]; norm_num
  have ht1 : (50 : K) / 938.272013 ≤ 0.0533 := by
    rw [div_le_iff₀ (by norm_num)]; norm_num
  have hy0 : (0 : K) ≤ (1.293347 * 1.293347 - 0.510998910 * 0.510998910) / 2 / 938.272013 := by
    norm_num
  have hy1 : ((1.293347 : K) * 1.293347 - 0.510998910 * 0.510998910) / 2 / 938.272013
      ≤ 0.001 := by
    rw [div_le_iff₀ (by norm_num)]; norm_num
  generalize (50 : K) / 938.272013 = t at ht0 ht1 ⊢
  generalize ((1.293347 : K) * 1.293347 - 0.510998910 * 0.510998910) / 2 / 938.272013 = y
    at hy0 hy1 ⊢
  have hlo : 0.05328 * 1.9998 ≤ t * (1 - v0 * -1) :=
    mul_le_mul ht0 (by linarith) (by norm_num) (by linarith)
  have hhi : t * (1 - v0 * -1) ≤ 0.0533 * 2 :=
    mul_le_mul ht1 (by linarith) (by linarith) (by norm_num)
  generalize t * (1 - v0 * -1) = s at hlo hhi ⊢
  rw [if_neg (by rw [not_lt]; linarith)]
  constructor <;> linarith

/-- The term `gamma` at `e_nu = 50`, `cos_theta = -1` with the CLHEP masses lies in
`[2900, 3000]` for a velocity `v0` in `[0.9998, 1]`. -/
theorem CrossSection.gamma_fifty_backward {v0 a q : K} (hv0lo : 0.9998 ≤ v0) (hv0hi : v0 ≤ 1)
    (ha0 : 0 ≤ a) (ha1 : a ≤ 0.01) (hq0 : -1.0003 ≤ q) (hq1 : q ≤ -1) :
    2900 ≤ CrossSection.gamma (clhep : PhysicalConstants K) (-1) 48.706653 v0 a q ∧
      CrossSection.gamma (clhep : PhysicalConstants K) (-1) 48.706653 v0 a q ≤ 3000 := by
  have hD : CrossSection.DELTA (clhep : PhysicalConstants K) = 1.293347 := by
    norm_num [CrossSection.DELTA, clhep]
  unfold CrossSection.gamma
  simp only [hD]
  have hX0 : (98.7 : K) ≤ (48.706653 + 1.293347) * (1 - q) - 1.293347 := by linarith
  have hX1 : (48.706653 + 1.293347) * (1 - q) - 1.293347 ≤ (98.73 : K) := by linarith
  generalize (48.706653 + 1.293347) * (1 - q) - 1.293347 = X at hX0 hX1 ⊢
  have hXv0 : 98.7 * 0.9998 ≤ X * v0 := mul_le_mul hX0 hv0lo (by norm_num) (by linarith)
  have hXv1 : X * v0 ≤ 98.73 * 1 := mul_le_mul hX1 hv0hi (by linarith) (by norm_num)
  have e : (1.00 * 1.00 - 1.26 * 1.26 : K) * X * v0 * -1 = 0.5876 * (X * v0) := by ring
  rw [e]
  generalize X * v0 = Y at hXv0 hXv1 ⊢
  constructor <;> linarith

/-- The first statement of `CrossSection.combine` at `e_nu = 50`, `cos_theta = -1` lies in
`[4000, 5000]` for an order 1 energy in `[43.51, 43.52]`, momenta within `0.005` of their
energies and a term `gamma` in `[2900, 3000]`. -/
theorem CrossSection.core_fifty_backward {p0 E1 p1 G : K} (hp0lo : 48.706653 - 0.005 ≤ p0)
    (hp0hi : p0 ≤ 48.706653) (hE0 : 43.51 ≤ E1) (hE1 : E1 ≤ 43.52) (hp1lo : E1 - 0.005 ≤ p1)
    (hp1le : p1 ≤ E1) (hG0 : 2900 ≤ G) (hG1 : G ≤ 3000) :
    4000 ≤ ((1.00 * 1.00 + 3 * 1.26 * 1.26) + (1.00 * 1.00 - 1.26 * 1.26) * (p1 / E1) * -1)
          * E1 * p1 - G / 938.272013 * 48.706653 * p0 ∧
      ((1.00 * 1.00 + 3 * 1.26 * 1.26) + (1.00 * 1.00 - 1.26 * 1.26) * (p1 / E1) * -1)
          * E1 * p1 - G / 938.272013 * 48.706653 * p0 ≤ 5000 := by
  have hp1nn : 0 ≤ p1 := by linarith
  rw [CrossSection.order_one_eq (by linarith : E1 ≠ 0)]
  have hEp0 : 43.51 * 43.505 ≤ E1 * p1 := mul_le_mul hE0 (by linarith) (by norm_num) (by linarith)
  have hEp1 : E1 * p1 ≤ 43.52 * 43.52 := mul_le_mul hE1 (by linarith) hp1nn (by norm_num)
  have hpp0 : 43.505 * 43.505 ≤ p1 * p1 :=
    mul_le_mul (by linarith) (by linarith) (by norm_num) hp1nn
  have hpp1 : p1 * p1 ≤ 43.52 * 43.52 :=
    mul_le_mul (by linarith) (by linarith) hp1nn (by norm_num)
  have hGp0 : 2900 * 48.7 ≤ G * p0 := mul_le_mul hG0 (by linarith) (by norm_num) (by linarith)
  have hGp1 : G * p0 ≤ 3000 * 48.706653 := mul_le_mul hG1 hp0hi (by linarith) (by norm_num)
  have e : G / 938.272013 * 48.706653 * p0 = (G * p0) * (48.706653 / 938.272013) := by ring
  rw [e]
  have hr0 : (0.0519 : K) ≤ 48.706653 / 938.272013 := by
    rw [le_div_iff₀ (by norm_num)]; norm_num
  have hr1 : (48.706653 : K) / 938.272013 ≤ 0.05192 := by
    rw [div_le_iff₀ (by norm_num)]; norm_num
  generalize (48.706653 : K) / 938.272013 = r at hr0 hr1 ⊢
  have hT0 : 2900 * 48.7 * 0.0519 ≤ G * p0 * r :=
    mul_le_mul hGp0 hr0 (by norm_num) (by linarith)
  have hT1 : G * p0 * r ≤ 3000 * 48.706653 * 0.05192 :=
    mul_le_mul hGp1 hr1 (by linarith) (by norm_num)
  generalize G * p0 * r = T at hT0 hT1 ⊢
  generalize E1 * p1 = EP at hEp0 hEp1 ⊢
  generalize p1 * p1 = PP at hpp0 hpp1 ⊢
  constructor <;> linarith

/-- With the CLHEP masses and an exact square root, `CrossSection(50, -1)`, the envelope
factor `xs_max` of a spectrum that ends at 50 MeV, is a positive number:
`c * sigma_0 / 2 * hbarc²` with `4000 ≤ c ≤ 5000`. -/
theorem CrossSection_fifty_backward (m : LibM K) (hm : m.SqrtExact) :
    ∃ c0 : K, CrossSection (clhep : PhysicalConstants K) m 50 (-1)
        = some (c0 * (CrossSection.sigma_0 (clhep : PhysicalConstants K) / 2
            * ((clhep : PhysicalConstants K).hbarc * (clhep : PhysicalConstants K).hbarc))) ∧
      4000 ≤ c0 ∧ c0 ≤ 5000 := by
  obtain ⟨p0, p1, hp0lo, hp0hi, hp1nn, hp1le, hp1sq, hcs⟩ := CrossSection_eq_core m hm 50 (-1)
    48.706653 0.005 (by norm_num [CrossSection.e_nu_min, CrossSection.DELTA, clhep])
    (by norm_num [CrossSection.e0, CrossSection.DELTA, clhep]) (by norm_num) (by norm_num)
    (by norm_num)
  have hp0pos : (0 : K) < p0 := by linarith
  have hv0lo : (0.9998 : K) ≤ p0 / 48.706653 := by
    rw [le_div_iff₀ (by norm_num)]; linarith
  have hv0pos : (0 : K) < p0 / 48.706653 := lt_of_lt_of_le (by norm_num) hv0lo
  have hv0hi : p0 / 48.706653 ≤ 1 := by
    rw [div_le_one (by norm_num)]; exact hp0hi
  have hq1 : -1 / (p0 / 48.706653) ≤ (-1 : K) := by
    rw [div_le_iff₀ hv0pos]; linarith
  have hq0 : (-1.0003 : K) ≤ -1 / (p0 / 48.706653) := by
    rw [le_div_iff₀ hv0pos]; linarith
  obtain ⟨hG0, hG1⟩ := @CrossSection.gamma_fifty_backward K _ (p0 / 48.706653)
    ((0.510998910 : K) * 0.510998910 / 48.706653) (-1 / (p0 / 48.706653))
    hv0lo hv0hi (by norm_num) (by norm_num) hq0 hq1
  obtain ⟨hE0, hE1⟩ := @CrossSection.e1_fifty_backward K _ (p0 / 48.706653) hv0lo hv0hi
  refine ⟨_, hcs, ?_⟩
  have hp1lo := CrossSection.momentum_near_energy (le_trans (by norm_num) hE0) hp1nn hp1sq
  exact CrossSection.core_fifty_backward hp0lo hp0hi hE0 hE1 hp1lo hp1le hG0 hG1

/-- The order 1 energy at `e_nu = 40`, `cos_theta = 1/2` with the CLHEP masses lies in
`[37.87, 37.89]` for a velocity `v0` in `[0.9998, 1]`. -/
theorem CrossSection.e1_forty_half {v0 : K} (hv0lo : 0.9998 ≤ v0) (hv0hi : v0 ≤ 1) :
    37.87 ≤ CrossSection.e1 (clhep : PhysicalConstants K) 40 (1 / 2) 38.706653 v0 ∧
      CrossSection.e1 (clhep : PhysicalConstants K) 40 (1 / 2) 38.706653 v0 ≤ 37.89 := by
  have hD : CrossSection.DELTA (clhep : PhysicalConstants K) = 1.293347 := by
    norm_num [CrossSection.DELTA, clhep]
  unfold CrossSection.e1
  simp only [hD, show (clhep : PhysicalConstants K).proton_mass_c2 = 938.272013 from rfl,
    show (clhep : PhysicalConstants K).electron_mass_c2 = 0.510998910 from rfl]
  have ht0 : (0.0426 : K) ≤ 40 / 938.272013 := by
    rw [le_div_iff₀ (by norm_num)]; norm_num
  have ht1 : (40 : K) / 938.272013 ≤ 0.04264 := by
    rw [div_le_iff₀ (by norm_num)]; norm_num
  have hy0 : (0 : K) ≤ (1.293347 * 1.293347 - 0.510998910 * 0.510998910) / 2 / 938.272013 := by
    norm_num
  have hy1 : ((1.293347 : K) * 1.293347 - 0.510998910 * 0.510998910) / 2 / 938.272013
      ≤ 0.001 := by
    rw [div_le_iff₀ (by norm_num)]; norm_num
  generalize (40 : K) / 938.272013 = t at ht0 ht1 ⊢
  generalize ((1.293347 : K) * 1.293347 - 0.510998910 * 0.510998910) / 2 / 938.272013 = y
    at hy0 hy1 ⊢
  have hlo : 0.0426 * 0.5 ≤ t * (1 - v0 * (1 / 2)) :=
    mul_le_mul ht0 (by linarith) (by norm_num) (by linarith)
  have hhi : t * (1 - v0 * (1 / 2)) ≤ 0.04264 * 0.5001 :=
    mul_le_mul ht1 (by linarith) (by linarith) (by norm_num)
  generalize t * (1 - v0 * (1 / 2)) = s at hlo hhi ⊢
  rw [if_neg (by rw [not_lt]; linarith)]
  constructor <;> linarith

/-- The term `gamma` at `e_nu = 40`, `cos_theta = 1/2` with the CLHEP masses is at most 600
for a velocity `v0` of at least `0.9998`. -/
theorem CrossSection.gamma_forty_half {v0 a q : K} (hv0lo : 0.9998 ≤ v0) (ha0 : 0 ≤ a)
    (hq0 : 0.5 ≤ q) (hq1 : q ≤ 0.5002) :
    CrossSection.gamma (clhep : PhysicalConstants K) (1 / 2) 38.706653 v0 a q ≤ 600 := by
  have hD : CrossSection.DELTA (clhep : PhysicalConstants K) = 1.293347 := by
    norm_num [CrossSection.DELTA, clhep]
  unfold CrossSection.gamma
  simp only [hD]
  have hX0 : (18.69 : K) ≤ (38.706653 + 1.293347) * (1 - q) - 1.293347 := by linarith
  have hX1 : (38.706653 + 1.293347) * (1 - q) - 1.293347 ≤ (18.71 : K) := by linarith
  generalize (38.706653 + 1.293347) * (1 - q) - 1.293347 = X at hX0 hX1 ⊢
  have hXv0 : 0 ≤ X * v0 := mul_nonneg (by linarith) (by linarith)
  have e : (1.00 * 1.00 - 1.26 * 1.26 : K) * X * v0 * (1 / 2) = -(0.2938 * (X * v0)) := by ring
  rw [e]
  generalize X * v0 = Y at hXv0 ⊢
  linarith

/-- With the CLHEP masses and an exact square root, `CrossSection(40, 1/2)` is a number
`c * sigma_0 / 2 * hbarc²` with `c ≥ 6500`. -/
theorem CrossSection_forty_half (m : LibM K) (hm : m.SqrtExact) :
    ∃ c1 : K, CrossSection (clhep : PhysicalConstants K) m 40 (1 / 2)
        = some (c1 * (CrossSection.sigma_0 (clhep : PhysicalConstants K) / 2
            * ((clhep : PhysicalConstants K).hbarc * (clhep : PhysicalConstants K).hbarc))) ∧
      6500 ≤ c1 := by
  obtain ⟨p0, p1, hp0lo, hp0hi, hp1nn, hp1le, hp1sq, hcs⟩ := CrossSection_eq_core m hm 40
    (1 / 2) 38.706653 0.005 (by norm_num [CrossSection.e_nu_min, CrossSection.DELTA, clhep])
    (by norm_num [CrossSection.e0, CrossSection.DELTA, clhep]) (by norm_num) (by norm_num)
    (by norm_num)
  have hp0pos : (0 : K) < p0 := by linarith
  have hv0lo : (0.9998 : K) ≤ p0 / 38.706653 := by
    rw [le_div_iff₀ (by norm_num)]; linarith
  have hv0pos : (0 : K) < p0 / 38.706653 := lt_of_lt_of_le (by norm_num) hv0lo
  have hv0hi : p0 / 38.706653 ≤ 1 := by
    rw [div_le_one (by norm_num)]; exact hp0hi
  have hq0 : (0.5 : K) ≤ 1 / 2 / (p0 / 38.706653) := by
    rw [le_div_iff₀ hv0pos]; linarith
  have hq1 : 1 / 2 / (p0 / 38.706653) ≤ (0.5002 : K) := by
    rw [div_le_iff₀ hv0pos]; linarith
  have hG1 := @CrossSection.gamma_forty_half K _ (p0 / 38.706653)
    ((0.510998910 : K) * 0.510998910 / 38.706653) (1 / 2 / (p0 / 38.706653))
    hv0lo (by norm_num) hq0 hq1
  obtain ⟨hE0, hE1⟩ := @CrossSection.e1_forty_half K _ (p0 / 38.706653) hv0lo hv0hi
  refine ⟨_, hcs, ?_⟩
  generalize CrossSection.gamma (clhep : PhysicalConstants K) (1 / 2) 38.706653
    (p0 / 38.706653) ((0.510998910 : K) * 0.510998910 / 38.706653)
    (1 / 2 / (p0 / 38.706653)) = G at hG1 ⊢
  generalize CrossSection.e1 (clhep : PhysicalConstants K) 40 (1 / 2) 38.706653
    (p0 / 38.706653) = E1 at hE0 hE1 hp1le hp1sq ⊢
  have hp1lo := CrossSection.momentum_near_energy (by linarith : (30 : K) ≤ E1) hp1nn hp1sq
  rw [CrossSection.order_one_eq (by linarith : E1 ≠ 0)]
  have hEp0 : 37.87 * 37.865 ≤ E1 * p1 := mul_le_mul hE0 (by linarith) (by norm_num) (by linarith)
  have hpp1 : p1 * p1 ≤ 37.89 * 37.89 :=
    mul_le_mul (by linarith) (by linarith) hp1nn (by norm_num)
  have hGp1 : G * p0 ≤ 600 * 38.706653 := by
    rcases le_or_lt 0 G with hG0 | hG0
    · exact mul_le_mul hG1 hp0hi (by linarith) (by norm_num)
    · have := mul_nonpos_of_nonpos_of_nonneg (le_of_lt hG0) (le_of_lt hp0pos)
      linarith
  have e : G / 938.272013 * 38.706653 * p0 = (G * p0) * (38.706653 / 938.272013) := by ring
  rw [e]
  have hr0 : (0 : K) ≤ 38.706653 / 938.272013 := by norm_num
  have hr1 : (38.706653 : K) / 938.272013 ≤ 0.0413 := by
    rw [div_le_iff₀ (by norm_num)]; norm_num
  generalize (38.706653 : K) / 938.272013 = r at hr0 hr1 ⊢
  have hT1 : G * p0 * r ≤ 600 * 38.706653 * 0.0413 := by
    rcases le_or_lt 0 (G * p0) with h0 | h0
    · exact mul_le_mul hGp1 hr1 hr0 (by norm_num)
    · have := mul_nonpos_of_nonpos_of_nonneg (le_of_lt h0) hr0
      linarith
  generalize G * p0 * r = T at hT1 ⊢
  generalize E1 * p1 = EP at hEp0 ⊢
  generalize p1 * p1 = PP at hpp1 ⊢
  clear hcs hp1sq hGp1 hG1
  linarith

/-- C14 on two flat spectra with `flux_max = 1.0`, each with two points, strictly increasing
energies, non-negative fluxes and `flux_max` their maximum.  On `[(1.8, 1.0), (50.0, 1.0)]`
the envelope `CrossSection(50, -1) * flux_max` is positive, and at `e = 40` MeV, inside
`[e_min, e_max]`, and `cos_theta = 1/2` the target
`CrossSection(40, 1/2) * InterpolateSpectrum(40)` is above it by a factor of more than `5/4`.
On `[(1.8, 1.0), (100.0, 1.0)]` the envelope `CrossSection(100, -1) * flux_max` is strictly
negative while at `e = 10` MeV and `cos_theta = 0` the target
`CrossSection(10, 0) * InterpolateSpectrum(10)` is strictly positive, and the envelope stays
below the target for every other value of `flux_max` that is not negative. -/
theorem envelope_below_target :
    (((flatFiftyGenerator : Generator ℝ).flux.length
          = (flatFiftyGenerator : Generator ℝ).energy.length ∧
        2 ≤ (flatFiftyGenerator : Generator ℝ).energy.length ∧
        StrictlyIncreasing (flatFiftyGenerator : Generator ℝ).energy ∧
        (∀ f ∈ (flatFiftyGenerator : Generator ℝ).flux, 0 ≤ f) ∧
        (flatFiftyGenerator : Generator ℝ).flux_max ∈ (flatFiftyGenerator : Generator ℝ).flux ∧
        (∀ f ∈ (flatFiftyGenerator : Generator ℝ).flux,
          f ≤ (flatFiftyGenerator : Generator ℝ).flux_max) ∧
        (flatFiftyGenerator : Generator ℝ).e_min ≤ 40 ∧
        40 ≤ (flatFiftyGenerator : Generator ℝ).e_max ∧
        (-1 : ℝ) ≤ 1 / 2 ∧ (1 / 2 : ℝ) ≤ 1) ∧
      ∃ w fl x : ℝ,
        CrossSection (clhep : PhysicalConstants ℝ) realLibM 40 (1 / 2) = some w ∧
        InterpolateSpectrum (flatFiftyGenerator : Generator ℝ).energy
          (flatFiftyGenerator : Generator ℝ).flux 40 = some fl ∧
        CrossSection (clhep : PhysicalConstants ℝ) realLibM
          (flatFiftyGenerator : Generator ℝ).e_max (-1) = some x ∧
        0 < x * (flatFiftyGenerator : Generator ℝ).flux_max ∧
        5 / 4 * (x * (flatFiftyGenerator : Generator ℝ).flux_max) < w * fl ∧
        ¬ (w * fl ≤ x * (flatFiftyGenerator : Generator ℝ).flux_max)) ∧
    (((flatGenerator : Generator ℝ).flux.length = (flatGenerator : Generator ℝ).energy.length ∧
        2 ≤ (flatGenerator : Generator ℝ).energy.length ∧
        StrictlyIncreasing (flatGenerator : Generator ℝ).energy ∧
        (∀ f ∈ (flatGenerator : Generator ℝ).flux, 0 ≤ f) ∧
        (flatGenerator : Generator ℝ).flux_max ∈ (flatGenerator : Generator ℝ).flux ∧
        (∀ f ∈ (flatGenerator : Generator ℝ).flux,
          f ≤ (flatGenerator : Generator ℝ).flux_max) ∧
        (flatGenerator : Generator ℝ).e_min ≤ 10 ∧ 10 ≤ (flatGenerator : Generator ℝ).e_max ∧
        (-1 : ℝ) ≤ 0 ∧ (0 : ℝ) ≤ 1) ∧
      ∃ w fl x : ℝ,
        CrossSection (clhep : PhysicalConstants ℝ) realLibM 10 0 = some w ∧
        InterpolateSpectrum (flatGenerator : Generator ℝ).energy
          (flatGenerator : Generator ℝ).flux 10 = some fl ∧
        CrossSection (clhep : PhysicalConstants ℝ) realLibM
          (flatGenerator : Generator ℝ).e_max (-1) = some x ∧
        ¬ (w * fl ≤ x * (flatGenerator : Generator ℝ).flux_max) ∧
        ∀ F : ℝ, 0 ≤ F → ¬ (w * fl ≤ x * F)) := by
  constructor
  · refine ⟨by norm_num [flatFiftyGenerator, StrictlyIncreasing], ?_⟩
    obtain ⟨c1, hw, hc1⟩ := CrossSection_forty_half realLibM realLibM_sqrtExact
    obtain ⟨c0, hx, hc0lo, hc0hi⟩ := CrossSection_fifty_backward realLibM realLibM_sqrtExact
    have hk := @CrossSection.scale_clhep_pos ℝ _
    have hemax : (flatFiftyGenerator : Generator ℝ).e_max = 50 := by
      norm_num [flatFiftyGenerator]
    have hfm : (flatFiftyGenerator : Generator ℝ).flux_max = 1 := by
      norm_num [flatFiftyGenerator]
    have hfl : InterpolateSpectrum (flatFiftyGenerator : Generator ℝ).energy
        (flatFiftyGenerator : Generator ℝ).flux 40 = some 1 := by
      norm_num [InterpolateSpectrum, InterpolateSpectrum.loop, InterpolateSpectrum.bracket,
        fdiv, flatFiftyGenerator]
    refine ⟨_, 1, _, hw, hfl, by rw [hemax]; exact hx, ?_⟩
    rw [hfm, mul_one, mul_one]
    generalize CrossSection.sigma_0 (clhep : PhysicalConstants ℝ) / 2
      * ((clhep : PhysicalConstants ℝ).hbarc * (clhep : PhysicalConstants ℝ).hbarc) = κ at hk ⊢
    have h0 : 0 < c0 * κ := mul_pos (by linarith) hk
    have h1 : c0 * κ ≤ 5000 * κ := mul_le_mul_of_nonneg_right hc0hi (le_of_lt hk)
    have h2 : 6500 * κ ≤ c1 * κ := mul_le_mul_of_nonneg_right hc1 (le_of_lt hk)
    exact ⟨h0, by linarith, by linarith⟩
  · refine ⟨by norm_num [flatGenerator, StrictlyIncreasing], ?_⟩
    obtain ⟨w, hw, hwpos⟩ := CrossSection_ten_zero_pos realLibM realLibM_sqrtExact
    obtain ⟨x, hx, hxneg⟩ := CrossSection_hundred_backward_neg realLibM realLibM_sqrtExact
    have hemax : (flatGenerator : Generator ℝ).e_max = 100 := by norm_num [flatGenerator]
    have hfl : InterpolateSpectrum (flatGenerator : Generator ℝ).energy
        (flatGenerator : Generator ℝ).flux 10 = some 1 := by
      norm_num [InterpolateSpectrum, InterpolateSpectrum.loop, InterpolateSpectrum.bracket,
        fdiv, flatGenerator]
    refine ⟨w, 1, x, hw, hfl, by rw [hemax]; exact hx, ?_, ?_⟩
    · have hfm : (flatGenerator : Generator ℝ).flux_max = 1 := by norm_num [flatGenerator]
      rw [hfm]
      linarith
    · intro F hF h
      have hxF : x * F ≤ 0 := mul_nonpos_of_nonpos_of_nonneg (le_of_lt hxneg) hF
      linarith

/-! ## The sampler on a spectrum around the neutron mass -/

/-- The draws of `nanDraws` lie in `[0, 1]`. -/
theorem nanDraws_uniform : UniformDraws (nanDraws : Nat → K) := by
  intro k
  unfold nanDraws
  split_ifs <;> constructor <;> norm_num

/-- The draws of `movingDraws` lie in `[0, 1]`. -/
theorem movingDraws_uniform : UniformDraws (movingDraws : Nat → K) := by
  intro k
  unfold movingDraws
  split_ifs <;> constructor <;> norm_num

/-- With the CLHEP masses and an exact square root, `GenInteraction` on `highEnergyGenerator`
accepts the first candidate of `nanDraws` read from counter 2, the energy 939 MeV and the
cosine 0: the envelope `xs_max * flux_max * 3/4` is below the weight, both being negative. -/
theorem GenInteraction_nan_candidate (m : LibM K) (hm : m.SqrtExact) :
    GenInteraction (clhep : PhysicalConstants K) m highEnergyGenerator nanDraws 1 2
      = some (939, 0, 5) := by
  obtain ⟨c0, hx, hc0⟩ := CrossSection_envelope_high m hm
  obtain ⟨c1, hw, hc1⟩ := CrossSection_nan_candidate m hm
  have hk := @CrossSection.scale_clhep_pos K _
  generalize CrossSection.sigma_0 (clhep : PhysicalConstants K) / 2
    * ((clhep : PhysicalConstants K).hbarc * (clhep : PhysicalConstants K).hbarc) = κ
    at hx hw hk
  have hene : (highEnergyGenerator : Generator K).e_min
      + ((highEnergyGenerator : Generator K).e_max - (highEnergyGenerator : Generator K).e_min)
        * nanDraws 2 = 939 := by
    norm_num [highEnergyGenerator, nanDraws]
  have hcos : (-1 : K) + 2 * nanDraws (2 + 1) = 0 := by
    norm_num [nanDraws]
  have hflux : InterpolateSpectrum (highEnergyGenerator : Generator K).energy
      (highEnergyGenerator : Generator K).flux 939 = some 1 := by
    norm_num [InterpolateSpectrum, InterpolateSpectrum.loop, InterpolateSpectrum.bracket,
      fdiv, highEnergyGenerator]
  have h := GenInteraction.loop_accept (clhep : PhysicalConstants K) m highEnergyGenerator
    (some (c0 * κ)) nanDraws 0 2 (c0 * κ) (c1 * κ) 1 rfl (by rw [hene, hcos]; exact hw)
    (by rw [hene]; exact hflux)
    (by
      have hfm : (highEnergyGenerator : Generator K).flux_max = 1 := by
        norm_num [highEnergyGenerator]
      have hu : (nanDraws (2 + 2) : K) = 3 / 4 := by norm_num [nanDraws]
      rw [hfm, hu]
      nlinarith)
  rw [hene, hcos] at h
  unfold GenInteraction
  have hemax : (highEnergyGenerator : Generator K).e_max = 942 := by
    norm_num [highEnergyGenerator]
  rw [hemax, hx]
  exact h

/-- With the CLHEP masses and an exact square root, `GenInteraction` on `highEnergyGenerator`
accepts the first candidate of `movingDraws` read from counter 2, the energy 941 MeV and the
cosine `1/2`. -/
theorem GenInteraction_moving_candidate (m : LibM K) (hm : m.SqrtExact) :
    GenInteraction (clhep : PhysicalConstants K) m highEnergyGenerator movingDraws 1 2
      = some (941, 1 / 2, 5) := by
  obtain ⟨c0, hx, hc0⟩ := CrossSection_envelope_high m hm
  obtain ⟨c2, hw, hc2⟩ := CrossSection_moving_candidate m hm
  have hk := @CrossSection.scale_clhep_pos K _
  generalize CrossSection.sigma_0 (clhep : PhysicalConstants K) / 2
    * ((clhep : PhysicalConstants K).hbarc * (clhep : PhysicalConstants K).hbarc) = κ
    at hx hw hk
  have hene : (highEnergyGenerator : Generator K).e_min
      + ((highEnergyGenerator : Generator K).e_max - (highEnergyGenerator : Generator K).e_min)
        * movingDraws 2 = 941 := by
    norm_num [highEnergyGenerator, movingDraws]
  have hcos : (-1 : K) + 2 * movingDraws (2 + 1) = 1 / 2 := by
    norm_num [movingDraws]
  have hflux : InterpolateSpectrum (highEnergyGenerator : Generator K).energy
      (highEnergyGenerator : Generator K).flux 941 = some 1 := by
    norm_num [InterpolateSpectrum, InterpolateSpectrum.loop, InterpolateSpectrum.bracket,
      fdiv, highEnergyGenerator]
  have h := GenInteraction.loop_accept (clhep : PhysicalConstants K) m highEnergyGenerator
    (some (c0 * κ)) movingDraws 0 2 (c0 * κ) (c2 * κ) 1 rfl (by rw [hene, hcos]; exact hw)
    (by rw [hene]; exact hflux)
    (by
      have hfm : (highEnergyGenerator : Generator K).flux_max = 1 := by
        norm_num [highEnergyGenerator]
      have hu : (movingDraws (2 + 2) : K) = 3 / 4 := by norm_num [movingDraws]
      rw [hfm, hu]
      nlinarith)
  rw [hene, hcos] at h
  unfold GenInteraction
  have hemax : (highEnergyGenerator : Generator K).e_max = 942 := by
    norm_num [highEnergyGenerator]
  rw [hemax, hx]
  exact h

/-- With the CLHEP masses and an exact square root, `PositronEnergy(939, 0)` is not a number:
its order 0 energy `939 - M_n + m_e` is about `-0.054`, of square below `m_e²`. -/
theorem PositronEnergy_nan_candidate (m : LibM K) (hm : m.SqrtExact) :
    PositronEnergy (clhep : PhysicalConstants K) m 939 0 = none :=
  PositronEnergy_eq_none (clhep : PhysicalConstants K) m hm 939 0
    (by norm_num [PositronEnergy.e0, clhep])

/-- With the CLHEP masses and an exact square root, `PositronEnergy(941, 1/2)` is a number
of at least `0.6` MeV, above the electron mass. -/
theorem PositronEnergy_moving_candidate (m : LibM K) (hm : m.SqrtExact) :
    ∃ e1 : K, PositronEnergy (clhep : PhysicalConstants K) m 941 (1 / 2) = some e1 ∧
      0.6 ≤ e1 := by
  obtain ⟨p0, hp0nn, hp0sq, hp⟩ := PositronEnergy_eq_e1 (clhep : PhysicalConstants K) m hm
    941 (1 / 2) (by norm_num [PositronEnergy.e0, clhep])
  have hE0 : PositronEnergy.e0 (clhep : PhysicalConstants K) 941 = 1.945638910 := by
    norm_num [PositronEnergy.e0, clhep]
  rw [hE0] at hp hp0sq
  refine ⟨_, hp, ?_⟩
  have hp0lo : (1.8 : K) ≤ p0 := by
    apply le_of_mul_self_le_of_nonneg hp0nn
    rw [hp0sq]
    norm_num [clhep]
  have hv0lo : (0.9 : K) ≤ p0 / 1.945638910 := by
    rw [le_div_iff₀ (by norm_num)]; linarith
  generalize p0 / 1.945638910 = v0 at hv0lo
  unfold PositronEnergy.e1
  simp only [show (clhep : PhysicalConstants K).proton_mass_c2 = 938.272013 from rfl,
    show (clhep : PhysicalConstants K).neutron_mass_c2 = 939.56536 from rfl,
    show (clhep : PhysicalConstants K).electron_mass_c2 = 0.510998910 from rfl]
  have h1 : (941 : K) / 938.272013 ≤ 1.003 := by
    rw [div_le_iff₀ (by norm_num)]; norm_num
  have h0 : (0 : K) ≤ 941 / 938.272013 := by norm_num
  have hy1 : ((939.56536 : K) - 938.272013) * (939.56536 - 938.272013) / 2 / 938.272013
      ≤ 0.001 := by
    norm_num
  generalize (941 : K) / 938.272013 = t at h0 h1 ⊢
  generalize ((939.56536 : K) - 938.272013) * (939.56536 - 938.272013) / 2 / 938.272013 = y
    at hy1 ⊢
  have hraw : (0.6 : K) ≤ 1.945638910 * (1 - t * (1 - v0 * (1 / 2))) - y := by
    by_cases hv : 1 - v0 * (1 / 2) ≤ 0
    · have : t * (1 - v0 * (1 / 2)) ≤ 0 := mul_nonpos_of_nonneg_of_nonpos h0 hv
      nlinarith
    · have hts : t * (1 - v0 * (1 / 2)) ≤ 1.003 * 0.55 :=
        mul_le_mul h1 (by linarith) (by linarith) (by norm_num)
      nlinarith
  split_ifs with hc
  · exfalso
    linarith
  · exact hraw

/-- The `double` nearest to `0.1`, `3602879701896397 / 2 ^ 55`, is a `double`. -/
theorem binary64_tenth_double :
    binary64 ((3602879701896397 : ℚ) / 36028797018963968) = ((3602879701896397 : ℚ) / 36028797018963968) := by
  have h : binary64
      (((3602879701896397 : ℚ) / 36028797018963968))
      = ((3602879701896397 : ℚ) / 36028797018963968) := by
    have hx : (0 : ℚ) <
        ((3602879701896397 : ℚ) / 36028797018963968) := by norm_num
    rw [binary64_eq
      (((3602879701896397 : ℚ) / 36028797018963968))
      (7205759403792794) (-56) ((1 : ℚ) / 2 ^ 56) (by norm_num)
      (by rw [abs_of_pos hx]; norm_num) (by rw [abs_of_pos hx]; norm_num)
      (Or.inl (by rw [abs_lt]; constructor <;> norm_num))]
    norm_num
  exact h

/-- The number 941 is a `double`. -/
theorem binary64_nine_hundred_forty_one :
    binary64 (941 : ℚ) = (941 : ℚ) := by
  have h : binary64
      ((941 : ℚ))
      = (941 : ℚ) := by
    have hx : (0 : ℚ) <
        (941 : ℚ) := by norm_num
    rw [binary64_eq
      ((941 : ℚ))
      (8277123533897728) (-43) ((1 : ℚ) / 2 ^ 43) (by norm_num)
      (by rw [abs_of_pos hx]; norm_num) (by rw [abs_of_pos hx]; norm_num)
      (Or.inl (by rw [abs_lt]; constructor <;> norm_num))]
    norm_num
  exact h

/-- The subtraction of `GenEvent` in `double` arithmetic does not undo an addition: for the
`double`s `941` and `b = 3602879701896397 / 2 ^ 55`, the nearest to `0.1`, the rounded
difference `941 - b` plus `b` is not `941`. -/
theorem ThreeVector.roundedSub_add_ne :
    (ThreeVector.add
      (ThreeVector.roundedSub binary64 (⟨(941 : ℚ), 0, 0⟩ : ThreeVector ℚ)
        ⟨((3602879701896397 : ℚ) / 36028797018963968), 0, 0⟩)
      ⟨((3602879701896397 : ℚ) / 36028797018963968), 0, 0⟩).x ≠ (941 : ℚ) := by
  have h : binary64
      ((941 : ℚ) - ((3602879701896397 : ℚ) / 36028797018963968))
      = ((8276243924595507 : ℚ) / 8796093022208) := by
    have hx : (0 : ℚ) <
        (941 : ℚ) - ((3602879701896397 : ℚ) / 36028797018963968) := by norm_num
    rw [binary64_eq
      ((941 : ℚ) - ((3602879701896397 : ℚ) / 36028797018963968))
      (8276243924595507) (-43) ((1 : ℚ) / 2 ^ 43) (by norm_num)
      (by rw [abs_of_pos hx]; norm_num) (by rw [abs_of_pos hx]; norm_num)
      (Or.inl (by rw [abs_lt]; constructor <;> norm_num))]
    norm_num
  simp only [ThreeVector.add, ThreeVector.roundedSub]
  rw [h]
  norm_num

/-! ## Rounded sums of squares -/

/-- A rounded number that is not negative lies between `(1 - u)` and `(1 + u)` times its
argument. -/
theorem Rounding.rel_bounds {rnd : K → K} {u : K} (hr : Rounding rnd u) {x : K} (hx : 0 ≤ x) :
    (1 - u) * x ≤ rnd x ∧ rnd x ≤ (1 + u) * x := by
  have h := abs_le.mp (hr x)
  rw [abs_of_nonneg hx] at h
  constructor <;> linarith [h.1, h.2]

/-- A rounding of unit roundoff below `1` maps a positive number to a positive one. -/
theorem Rounding.pos_of_pos {rnd : K → K} {u : K} (hr : Rounding rnd u) (hu1 : u < 1)
    {x : K} (hx : 0 < x) : 0 < rnd x :=
  lt_of_lt_of_le (mul_pos (by linarith) hx) (hr.rel_bounds hx.le).1

/-- With an exact square root and unit roundoff at most `1/64`, the rounded momentum
magnitude `sqrt(e1 * e1 - m * m)` of an energy `e1 ≥ 3/5` and a mass `0 ≤ m ≤ 13/25` is a
positive number. -/
theorem rounded_momentum_isSome {rnd : K → K} {u : K} (hr : Rounding rnd u) (hu : u ≤ 1 / 64)
    (m : LibM K) (hm : m.SqrtExact) (e1 me : K) (hme0 : 0 ≤ me) (hme : me ≤ 13 / 25)
    (he1 : 3 / 5 ≤ e1) :
    ∃ p1, (m.sqrt (rnd (rnd (e1 * e1) - rnd (me * me)))).map rnd = some p1 ∧ 0 < p1 := by
  have hu0 := hr.nonneg
  have hA : (9 : K) / 25 ≤ e1 * e1 := by nlinarith
  have hB : me * me ≤ 169 / 625 := by nlinarith
  have hB0 := mul_self_nonneg me
  obtain ⟨a1, _⟩ := hr.rel_bounds (le_trans (by norm_num) hA)
  obtain ⟨_, b2⟩ := hr.rel_bounds hB0
  generalize e1 * e1 = A at hA a1
  generalize me * me = B at hB hB0 b2
  have hd : 0 < rnd A - rnd B := by
    have h1 : (1 - u) * (9 / 25) ≤ (1 - u) * A := mul_le_mul_of_nonneg_left hA (by linarith)
    have h2 : (1 + u) * B ≤ (1 + u) * (169 / 625) := mul_le_mul_of_nonneg_left hB (by linarith)
    linarith
  have hS := hr.pos_of_pos (by linarith) hd
  obtain ⟨r, hr1, hr0, hrsq⟩ := (hm _).2 hS.le
  have hrpos : 0 < r := by
    rcases hr0.eq_or_lt with h | h
    · rw [← h, mul_zero] at hrsq
      exact absurd hrsq (ne_of_lt hS)
    · exact h
  exact ⟨rnd r, by rw [hr1, Option.map_some'], hr.pos_of_pos (by linarith) hrpos⟩

/-! ## C8 and C12: the events of `GenEvent` -/

/-- `GenEvent` returns the outputs computed from the pair that `GenInteraction` returns. -/
theorem GenEvent_of_pair (c : PhysicalConstants K) (m : LibM K) (rnd : K → K)
    (g : Generator K) (rand : Nat → K) (fuel k : Nat) (e_nu cos_theta : K) (k2 : Nat)
    (hGI : GenInteraction c m g rand fuel (k + 2) = some (e_nu, cos_theta, k2)) :
    GenEvent c m rnd g rand fuel k
      = some (GenEvent.outputs c m rnd rand k e_nu cos_theta k2, k2 + 1) := by
  simp only [GenEvent, hGI]

/-- An event returned by `GenEvent` is made of the outputs computed from a pair that
`GenInteraction` returned. -/
theorem GenEvent_inv (c : PhysicalConstants K) (m : LibM K) (rnd : K → K) (g : Generator K)
    (rand : Nat → K) (fuel k : Nat) (ev : Event K) (k' : Nat)
    (h : GenEvent c m rnd g rand fuel k = some (ev, k')) :
    ∃ (e_nu cos_theta : K) (k2 : Nat),
      GenInteraction c m g rand fuel (k + 2) = some (e_nu, cos_theta, k2) ∧
      ev = GenEvent.outputs c m rnd rand k e_nu cos_theta k2 ∧ k' = k2 + 1 := by
  unfold GenEvent at h
  cases hGI : GenInteraction c m g rand fuel (k + 2) with
  | none =>
    rw [hGI] at h
    exact absurd h (by simp)
  | some r =>
    obtain ⟨e_nu, cos_theta, k2⟩ := r
    rw [hGI] at h
    simp only [Option.some.injEq, Prod.mk.injEq] at h
    exact ⟨e_nu, cos_theta, k2, rfl, h.1.symm, h.2.symm⟩

/-- The neutrino energy written by `GenEvent` is the energy of the pair. -/
theorem GenEvent.outputs_neutrino_e (c : PhysicalConstants K) (m : LibM K) (rnd : K → K)
    (rand : Nat → K) (k : Nat) (e_nu cos_theta : K) (k2 : Nat) :
    (GenEvent.outputs c m rnd rand k e_nu cos_theta k2).neutrino.e = some e_nu := rfl

/-- The positron energy written by `GenEvent` is the value of `PositronEnergy`. -/
theorem GenEvent.outputs_positron_e (c : PhysicalConstants K) (m : LibM K) (rnd : K → K)
    (rand : Nat → K) (k : Nat) (e_nu cos_theta : K) (k2 : Nat) :
    (GenEvent.outputs c m rnd rand k e_nu cos_theta k2).positron.e
      = PositronEnergy c m e_nu cos_theta := rfl

/-- When the positron momentum written by `GenEvent` is a number, so are the polar angle of
the direction, the positron energy and the momentum magnitude it was computed from. -/
theorem GenEvent.outputs_positron_vect (c : PhysicalConstants K) (m : LibM K) (rnd : K → K)
    (rand : Nat → K) (k : Nat) (e_nu cos_theta : K) (k2 : Nat) (p : ThreeVector K)
    (hp : (GenEvent.outputs c m rnd rand k e_nu cos_theta k2).positron.vect = some p) :
    ∃ theta_nu e1 p1 : K, m.acos (2 * rand k - 1) = some theta_nu ∧
      PositronEnergy c m e_nu cos_theta = some e1 ∧
      (m.sqrt (rnd (rnd (e1 * e1) - rnd (c.electron_mass_c2 * c.electron_mass_c2)))).map rnd
        = some p1 ∧
      GenEvent.pos_momentum m (ThreeVector.setRThetaPhi m 1 theta_nu (2 * rand (k + 1) * c.pi))
        p1 cos_theta (2 * c.pi * rand k2) = some p := by
  simp only [GenEvent.outputs, Option.bind_eq_bind, Option.bind_eq_some,
    Option.map_eq_some'] at hp
  obtain ⟨d, ⟨theta_nu, h1, hd⟩, p1, ⟨e1, h2, h3⟩, h4⟩ := hp
  subst hd
  exact ⟨theta_nu, e1, p1, h1, h2, Option.map_eq_some'.mpr h3, h4⟩

/-- The outputs of `GenEvent` when the polar angle, the positron energy, the momentum
magnitude and the positron momentum are numbers. -/
theorem GenEvent.outputs_eq (c : PhysicalConstants K) (m : LibM K) (rnd : K → K)
    (rand : Nat → K) (k : Nat) (e_nu cos_theta : K) (k2 : Nat) (theta_nu e1 p1 : K)
    (p : ThreeVector K) (h1 : m.acos (2 * rand k - 1) = some theta_nu)
    (h2 : PositronEnergy c m e_nu cos_theta = some e1)
    (h3 : (m.sqrt (rnd (rnd (e1 * e1) - rnd (c.electron_mass_c2 * c.electron_mass_c2)))).map
        rnd = some p1)
    (h4 : GenEvent.pos_momentum m
        (ThreeVector.setRThetaPhi m 1 theta_nu (2 * rand (k + 1) * c.pi))
        p1 cos_theta (2 * c.pi * rand k2) = some p) :
    GenEvent.outputs c m rnd rand k e_nu cos_theta k2
      = ⟨some (ThreeVector.setRThetaPhi m 1 theta_nu (2 * rand (k + 1) * c.pi)),
          ⟨some (ThreeVector.roundedSmul rnd e_nu
              (ThreeVector.setRThetaPhi m 1 theta_nu (2 * rand (k + 1) * c.pi))), some e_nu⟩,
          ⟨some p, some e1⟩,
          ⟨some (ThreeVector.roundedSub rnd
              (ThreeVector.roundedSmul rnd e_nu
                (ThreeVector.setRThetaPhi m 1 theta_nu (2 * rand (k + 1) * c.pi))) p),
            (m.sqrt (rnd (ThreeVector.roundedMag2 rnd (ThreeVector.roundedSub rnd
              (ThreeVector.roundedSmul rnd e_nu
                (ThreeVector.setRThetaPhi m 1 theta_nu (2 * rand (k + 1) * c.pi))) p)
              + rnd (c.neutron_mass_c2 * c.neutron_mass_c2)))).map rnd⟩⟩ := by
  simp only [GenEvent.outputs, h1, h2, h3, h4, Option.map_some', Option.some_bind,
    Option.bind_eq_bind, Option.pure_def]

/-- When `PositronEnergy` is not a number, `GenEvent` writes a positron and a neutron without
a single number. -/
theorem GenEvent.outputs_nan (c : PhysicalConstants K) (m : LibM K) (rnd : K → K)
    (rand : Nat → K) (k : Nat) (e_nu cos_theta : K) (k2 : Nat)
    (h2 : PositronEnergy c m e_nu cos_theta = none) :
    (GenEvent.outputs c m rnd rand k e_nu cos_theta k2).positron = ⟨none, none⟩ ∧
      (GenEvent.outputs c m rnd rand k e_nu cos_theta k2).neutron = ⟨none, none⟩ := by
  unfold GenEvent.outputs
  rw [h2]
  cases m.acos (2 * rand k - 1) <;> simp

/-- With an exact square root and an arc cosine defined on `[-1, 1]`, the positron momentum
is a vector for every cosine in `[-1, 1]`. -/
theorem GenEvent.pos_momentum_isSome (m : LibM K) (hm : m.SqrtExact) (hacos : m.AcosDefined)
    (nu_dir : ThreeVector K) (p1 cos_theta phi : K) (hc1 : -1 ≤ cos_theta)
    (hc2 : cos_theta ≤ 1) :
    ∃ pos, GenEvent.pos_momentum m nu_dir p1 cos_theta phi = some pos := by
  obtain ⟨theta, hth⟩ := hacos cos_theta hc1 hc2
  obtain ⟨axis, hax⟩ := ThreeVector.rotate_isSome m hm (ThreeVector.orthogonal nu_dir) phi
    nu_dir
  obtain ⟨pos, hpos⟩ := ThreeVector.rotate_isSome m hm (ThreeVector.smul p1 nu_dir) theta axis
  exact ⟨pos, by
    simp only [GenEvent.pos_momentum, hth, hax, hpos, Option.bind_eq_bind, Option.some_bind]⟩

/-- With exact square root and trigonometry, the positron momentum built on a unit direction
has the length `|p1|`: its squared length is `p1²`. -/
theorem GenEvent.pos_momentum_mag2 (m : LibM K) (hm : m.SqrtExact) (ht : m.TrigExact)
    (nu_dir : ThreeVector K) (hunit : nu_dir.mag2 = 1) (p1 cos_theta phi : K)
    (pos : ThreeVector K) (h : GenEvent.pos_momentum m nu_dir p1 cos_theta phi = some pos) :
    pos.mag2 = p1 * p1 := by
  simp only [GenEvent.pos_momentum, Option.bind_eq_bind, Option.bind_eq_some] at h
  obtain ⟨theta, _, axis, _, hrot⟩ := h
  rw [ThreeVector.rotate_mag2 m hm ht _ theta axis pos hrot, ThreeVector.smul_mag2, hunit,
    mul_one]

/-- C8, amended: for every event produced by `GenEvent` whose positron momentum is a number,
whatever the draws and the pair returned by `GenInteraction`, the neutrino and neutron
momenta are numbers, the neutron momentum is the difference of the neutrino and positron
momenta rounded component by component, and in arithmetic of unit roundoff `u` the neutron
momentum plus the positron momentum differs from the neutrino momentum by at most
`u |neutrino - positron|` in each component; with `u = 0` the two are equal. -/
theorem GenEvent_momentum_conservation (c : PhysicalConstants K) (m : LibM K) (rnd : K → K)
    (u : K) (hr : Rounding rnd u) (g : Generator K) (rand : Nat → K) (fuel k : Nat)
    (ev : Event K) (k' : Nat) (h : GenEvent c m rnd g rand fuel k = some (ev, k'))
    (p : ThreeVector K) (hp : ev.positron.vect = some p) :
    ∃ nu n : ThreeVector K, ev.neutrino.vect = some nu ∧ ev.neutron.vect = some n ∧
      n = ThreeVector.roundedSub rnd nu p ∧
      |n.x + p.x - nu.x| ≤ u * |nu.x - p.x| ∧
      |n.y + p.y - nu.y| ≤ u * |nu.y - p.y| ∧
      |n.z + p.z - nu.z| ≤ u * |nu.z - p.z| := by
  obtain ⟨e_nu, cos_theta, k2, _, hev, _⟩ := GenEvent_inv c m rnd g rand fuel k ev k' h
  subst hev
  obtain ⟨theta_nu, e1, p1, h1, h2, h3, h4⟩ :=
    GenEvent.outputs_positron_vect c m rnd rand k e_nu cos_theta k2 p hp
  rw [GenEvent.outputs_eq c m rnd rand k e_nu cos_theta k2 theta_nu e1 p1 p h1 h2 h3 h4]
  refine ⟨_, _, rfl, rfl, rfl, ?_, ?_, ?_⟩
  · have e : ∀ a b : K, rnd (a - b) + b - a = rnd (a - b) - (a - b) := fun a b => by ring
    simp only [ThreeVector.roundedSub]
    rw [e]
    exact hr _
  · have e : ∀ a b : K, rnd (a - b) + b - a = rnd (a - b) - (a - b) := fun a b => by ring
    simp only [ThreeVector.roundedSub]
    rw [e]
    exact hr _
  · have e : ∀ a b : K, rnd (a - b) + b - a = rnd (a - b) - (a - b) := fun a b => by ring
    simp only [ThreeVector.roundedSub]
    rw [e]
    exact hr _

/-- With the CLHEP masses, exact square root and an arc cosine defined on `[-1, 1]`,
`GenEvent` on `highEnergyGenerator` with the stream `nanDraws` produces an event: the pair
`(939, 0)` is accepted, the neutrino has the energy 939 MeV, and the positron and the neutron
have no number in them, because `PositronEnergy(939, 0)` is not a number. -/
theorem GenEvent_nan_event (m : LibM K) (hm : m.SqrtExact) (rnd : K → K) :
    ∃ ev : Event K,
      GenEvent (clhep : PhysicalConstants K) m rnd highEnergyGenerator nanDraws 1 0
        = some (ev, 6) ∧
      ev.neutrino.e = some 939 ∧ ev.positron = ⟨none, none⟩ ∧ ev.neutron = ⟨none, none⟩ := by
  have hev := GenEvent_of_pair (clhep : PhysicalConstants K) m rnd highEnergyGenerator nanDraws
    1 0 939 0 5 (GenInteraction_nan_candidate m hm)
  obtain ⟨hpos, hneu⟩ := GenEvent.outputs_nan (clhep : PhysicalConstants K) m rnd nanDraws 0
    939 0 5 (PositronEnergy_nan_candidate m hm)
  exact ⟨_, hev, rfl, hpos, hneu⟩

/-- With the CLHEP masses, exact square root and trigonometry, an arc cosine defined on
`[-1, 1]` and a rounding of unit roundoff `u ≤ 1/64`, `GenEvent` on `highEnergyGenerator`
with the stream `movingDraws` produces an event: the pair `(941, 1/2)` is accepted, the
neutrino has the energy 941 MeV, and the positron has a momentum that is a number and not
zero. -/
theorem GenEvent_moving_event (m : LibM K) (hm : m.SqrtExact) (ht : m.TrigExact)
    (hacos : m.AcosDefined) (rnd : K → K) (u : K) (hr : Rounding rnd u) (hu : u ≤ 1 / 64) :
    ∃ (ev : Event K) (p : ThreeVector K),
      GenEvent (clhep : PhysicalConstants K) m rnd highEnergyGenerator movingDraws 1 0
        = some (ev, 6) ∧
      ev.neutrino.e = some 941 ∧ ev.positron.vect = some p ∧ 0 < p.mag2 := by
  have hev := GenEvent_of_pair (clhep : PhysicalConstants K) m rnd highEnergyGenerator
    movingDraws 1 0 941 (1 / 2) 5 (GenInteraction_moving_candidate m hm)
  obtain ⟨theta_nu, h1⟩ := hacos (2 * movingDraws 0 - 1)
    (by linarith [(@movingDraws_uniform K _ 0).1]) (by linarith [(@movingDraws_uniform K _ 0).2])
  obtain ⟨e1, h2, he1⟩ := PositronEnergy_moving_candidate m hm
  have hme : (clhep : PhysicalConstants K).electron_mass_c2 = 0.510998910 := rfl
  obtain ⟨p1, h3, hp1⟩ := rounded_momentum_isSome hr hu m hm e1
    (clhep : PhysicalConstants K).electron_mass_c2 (by rw [hme]; norm_num)
    (by rw [hme]; norm_num) (by linarith)
  obtain ⟨p, h4⟩ := GenEvent.pos_momentum_isSome m hm hacos
    (ThreeVector.setRThetaPhi m 1 theta_nu
      (2 * movingDraws (0 + 1) * (clhep : PhysicalConstants K).pi))
    p1 (1 / 2) (2 * (clhep : PhysicalConstants K).pi * movingDraws 5) (by norm_num)
    (by norm_num)
  have hout := GenEvent.outputs_eq (clhep : PhysicalConstants K) m rnd movingDraws 0 941
    (1 / 2) 5 theta_nu e1 p1 p h1 h2 h3 h4
  have hmag := GenEvent.pos_momentum_mag2 m hm ht _
    (ThreeVector.setRThetaPhi_mag2 m ht theta_nu _) p1 (1 / 2) _ p h4
  refine ⟨_, p, hev, rfl, by rw [hout], ?_⟩
  rw [hmag]
  exact mul_pos hp1 hp1

/-- C8, as stated, fails on an event that `GenEvent` produces: on the flat spectrum
`[(938, 1), (942, 1)]` with draws inside `(0, 1)` the pair `(939, 0)` is accepted, the
neutrino has the energy 939 MeV, and the positron and neutron momenta are not numbers, so no
three vectors of numbers are the momenta of this event, let alone three that add up.  And
where the momenta are numbers, the subtraction that yields the neutron momentum is rounded:
for the `double`s `941` and `b = 3602879701896397 / 2 ^ 55` the rounded difference `941 - b`
plus `b` is not `941`. -/
theorem GenEvent_momentum_conservation_counterexample :
    (UniformDraws (nanDraws : Nat → ℝ) ∧
      ∃ ev : Event ℝ,
        GenEvent (clhep : PhysicalConstants ℝ) realLibM binary64 highEnergyGenerator
          nanDraws 1 0 = some (ev, 6) ∧
        ev.neutrino.e = some 939 ∧ ev.positron.vect = none ∧ ev.neutron.vect = none ∧
        ¬ ∃ n p nu : ThreeVector ℝ, ev.neutron.vect = some n ∧ ev.positron.vect = some p ∧
            ev.neutrino.vect = some nu ∧ ThreeVector.add n p = nu) ∧
    (ThreeVector.add
      (ThreeVector.roundedSub binary64 (⟨(941 : ℚ), 0, 0⟩ : ThreeVector ℚ)
        ⟨((3602879701896397 : ℚ) / 36028797018963968), 0, 0⟩)
      ⟨((3602879701896397 : ℚ) / 36028797018963968), 0, 0⟩).x ≠ (941 : ℚ) := by
  obtain ⟨ev, hev, hnu, hpos, hneu⟩ := GenEvent_nan_event realLibM realLibM_sqrtExact
    (binary64 : ℝ → ℝ)
  refine ⟨⟨nanDraws_uniform, ev, hev, hnu, by rw [hpos], by rw [hneu], ?_⟩,
    ThreeVector.roundedSub_add_ne⟩
  rintro ⟨n, p, nu, hn, _, _, _⟩
  rw [hneu] at hn
  exact absurd hn (by simp)

/-- C8 amended, in `double` arithmetic on the flat spectrum `[(938, 1), (942, 1)]`: the
event of the accepted pair `(941, 1/2)` has a positron momentum that is a number and not
zero, and its momenta add up within one rounding per component. -/
theorem GenEvent_momentum_conservation_witness :
    ∃ (ev : Event ℝ) (p : ThreeVector ℝ),
      GenEvent (clhep : PhysicalConstants ℝ) realLibM binary64 highEnergyGenerator
        movingDraws 1 0 = some (ev, 6) ∧
      ev.positron.vect = some p ∧ 0 < p.mag2 ∧
      ∃ nu n : ThreeVector ℝ, ev.neutrino.vect = some nu ∧ ev.neutron.vect = some n ∧
        n = ThreeVector.roundedSub binary64 nu p ∧
        |n.x + p.x - nu.x| ≤ 1 / 2 ^ 53 * |nu.x - p.x| ∧
        |n.y + p.y - nu.y| ≤ 1 / 2 ^ 53 * |nu.y - p.y| ∧
        |n.z + p.z - nu.z| ≤ 1 / 2 ^ 53 * |nu.z - p.z| := by
  obtain ⟨ev, p, hev, _, hp, hmag⟩ := GenEvent_moving_event realLibM realLibM_sqrtExact
    realLibM_trigExact realLibM_acosDefined (binary64 : ℝ → ℝ) (1 / 2 ^ 53) binary64_rounding
    (by norm_num)
  exact ⟨ev, p, hev, hp, hmag, GenEvent_momentum_conservation (clhep : PhysicalConstants ℝ)
    realLibM binary64 (1 / 2 ^ 53) binary64_rounding highEnergyGenerator movingDraws 1 0 ev 6
    hev p hp⟩

/-- The positron momentum of an event returned by `GenEvent`, when it is a number, is
`GenEvent.pos_momentum` at the direction, the momentum magnitude `p1` (the rounded
`sqrt(e1*e1 - electron_mass_c2*electron_mass_c2)`), the cosine and the azimuth of that
event. -/
theorem GenEvent_positron_eq_pos_momentum (c : PhysicalConstants K) (m : LibM K)
    (rnd : K → K) (g : Generator K) (rand : Nat → K) (fuel k : Nat) (ev : Event K) (k' : Nat)
    (h : GenEvent c m rnd g rand fuel k = some (ev, k'))
    (p : ThreeVector K) (hp : ev.positron.vect = some p) :
    ∃ (e_nu cos_theta : K) (k2 : Nat) (d : ThreeVector K) (e1 p1 : K),
      GenInteraction c m g rand fuel (k + 2) = some (e_nu, cos_theta, k2) ∧
      ev.nu_dir = some d ∧ ev.positron.e = some e1 ∧
      (m.sqrt (rnd (rnd (e1 * e1) - rnd (c.electron_mass_c2 * c.electron_mass_c2)))).map rnd
        = some p1 ∧
      GenEvent.pos_momentum m d p1 cos_theta (2 * c.pi * rand k2) = some p := by
  obtain ⟨e_nu, cos_theta, k2, hGI, hev, _⟩ := GenEvent_inv c m rnd g rand fuel k ev k' h
  subst hev
  obtain ⟨theta_nu, e1, p1, h1, h2, h3, h4⟩ :=
    GenEvent.outputs_positron_vect c m rnd rand k e_nu cos_theta k2 p hp
  refine ⟨e_nu, cos_theta, k2, _, e1, p1, hGI, ?_, ?_, h3, h4⟩
  · rw [GenEvent.outputs_eq c m rnd rand k e_nu cos_theta k2 theta_nu e1 p1 p h1 h2 h3 h4]
  · rw [GenEvent.outputs_positron_e, h2]

end WCSimIBDGen
